import Mathlib

/-!
# bfsvtab: breadth-first search virtual table

A shallow embedding of `src/bfsvtab.c`.

Conventions of the embedding.

* `sqlite3_int64` values are `Int`.  The traversal only compares ids and copies them, so
  no wrap-around is involved there; where the code narrows a 64-bit value to a C `int`
  (`sqlite3_result_int`, the `%d` conversion) the narrowing is written out as `int32`.
  The `distance + 1` of `bfsvtabNext` and the `short int` heights of the tree are left
  unwrapped: a wrap would need more than `2^63` queued records, respectively a tree of
  height `2^15`.
* A pointer to a `bfsvtab_avl` is a tree, `null` being the NULL pointer.  The `pUp`
  links are not stored: the walk of `bfsvtabAvlBalance` from the insertion point up to
  the root is the return path of the recursive descent of `bfsvtabAvlInsertAt`.
* The queue keeps the chain hanging off `pFirst` as a list, and `pLast` apart.
* The host database is seen through what it answers: a value is the record of what the
  accessor functions return for it, a prepared statement is the rows it yields for a
  bound parameter together with the status that `sqlite3_reset` reports afterwards.
* Allocation (`sqlite3_malloc`, `sqlite3_mprintf`, `sqlite3_str_*`) is taken to succeed.
-/

namespace Bfsvtab

/-! ## Host constants (sqlite3.h) -/

/-- Host status: success. -/
def SQLITE_OK : Int := 0
/-- Host status: library used incorrectly (for instance a NULL statement handle). -/
def SQLITE_MISUSE : Int := 21
/-- Host fundamental datatype code of integers. -/
def SQLITE_INTEGER : Int := 1
/-- Host fundamental datatype code of SQL NULL. -/
def SQLITE_NULL : Int := 5

/-- Conversion of a 64-bit value to a C `int` (two's complement, low 32 bits). -/
def int32 (x : Int) : Int := (x + 2 ^ 31) % 2 ^ 32 - 2 ^ 31

/-- A host value (`sqlite3_value`, or column 0 of the current statement row), given by what
the accessors return: `sqlite3_value_type`/`sqlite3_column_type`,
`sqlite3_value_int64`/`sqlite3_column_int64` and `sqlite3_value_text`. -/
structure sqlite3_value where
  type : Int
  int64 : Int
  text : Option String

/-- A prepared neighbour statement: `step id` lists column 0 of the rows that successive
`sqlite3_step` calls return with `?1` bound to `id`, up to the first call that does not return
`SQLITE_ROW`; `reset id` is the status `sqlite3_reset` reports after that. -/
structure sqlite3_stmt where
  step : Int → List sqlite3_value
  reset : Int → Int

/-- The host database connection: `prepare zSql` is the status of `sqlite3_prepare_v2` and the
statement handle it stores, `errmsg` is what `sqlite3_errmsg` returns. -/
structure sqlite3 where
  prepare : String → Int × Option sqlite3_stmt
  errmsg : String

/-! ## AVL tree (visited set) -/

/-- The `struct bfsvtab_avl`, seen from a pointer to it. -/
inductive bfsvtab_avl where
  | null : bfsvtab_avl
  | node (id parent : Int) (pBefore pAfter : bfsvtab_avl) (height imbalance : Int) : bfsvtab_avl

/-- The expression `p ? p->height : 0`. -/
def bfsvtab_avl.heightOr0 : bfsvtab_avl → Int
  | .null => 0
  | .node _ _ _ _ h _ => h

/-- The field `p->imbalance` (of a node). -/
def bfsvtab_avl.imbalanceOf : bfsvtab_avl → Int
  | .null => 0
  | .node _ _ _ _ _ i => i

/-- Recompute the height and imbalance fields of `p` from the heights of its children. -/
def bfsvtabAvlRecomputeHeight : bfsvtab_avl → bfsvtab_avl
  | .null => .null
  | .node id parent pBefore pAfter _ _ =>
    let hBefore := pBefore.heightOr0
    let hAfter := pAfter.heightOr0
    .node id parent pBefore pAfter ((if hBefore > hAfter then hBefore else hAfter) + 1)
      (hBefore - hAfter)

/-- Rotation that lifts the `pBefore` child `B` of `P` above `P`.  The code dereferences
`pP->pBefore`; a `P` without that child is returned as it is here.  That case does not arise in
a traversal: see `balanceStepDefined` and `query_next_defined`. -/
def bfsvtabAvlRotateBefore : bfsvtab_avl → bfsvtab_avl
  | .node idP parP (.node idB parB pX pY hB iB) pZ hP iP =>
    let pP := bfsvtabAvlRecomputeHeight (.node idP parP pY pZ hP iP)
    bfsvtabAvlRecomputeHeight (.node idB parB pX pP hB iB)
  | p => p

/-- Rotation that lifts the `pAfter` child `A` of `P` above `P`; a `P` without that child is
returned as it is (see `bfsvtabAvlRotateBefore`). -/
def bfsvtabAvlRotateAfter : bfsvtab_avl → bfsvtab_avl
  | .node idP parP pX (.node idA parA pY pZ hA iA) hP iP =>
    let pP := bfsvtabAvlRecomputeHeight (.node idP parP pX pY hP iP)
    bfsvtabAvlRecomputeHeight (.node idA parA pP pZ hA iA)
  | p => p

/-- One turn of the loop of `bfsvtabAvlBalance`, at node `p`: recompute, then repair an
imbalance of two by a single or double rotation.  The result is what the parent link of `p`
(or the root pointer) refers to afterwards. -/
def bfsvtabAvlBalanceStep (p : bfsvtab_avl) : bfsvtab_avl :=
  match bfsvtabAvlRecomputeHeight p with
  | .null => .null
  | .node id parent pBefore pAfter h imb =>
    if imb ≥ 2 then
      let pB := if pBefore.imbalanceOf < 0 then bfsvtabAvlRotateAfter pBefore else pBefore
      bfsvtabAvlRotateBefore (.node id parent pB pAfter h imb)
    else if imb ≤ -2 then
      let pA := if pAfter.imbalanceOf > 0 then bfsvtabAvlRotateBefore pAfter else pAfter
      bfsvtabAvlRotateAfter (.node id parent pBefore pA h imb)
    else .node id parent pBefore pAfter h imb

/-- Search the tree for an entry with the given id; NULL when there is none. -/
def bfsvtabAvlSearch : bfsvtab_avl → Int → bfsvtab_avl
  | .null, _ => .null
  | .node pid parent pBefore pAfter h i, id =>
    if id ≠ pid then
      (if id < pid then bfsvtabAvlSearch pBefore id else bfsvtabAvlSearch pAfter id)
    else .node pid parent pBefore pAfter h i

/-- The descent of `bfsvtabAvlInsert` below a non-NULL head, with the rebalancing walk back up.
The first component is the value returned (the existing entry, or NULL once the new record is
linked in), the second is the subtree afterwards. -/
def bfsvtabAvlInsertAt (newId newParent : Int) : bfsvtab_avl → bfsvtab_avl × bfsvtab_avl
  | .null => (.null, .node newId newParent .null .null 1 0)
  | .node id parent pBefore pAfter h i =>
    if newId < id then
      match bfsvtabAvlInsertAt newId newParent pBefore with
      | (.null, pB) => (.null, bfsvtabAvlBalanceStep (.node id parent pB pAfter h i))
      | (found, _) => (found, .node id parent pBefore pAfter h i)
    else if newId > id then
      match bfsvtabAvlInsertAt newId newParent pAfter with
      | (.null, pA) => (.null, bfsvtabAvlBalanceStep (.node id parent pBefore pA h i))
      | (found, _) => (found, .node id parent pBefore pAfter h i)
    else (.node id parent pBefore pAfter h i, .node id parent pBefore pAfter h i)

/-- The fields of a `struct bfsvtab_avl` that is handed around by pointer, such as the record
`pNew` of `bfsvtabAvlInsert`; `pUp` is the id of the entry it points to, `none` for a NULL
pointer. -/
structure bfsvtab_avl_record where
  id : Int
  parent : Int
  pBefore : bfsvtab_avl
  pAfter : bfsvtab_avl
  pUp : Option Int
  height : Int
  imbalance : Int

/-- The record of the entry with the id of `r` in the tree below a link of the entry `up` (of
the head pointer for `none`), as the search order finds it; `r` itself when there is none. -/
def bfsvtab_avl.recordAt : bfsvtab_avl → Option Int → bfsvtab_avl_record → bfsvtab_avl_record
  | .null, _, r => r
  | .node id parent pBefore pAfter h i, up, r =>
    if r.id < id then pBefore.recordAt (some id) r
    else if r.id > id then pAfter.recordAt (some id) r
    else { id := id, parent := parent, pBefore := pBefore, pAfter := pAfter, pUp := up,
           height := h, imbalance := i }

/-- Insert the new record `pNew`.  Returns the value returned by the C function, the head of
the tree afterwards, and the record `*pNew` afterwards.  When an entry with the id exists the
function returns before any store to `*pNew`.  Otherwise `*pNew` is linked in (stores to
`pUp`, `pBefore`, `pAfter`, `height`, `imbalance`) and takes part in the rebalancing, so it
is read back from the tree. -/
def bfsvtabAvlInsert (ppHead : bfsvtab_avl) (pNew : bfsvtab_avl_record) :
    bfsvtab_avl × bfsvtab_avl × bfsvtab_avl_record :=
  match ppHead with
  | .null =>
    let head := bfsvtabAvlBalanceStep (.node pNew.id pNew.parent .null .null 1 0)
    (.null, head, head.recordAt none pNew)
  | p =>
    let r := bfsvtabAvlInsertAt pNew.id pNew.parent p
    (r.1, r.2,
      match r.1 with
      | .null => r.2.recordAt none pNew
      | _ => pNew)

/-! ## Queue of frontier records -/

/-- The `struct bfsvtab_node`; the link `pList` is the list structure of the queue. -/
structure bfsvtab_node where
  id : Int
  parent : Int
  distance : Int
deriving DecidableEq, Repr

/-- The `struct bfsvtab_queue`: the chain of records reachable from `pFirst`, and the record
`pLast` points to. -/
structure bfsvtab_queue where
  pFirst : List bfsvtab_node
  pLast : Option bfsvtab_node
deriving DecidableEq, Repr

/-- Add a node to the end of the queue. -/
def queuePush (pQueue : bfsvtab_queue) (pNode : bfsvtab_node) : bfsvtab_queue :=
  match pQueue.pLast with
  | some _ => { pFirst := pQueue.pFirst ++ [pNode], pLast := some pNode }
  | none => { pFirst := [pNode], pLast := some pNode }

/-- Extract the oldest element from the queue. -/
def queuePull (pQueue : bfsvtab_queue) : Option bfsvtab_node × bfsvtab_queue :=
  match pQueue.pFirst with
  | [] => (none, pQueue)
  | p :: rest =>
    (some p, { pFirst := rest, pLast := if rest.isEmpty then none else pQueue.pLast })

/-! ## Virtual table and cursor -/

/-- The `struct bfsvtab_vtab`: the table-level binding and the error message of the base
class. -/
structure bfsvtab_vtab where
  zErrMsg : Option String
  zTableName : Option String
  zFromColumn : Option String
  zToColumn : Option String
  zOrderByColumn : Option String

/-- The `struct bfsvtab_cursor`. -/
structure bfsvtab_cursor where
  iRowid : Int
  pStmt : Option sqlite3_stmt
  zTableName : Option String
  zFromColumn : Option String
  zToColumn : Option String
  zOrderByColumn : Option String
  pVisited : bfsvtab_avl
  pQueue : bfsvtab_queue
  pCurrent : Option bfsvtab_node
  root : Int

/-- The cursor `bfsvtabOpen` creates: every field zero. -/
def bfsvtabOpen : bfsvtab_cursor :=
  { iRowid := 0, pStmt := none, zTableName := none, zFromColumn := none, zToColumn := none,
    zOrderByColumn := none, pVisited := .null, pQueue := { pFirst := [], pLast := none },
    pCurrent := none, root := 0 }

/-- Reset of the traversal state.  The statement is finalized but `pStmt` keeps its value, and
`root` and `iRowid` are not touched. -/
def bfsvtabClearCursor (pCur : bfsvtab_cursor) : bfsvtab_cursor :=
  { pCur with
    pQueue := { pFirst := [], pLast := none }
    zTableName := none
    zFromColumn := none
    zToColumn := none
    zOrderByColumn := none
    pCurrent := none
    pVisited := .null }

/-- The record `newAvlNode` of `bfsvtabNext`: allocated, zeroed, then given its id and
parent. -/
def newAvlNode (iNew parent : Int) : bfsvtab_avl_record :=
  { id := iNew, parent := parent, pBefore := .null, pAfter := .null, pUp := none,
    height := 0, imbalance := 0 }

/-- The body of the `while` loop of `bfsvtabNext` for one row of the neighbour statement, on the
visited set and the queue. -/
def bfsvtabNextRow (pCurrent : bfsvtab_node) (s : bfsvtab_avl × bfsvtab_queue)
    (v : sqlite3_value) : bfsvtab_avl × bfsvtab_queue :=
  if v.type = SQLITE_INTEGER then
    let iNew := v.int64
    match bfsvtabAvlSearch s.1 iNew with
    | .node _ _ _ _ _ _ => s
    | .null =>
      let q := queuePush s.2
        { id := iNew, parent := pCurrent.id, distance := pCurrent.distance + 1 }
      ((bfsvtabAvlInsert s.1 (newAvlNode iNew pCurrent.id)).2.1, q)
  else s

/-- Advance the cursor to its next row of output.  Returns the status and the cursor
afterwards. -/
def bfsvtabNext (pCur : bfsvtab_cursor) : Int × bfsvtab_cursor :=
  match queuePull pCur.pQueue with
  | (none, q) => (SQLITE_OK, { pCur with pCurrent := none, pQueue := q })
  | (some cur, q) =>
    match pCur.pStmt with
    | none => (SQLITE_MISUSE, { pCur with pCurrent := some cur, pQueue := q })
    | some stmt =>
      let s := (stmt.step cur.id).foldl (bfsvtabNextRow cur) (pCur.pVisited, q)
      (stmt.reset cur.id, { pCur with pCurrent := some cur, pVisited := s.1, pQueue := s.2 })

/-- True when the cursor has moved off the last row. -/
def bfsvtabEof (pCur : bfsvtab_cursor) : Bool :=
  pCur.pCurrent.isNone && pCur.pQueue.pFirst.isEmpty

/-! ## Host text formatting (sqlite3_mprintf) -/

/-- The `%s` conversion of the host formatter: the text, nothing for a NULL pointer. -/
def fmt_s : Option String → String
  | none => ""
  | some s => s

/-- The `%w` conversion of the host formatter: the text with every double-quote character
doubled; a NULL pointer is rendered `(NULL)`. -/
def fmt_w : Option String → String
  | none => "(NULL)"
  | some s => String.mk (s.data.flatMap fun c => if c = Char.ofNat 34 then [c, c] else [c])

/-- The `%d` conversion of the host formatter applied to a 64-bit argument: the formatter
fetches a C `int`, so the low 32 bits are rendered as a signed decimal number. -/
def fmt_d (id : Int) : String := toString (int32 id)

/-- The text of the neighbour statement that `bfsvtabFilter` builds from the effective
binding. -/
def bfsvtabFilterSql (zTableName zFromColumn zToColumn zOrderByColumn : Option String) :
    String :=
  match zOrderByColumn with
  | some _ =>
    "SELECT \"" ++ fmt_w zTableName ++ "\".\"" ++ fmt_w zToColumn ++ "\" FROM \"" ++
      fmt_w zTableName ++ "\" WHERE \"" ++ fmt_w zTableName ++ "\".\"" ++ fmt_w zFromColumn ++
      "\"=?1 ORDER BY \"" ++ fmt_w zTableName ++ "\".\"" ++ fmt_w zOrderByColumn ++ "\""
  | none =>
    "SELECT \"" ++ fmt_w zTableName ++ "\".\"" ++ fmt_w zToColumn ++ "\" FROM \"" ++
      fmt_w zTableName ++ "\" WHERE \"" ++ fmt_w zTableName ++ "\".\"" ++ fmt_w zFromColumn ++
      "\"=?1"

/-- Rewind the cursor to the first row of output.  `idxNum` is the plan descriptor (the
non-negative numbers `bfsvtabBestIndex` produces), `argv` the argument array, indexed as the
code indexes it.  Returns the status, the virtual table (its error message may be set) and the
cursor afterwards. -/
def bfsvtabFilter (db : sqlite3) (pVtab : bfsvtab_vtab) (pCur : bfsvtab_cursor)
    (idxNum : Nat) (argv : Nat → sqlite3_value) : Int × bfsvtab_vtab × bfsvtab_cursor :=
  let pCur := bfsvtabClearCursor pCur
  if idxNum &&& 1 = 0 then (SQLITE_OK, pVtab, pCur)
  else
    let ovT := idxNum &&& 0x00f00 ≠ 0
    let zTableName := if ovT then (argv ((idxNum >>> 8) &&& 0x0f)).text else pVtab.zTableName
    let ovF := idxNum &&& 0x0f000 ≠ 0
    let zFromColumn := if ovF then (argv ((idxNum >>> 12) &&& 0x0f)).text else pVtab.zFromColumn
    let ovTo := idxNum &&& 0x0f0000 ≠ 0
    let zToColumn := if ovTo then (argv ((idxNum >>> 16) &&& 0x0f)).text else pVtab.zToColumn
    let ovO := idxNum &&& 0xf00000 ≠ 0
    let zOrderByColumn :=
      if ovO then (argv ((idxNum >>> 20) &&& 0x0f)).text else pVtab.zOrderByColumn
    let pCur := { pCur with
      zTableName := if ovT then some (fmt_s zTableName) else pCur.zTableName
      zFromColumn := if ovF then some (fmt_s zFromColumn) else pCur.zFromColumn
      zToColumn := if ovTo then some (fmt_s zToColumn) else pCur.zToColumn
      zOrderByColumn := if ovO then some (fmt_s zOrderByColumn) else pCur.zOrderByColumn }
    let zSql := bfsvtabFilterSql zTableName zFromColumn zToColumn zOrderByColumn
    let r := db.prepare zSql
    let pCur := { pCur with pStmt := r.2 }
    if r.1 ≠ 0 then (r.1, { pVtab with zErrMsg := some (fmt_s (some db.errmsg)) }, pCur)
    else
      let rootId := (argv 0).int64
      let root : bfsvtab_node := { id := rootId, parent := rootId, distance := 0 }
      let pCur := { pCur with
        pQueue := queuePush pCur.pQueue root
        pCurrent := none
        root := rootId
        pVisited := .node rootId rootId .null .null 0 0 }
      let n := bfsvtabNext pCur
      (n.1, pVtab, n.2)

/-! ## Column projection -/

/-- What a column call hands to the host: `sqlite3_result_null`, an integer
(`sqlite3_result_int`, `sqlite3_result_int64`) or a text. -/
inductive sqlite3_result where
  | null : sqlite3_result
  | integer (v : Int) : sqlite3_result
  | text (s : String) : sqlite3_result
deriving DecidableEq, Repr

/-- Host `sqlite3_result_int`: the argument is a C `int`. -/
def sqlite3_result_int (v : Int) : sqlite3_result := .integer (int32 v)

/-- Host `sqlite3_result_int64`. -/
def sqlite3_result_int64 (v : Int) : sqlite3_result := .integer v

/-- Host `sqlite3_result_text` with length -1: a NULL pointer gives SQL NULL. -/
def sqlite3_result_text : Option String → sqlite3_result
  | none => .null
  | some s => .text s

/-- Host `sqlite3_str_finish`: the text built, a NULL pointer when nothing was appended. -/
def sqlite3_str_finish (s : String) : Option String := if s = "" then none else some s

/-- Ways a call can fail to produce its result in the embedding. -/
inductive Fault where
  | nullDeref : Fault
  | outOfFuel : Fault
deriving DecidableEq, Repr

deriving instance DecidableEq for Except

/-- Recursively build the path string of `id` by appending to `str`.  The recursion follows
the parent links of the visited set and is bounded by `fuel` here; `none` means the bound was
reached.  The status of the C function is `SQLITE_OK` throughout. -/
def bfsvtabBuildShortestPathStr : Nat → String → bfsvtab_avl → Int → Option String
  | 0, _, _, _ => none
  | fuel + 1, str, visited, id =>
    match bfsvtabAvlSearch visited id with
    | .null => some str
    | .node _ parent _ _ _ _ =>
      if parent ≠ id then
        match bfsvtabBuildShortestPathStr fuel str visited parent with
        | none => none
        | some s => some (s ++ fmt_d id ++ "/")
      else some (str ++ "/" ++ fmt_d id ++ "/")

def BFSVTAB_COL_ID : Nat := 0
def BFSVTAB_COL_PARENT : Nat := 1
def BFSVTAB_COL_DISTANCE : Nat := 2
def BFSVTAB_COL_SHORTEST_PATH : Nat := 3
def BFSVTAB_COL_ROOT : Nat := 4
def BFSVTAB_COL_TABLENAME : Nat := 5
def BFSVTAB_COL_FROMCOLUMN : Nat := 6
def BFSVTAB_COL_TOCOLUMN : Nat := 7
def BFSVTAB_COL_ORDER_BY_COLUMN : Nat := 8

/-- Value of column `i` for the row the cursor points at (the status returned is
`SQLITE_OK`).  `fuel` bounds the recursion of the path builder. -/
def bfsvtabColumn (fuel : Nat) (pVtab : bfsvtab_vtab) (pCur : bfsvtab_cursor) (i : Nat) :
    Except Fault sqlite3_result :=
  if i = BFSVTAB_COL_ID then
    match pCur.pCurrent with
    | none => .error .nullDeref
    | some cur => .ok (sqlite3_result_int64 cur.id)
  else if i = BFSVTAB_COL_PARENT then
    match pCur.pCurrent with
    | none => .error .nullDeref
    | some cur =>
      if cur.id = pCur.root then .ok .null else .ok (sqlite3_result_int cur.parent)
  else if i = BFSVTAB_COL_DISTANCE then
    match pCur.pCurrent with
    | none => .error .nullDeref
    | some cur => .ok (sqlite3_result_int cur.distance)
  else if i = BFSVTAB_COL_SHORTEST_PATH then
    match pCur.pCurrent with
    | none => .error .nullDeref
    | some cur =>
      match bfsvtabBuildShortestPathStr fuel "" pCur.pVisited cur.id with
      | none => .error .outOfFuel
      | some c => .ok (sqlite3_result_text (sqlite3_str_finish c))
  else if i = BFSVTAB_COL_ROOT then .ok (sqlite3_result_int pCur.root)
  else if i = BFSVTAB_COL_TABLENAME then
    .ok (sqlite3_result_text (if pCur.zTableName.isSome then pCur.zTableName
      else pVtab.zTableName))
  else if i = BFSVTAB_COL_FROMCOLUMN then
    .ok (sqlite3_result_text (if pCur.zFromColumn.isSome then pCur.zFromColumn
      else pVtab.zFromColumn))
  else if i = BFSVTAB_COL_TOCOLUMN then
    .ok (sqlite3_result_text (if pCur.zToColumn.isSome then pCur.zToColumn
      else pVtab.zToColumn))
  else
    .ok (sqlite3_result_text (if pCur.zOrderByColumn.isSome then pCur.zOrderByColumn
      else pVtab.zOrderByColumn))

/-- Rowid of the current row. -/
def bfsvtabRowid (pCur : bfsvtab_cursor) : Except Fault Int :=
  match pCur.pCurrent with
  | none => .error .nullDeref
  | some cur => .ok cur.id

/-! ## The scan of the host -/

/-- The rows of one scan, as the host drives it from the outcome of a filter or next call: it
stops on a failure status or at end-of-file, otherwise it reads the row at which the cursor
stands and calls `bfsvtabNext`.  The list holds the cursor as it stood at each row read, for at
most `fuel` rows. -/
def hostScan : Nat → Int × bfsvtab_cursor → List bfsvtab_cursor
  | 0, _ => []
  | fuel + 1, (rc, pCur) =>
    if rc ≠ SQLITE_OK ∨ bfsvtabEof pCur = true then []
    else pCur :: hostScan fuel (bfsvtabNext pCur)

/-- The rows of the query that `bfsvtabFilter` starts on a freshly opened or used cursor. -/
def bfsvtabQuery (fuel : Nat) (db : sqlite3) (pVtab : bfsvtab_vtab) (pCur : bfsvtab_cursor)
    (idxNum : Nat) (argv : Nat → sqlite3_value) : List bfsvtab_cursor :=
  let r := bfsvtabFilter db pVtab pCur idxNum argv
  hostScan fuel (r.1, r.2.2)

/-- The frontier records of the rows of a scan. -/
def currentOf (rows : List bfsvtab_cursor) : List bfsvtab_node :=
  rows.filterMap fun c => c.pCurrent

/-! ## Specification vocabulary -/

/-- The entries `(id, parent)` of the tree, in order (before, node, after). -/
def bfsvtab_avl.entries : bfsvtab_avl → List (Int × Int)
  | .null => []
  | .node id parent pBefore pAfter _ _ => pBefore.entries ++ (id, parent) :: pAfter.entries

/-- The ids of the tree, in order. -/
def bfsvtab_avl.ids (t : bfsvtab_avl) : List Int := t.entries.map Prod.fst

/-- Search-tree order: the ids are strictly ascending in order. -/
def bfsvtab_avl.Ordered (t : bfsvtab_avl) : Prop := t.ids.Pairwise (· < ·)

/-- The stored heights can be relied on by `bfsvtabAvlBalance`: no stored height is negative
and every stored imbalance is the difference of the stored heights of the children. -/
def bfsvtab_avl.HeightsOk : bfsvtab_avl → Prop
  | .null => True
  | .node _ _ b a h i => b.HeightsOk ∧ a.HeightsOk ∧ 0 ≤ h ∧ i = b.heightOr0 - a.heightOr0

/-- The pointer is not NULL. -/
def bfsvtab_avl.isNode : bfsvtab_avl → Prop
  | .null => False
  | .node _ _ _ _ _ _ => True

/-- The field `p->pBefore` (of a node). -/
def bfsvtab_avl.beforeOf : bfsvtab_avl → bfsvtab_avl
  | .null => .null
  | .node _ _ b _ _ _ => b

/-- The field `p->pAfter` (of a node). -/
def bfsvtab_avl.afterOf : bfsvtab_avl → bfsvtab_avl
  | .null => .null
  | .node _ _ _ a _ _ => a

/-- Every pointer that one turn of the loop of `bfsvtabAvlBalance` dereferences at `p` is
not NULL: `p` itself, the child it rotates about, and for a double rotation the inner
grandchild. -/
def balanceStepDefined (p : bfsvtab_avl) : Prop :=
  match bfsvtabAvlRecomputeHeight p with
  | .null => False
  | .node _ _ pBefore pAfter _ imb =>
    if imb ≥ 2 then
      pBefore.isNode ∧ (pBefore.imbalanceOf < 0 → pBefore.afterOf.isNode)
    else if imb ≤ -2 then
      pAfter.isNode ∧ (pAfter.imbalanceOf > 0 → pAfter.beforeOf.isNode)
    else True

/-- Every turn of the rebalancing walk of an insertion dereferences only pointers that are not
NULL. -/
def insertAtDefined (newId newParent : Int) : bfsvtab_avl → Prop
  | .null => True
  | .node id parent pBefore pAfter h i =>
    if newId < id then
      insertAtDefined newId newParent pBefore ∧
        ((bfsvtabAvlInsertAt newId newParent pBefore).1 = .null →
          balanceStepDefined
            (.node id parent (bfsvtabAvlInsertAt newId newParent pBefore).2 pAfter h i))
    else if newId > id then
      insertAtDefined newId newParent pAfter ∧
        ((bfsvtabAvlInsertAt newId newParent pAfter).1 = .null →
          balanceStepDefined
            (.node id parent pBefore (bfsvtabAvlInsertAt newId newParent pAfter).2 h i))
    else True

/-- Every pointer the rebalancing of `bfsvtabAvlInsert` dereferences is not NULL. -/
def insertDefined (ppHead : bfsvtab_avl) (newId newParent : Int) : Prop :=
  match ppHead with
  | .null => balanceStepDefined (.node newId newParent .null .null 1 0)
  | p => insertAtDefined newId newParent p

/-- The insertions of the loop of `bfsvtabNext` over the rows `rs`, started on the visited
set and queue `s`, dereference no NULL pointer. -/
def nextRowsDefined (pCurrent : bfsvtab_node) : List sqlite3_value →
    bfsvtab_avl × bfsvtab_queue → Prop
  | [], _ => True
  | v :: rs, s =>
    (v.type = SQLITE_INTEGER → bfsvtabAvlSearch s.1 v.int64 = .null →
      insertDefined s.1 v.int64 pCurrent.id) ∧
    nextRowsDefined pCurrent rs (bfsvtabNextRow pCurrent s v)

/-- The tree operations of one `bfsvtabNext` call dereference no NULL pointer. -/
def bfsvtabNextDefined (pCur : bfsvtab_cursor) : Prop :=
  match queuePull pCur.pQueue, pCur.pStmt with
  | (some cur, q), some stmt => nextRowsDefined cur (stmt.step cur.id) (pCur.pVisited, q)
  | _, _ => True

/-- An integer edge of the graph the neighbour statement presents: some row returned for `u`
is integer-typed with value `v`. -/
def Edge (stmt : sqlite3_stmt) (u v : Int) : Prop :=
  ∃ r ∈ stmt.step u, r.type = SQLITE_INTEGER ∧ r.int64 = v

/-- A walk of `n` integer edges from `root`. -/
inductive Walk (stmt : sqlite3_stmt) (root : Int) : Int → Nat → Prop where
  | nil : Walk stmt root root 0
  | snoc {v w : Int} {n : Nat} : Walk stmt root v n → Edge stmt v w → Walk stmt root w (n + 1)

/-- Reachability from `root` along integer edges. -/
def Reachable (stmt : sqlite3_stmt) (root v : Int) : Prop := ∃ n, Walk stmt root v n

/-- The queue is well formed: `pLast` is the last record of the chain of `pFirst`. -/
def QWf (q : bfsvtab_queue) : Prop := q.pLast = q.pFirst.getLast?

/-- The visited entry that belongs to a frontier record. -/
def entryOf (x : bfsvtab_node) : Int × Int := (x.id, x.parent)

/-- The traversal invariant.  `X` lists the records pulled from the queue so far, in order,
`Q` is the chain of the queue, `vis` the visited set, and `P` the edges already processed. -/
structure Inv (stmt : sqlite3_stmt) (root : Int) (P : Int → Int → Prop)
    (X Q : List bfsvtab_node) (vis : bfsvtab_avl) : Prop where
  ordered : vis.Ordered
  heights : vis.HeightsOk
  perm : vis.entries.Perm ((X ++ Q).map entryOf)
  sorted : (X ++ Q).Pairwise (fun a b => a.distance ≤ b.distance)
  nearQ : ∀ x ∈ X ++ Q, ∀ y ∈ Q, x.distance ≤ y.distance + 1
  rootIn : ({ id := root, parent := root, distance := 0 } : bfsvtab_node) ∈ X ++ Q
  walk : ∀ x ∈ X ++ Q, ∃ n : Nat, x.distance = n ∧ Walk stmt root x.id n
  par : ∀ x ∈ X ++ Q, x.id ≠ root →
    ∃ y ∈ X, y.id = x.parent ∧ x.distance = y.distance + 1 ∧ Edge stmt y.id x.id
  exp : ∀ y ∈ X, ∀ v, P y.id v → ∃ x ∈ X ++ Q, x.id = v ∧ x.distance ≤ y.distance + 1

/-- The cursor stands at the emitted record `cur`: `Xs` are the records emitted before it,
`Q` is the chain of the queue, and the traversal invariant holds. -/
def Good (stmt : sqlite3_stmt) (root : Int) (c : bfsvtab_cursor)
    (Xs : List bfsvtab_node) (cur : bfsvtab_node) (Q : List bfsvtab_node) : Prop :=
  c.pCurrent = some cur ∧ c.pStmt = some stmt ∧ c.root = root ∧ c.pQueue.pFirst = Q ∧
    QWf c.pQueue ∧ Inv stmt root (Edge stmt) (Xs ++ [cur]) Q c.pVisited

/-- The cursor `bfsvtabFilter` hands to its closing `bfsvtabNext` call: the statement
installed, the root record queued and entered as the only visited entry. -/
def seedCursor (base : bfsvtab_cursor) (pStmt : Option sqlite3_stmt) (rootId : Int) :
    bfsvtab_cursor :=
  { base with
    pStmt := pStmt
    pQueue := ⟨[⟨rootId, rootId, 0⟩], some ⟨rootId, rootId, 0⟩⟩
    pCurrent := none
    root := rootId
    pVisited := .node rootId rootId .null .null 0 0 }

/-- The state in which the host leaves its scan loop, `none` when `fuel` rows did not reach
it. -/
def hostScanEnd : Nat → Int × bfsvtab_cursor → Option (Int × bfsvtab_cursor)
  | 0, _ => none
  | fuel + 1, (rc, pCur) =>
    if rc ≠ SQLITE_OK ∨ bfsvtabEof pCur = true then some (rc, pCur)
    else hostScanEnd fuel (bfsvtabNext pCur)

/-! ## Example data -/

/-- An integer value of the host; `sqlite3_value_text` of it is its decimal text. -/
def intValue (n : Int) : sqlite3_value :=
  { type := SQLITE_INTEGER, int64 := n, text := some (toString n) }

/-- A text value of the host (datatype code 3); `n` is what it converts to when read as an
integer. -/
def textValue (s : String) (n : Int) : sqlite3_value := { type := 3, int64 := n, text := some s }

/-- The neighbour statement over a table of edges `(from, to)`: the `to` values of the rows
whose `from` is the bound id, in table order; stepping never fails. -/
def edgeStmt (E : List (Int × sqlite3_value)) : sqlite3_stmt :=
  { step := fun u => (E.filter fun e => e.1 = u).map Prod.snd
    reset := fun _ => SQLITE_OK }

/-- A database whose every statement is the neighbour statement over `E`. -/
def edgeDb (E : List (Int × sqlite3_value)) : sqlite3 :=
  { prepare := fun _ => (SQLITE_OK, some (edgeStmt E))
    errmsg := "" }

/-- The cycle `(1,2),(2,3),(3,1)`. -/
def cycleEdges : List (Int × sqlite3_value) :=
  [(1, intValue 2), (2, intValue 3), (3, intValue 1)]

/-- The cycle with a text-typed neighbour value `'9'` of vertex 2 among its rows. -/
def mixedEdges : List (Int × sqlite3_value) :=
  [(1, intValue 2), (2, textValue "9" 9), (2, intValue 3), (3, intValue 1)]

/-- The chain `4294967297 → 4294967298 → 4294967299`, of ids beyond 32 bits. -/
def wideEdges : List (Int × sqlite3_value) :=
  [(4294967297, intValue 4294967298), (4294967298, intValue 4294967299)]

/-- A virtual table bound to an edge table. -/
def exampleVtab : bfsvtab_vtab :=
  { zErrMsg := none, zTableName := some "edges", zFromColumn := some "a",
    zToColumn := some "b", zOrderByColumn := none }

/-- The argument array of a query `root = r`. -/
def rootArgv (r : Int) : Nat → sqlite3_value := fun _ => intValue r

/-- The argument array of a query `root = r AND tablename = t`: the root first, then the
table name. -/
def overrideArgv (r : Int) (t : String) : Nat → sqlite3_value :=
  fun n => if n = 0 then intValue r else textValue t 0

/-! ## The effective binding of a query -/

/-- The table name `bfsvtabFilter` works with under plan `idxNum`: the override read from
`argv` when bits 8-11 are set, else the table-level name. -/
def planTableName (pVtab : bfsvtab_vtab) (idxNum : Nat) (argv : Nat → sqlite3_value) :
    Option String :=
  if idxNum &&& 0x00f00 ≠ 0 then (argv ((idxNum >>> 8) &&& 0x0f)).text else pVtab.zTableName

/-- The from-column `bfsvtabFilter` works with under plan `idxNum` (bits 12-15). -/
def planFromColumn (pVtab : bfsvtab_vtab) (idxNum : Nat) (argv : Nat → sqlite3_value) :
    Option String :=
  if idxNum &&& 0x0f000 ≠ 0 then (argv ((idxNum >>> 12) &&& 0x0f)).text else pVtab.zFromColumn

/-- The to-column `bfsvtabFilter` works with under plan `idxNum` (bits 16-19). -/
def planToColumn (pVtab : bfsvtab_vtab) (idxNum : Nat) (argv : Nat → sqlite3_value) :
    Option String :=
  if idxNum &&& 0x0f0000 ≠ 0 then (argv ((idxNum >>> 16) &&& 0x0f)).text else pVtab.zToColumn

/-- The ordering column `bfsvtabFilter` works with under plan `idxNum` (bits 20-23). -/
def planOrderByColumn (pVtab : bfsvtab_vtab) (idxNum : Nat) (argv : Nat → sqlite3_value) :
    Option String :=
  if idxNum &&& 0xf00000 ≠ 0 then (argv ((idxNum >>> 20) &&& 0x0f)).text
  else pVtab.zOrderByColumn

/-- The cursor of `bfsvtabFilter` once the overrides of plan `idxNum` are copied into it. -/
def planCursor (pVtab : bfsvtab_vtab) (pCur : bfsvtab_cursor) (idxNum : Nat)
    (argv : Nat → sqlite3_value) : bfsvtab_cursor :=
  { bfsvtabClearCursor pCur with
    zTableName :=
      if idxNum &&& 0x00f00 ≠ 0 then some (fmt_s (planTableName pVtab idxNum argv)) else none
    zFromColumn :=
      if idxNum &&& 0x0f000 ≠ 0 then some (fmt_s (planFromColumn pVtab idxNum argv)) else none
    zToColumn :=
      if idxNum &&& 0x0f0000 ≠ 0 then some (fmt_s (planToColumn pVtab idxNum argv)) else none
    zOrderByColumn :=
      if idxNum &&& 0xf00000 ≠ 0 then some (fmt_s (planOrderByColumn pVtab idxNum argv))
      else none }

/-- The text `bfsvtabFilter` hands to `sqlite3_prepare_v2` under plan `idxNum`. -/
def planSql (pVtab : bfsvtab_vtab) (idxNum : Nat) (argv : Nat → sqlite3_value) : String :=
  bfsvtabFilterSql (planTableName pVtab idxNum argv) (planFromColumn pVtab idxNum argv)
    (planToColumn pVtab idxNum argv) (planOrderByColumn pVtab idxNum argv)

/-! ## Sequences of insertions and of queue operations -/

/-- The two trees a visited set starts from: the empty tree, or the single zero-initialised
entry of the root `r` that `bfsvtabFilter` installs (height and imbalance 0). -/
def avlStart : Option Int → bfsvtab_avl
  | none => .null
  | some r => .node r r .null .null 0 0

/-- The head of the tree after a sequence of `bfsvtabAvlInsert` calls, one per `(id, parent)`
of the list. -/
def bfsvtabAvlInsertAll (ppHead : bfsvtab_avl) (l : List (Int × Int)) : bfsvtab_avl :=
  l.foldl (fun t e => (bfsvtabAvlInsert t (newAvlNode e.1 e.2)).2.1) ppHead

/-- A call on the queue. -/
inductive QueueOp where
  | push (pNode : bfsvtab_node) : QueueOp
  | pull : QueueOp

/-- Run a sequence of queue calls; the queue afterwards and what the `queuePull` calls
returned, in order. -/
def runQueue : List QueueOp → bfsvtab_queue → bfsvtab_queue × List (Option bfsvtab_node)
  | [], q => (q, [])
  | .push n :: ops, q => runQueue ops (queuePush q n)
  | .pull :: ops, q =>
    ((runQueue ops (queuePull q).2).1, (queuePull q).1 :: (runQueue ops (queuePull q).2).2)

/-- The same calls on a first-in first-out list: a push appends at the end, a pull takes the
first element, or returns nothing from the empty list. -/
def runFifo : List QueueOp → List bfsvtab_node → List bfsvtab_node × List (Option bfsvtab_node)
  | [], l => (l, [])
  | .push n :: ops, l => runFifo ops (l ++ [n])
  | .pull :: ops, l => ((runFifo ops l.tail).1, l.head? :: (runFifo ops l.tail).2)

/-- The records pushed by a sequence of calls, in order. -/
def pushedBy : List QueueOp → List bfsvtab_node
  | [] => []
  | .push n :: ops => n :: pushedBy ops
  | .pull :: ops => pushedBy ops

/-! ## The balance invariant -/

/-- The balance invariant of the visited set, on the stored fields: at every node the height
field is one more than the larger of the height fields of its children (0 for an absent
child), the imbalance field is the height of `pBefore` minus the height of `pAfter`, and
that imbalance is -1, 0 or 1. -/
def bfsvtab_avl.Balanced : bfsvtab_avl → Prop
  | .null => True
  | .node _ _ b a h i =>
    b.Balanced ∧ a.Balanced ∧ h = 1 + max b.heightOr0 a.heightOr0 ∧
      i = b.heightOr0 - a.heightOr0 ∧ -1 ≤ i ∧ i ≤ 1

/-- The number of levels of the tree under the pointer: 0 for NULL, 1 for a leaf. -/
def bfsvtab_avl.depth : bfsvtab_avl → Int
  | .null => 0
  | .node _ _ b a _ _ => 1 + max b.depth a.depth

instance decBalanced : (t : bfsvtab_avl) → Decidable t.Balanced
  | .null => isTrue trivial
  | .node _ _ b a h i =>
    have := decBalanced b
    have := decBalanced a
    by unfold bfsvtab_avl.Balanced; infer_instance

/-! ## Dequoting of the binding arguments -/

/-- The NUL character that terminates a C string. -/
def NUL : Char := Char.ofNat 0

/-- The bytes of a C string in a buffer: those before the first NUL (`strlen` many). -/
def cstr (buf : List Char) : List Char := buf.takeWhile (· ≠ NUL)

/-- The loop of `bfsvtabDequote` over the input bytes from `iIn` up to `nIn`, with closing
quote `q`: the bytes it stores into `zOut`, in order.  When the last input byte is the quote,
the index steps onto the terminator of the input and the byte stored is that NUL. -/
def bfsvtabDequoteLoop (q : Char) : List Char → List Char
  | [] => []
  | [c] => if c = q then [NUL] else [c]
  | c :: c2 :: rest => if c = q then c2 :: bfsvtabDequoteLoop q rest
    else c :: bfsvtabDequoteLoop q (c2 :: rest)

/-- The bytes `bfsvtabDequote` stores into the output buffer, from its start on, for the
input string held in `zIn`: a copy with the terminator when the first byte is no quote
character, else what the loop stores. -/
def bfsvtabDequoteBytes (zIn : List Char) : List Char :=
  match cstr zIn with
  | [] => [NUL]
  | q :: rest =>
    if q ≠ Char.ofNat 91 ∧ q ≠ Char.ofNat 39 ∧ q ≠ Char.ofNat 34 ∧ q ≠ Char.ofNat 96 then
      (q :: rest) ++ [NUL]
    else bfsvtabDequoteLoop (if q = Char.ofNat 91 then Char.ofNat 93 else q) rest

/-- The string `bfsvtabDequote` returns: the bytes of the output buffer up to the
terminator; `none` when no terminator was stored, the buffer being fresh from the allocator
beyond the bytes stored. -/
def bfsvtabDequote (zIn : String) : Option String :=
  if NUL ∈ bfsvtabDequoteBytes zIn.data then
    some (String.mk (cstr (bfsvtabDequoteBytes zIn.data)))
  else none

/-- The text `s` with every occurrence of the character `q` doubled. -/
def doubled (q : Char) (s : List Char) : List Char :=
  s.flatMap fun c => if c = q then [c, c] else [c]

/-- An identifier as it appears in the neighbour statement: wrapped in double quotes, every
double-quote character inside doubled. -/
def quotedIdentifier (s : String) : String :=
  "\"" ++ String.mk (doubled (Char.ofNat 34) s.data) ++ "\""

/-! ## Query planning -/

/-- Host operator code of `=` in a constraint. -/
def SQLITE_INDEX_CONSTRAINT_EQ : Nat := 2
/-- Host operator code of `<=` in a constraint. -/
def SQLITE_INDEX_CONSTRAINT_LE : Nat := 8
/-- Host operator code of `<` in a constraint. -/
def SQLITE_INDEX_CONSTRAINT_LT : Nat := 16

/-- The host's `struct sqlite3_index_constraint`: the column on the left of the constraint,
the operator, and whether the constraint is usable. -/
structure sqlite3_index_constraint where
  iColumn : Int
  op : Nat
  usable : Nat
deriving DecidableEq, Repr

/-- The host's `struct sqlite3_index_constraint_usage`; `omit_` is its field `omit`. -/
structure sqlite3_index_constraint_usage where
  argvIndex : Int
  omit_ : Nat
deriving DecidableEq, Repr

/-- The running values of the first loop of `bfsvtabBestIndex`: the plan `iPlan`, the counter
`idx`, and the usage entry of the constraint at hand. -/
structure bestIndexAcc where
  iPlan : Nat
  idx : Nat
  usage : sqlite3_index_constraint_usage
deriving DecidableEq, Repr

/-- The `if` of the loop for the `root = ?` term. -/
def bestIndexRoot (c : sqlite3_index_constraint) (s : bestIndexAcc) : bestIndexAcc :=
  if s.iPlan &&& 1 = 0 ∧ c.iColumn = BFSVTAB_COL_ROOT ∧ c.op = SQLITE_INDEX_CONSTRAINT_EQ then
    { s with iPlan := s.iPlan ||| 1, usage := { argvIndex := 1, omit_ := 1 } }
  else s

/-- The `if` of the loop for the distance term (`<`, `<=` or `=`). -/
def bestIndexDistance (c : sqlite3_index_constraint) (s : bestIndexAcc) : bestIndexAcc :=
  if s.iPlan &&& 0x0000f0 = 0 ∧ c.iColumn = BFSVTAB_COL_DISTANCE ∧
      (c.op = SQLITE_INDEX_CONSTRAINT_LT ∨ c.op = SQLITE_INDEX_CONSTRAINT_LE ∨
        c.op = SQLITE_INDEX_CONSTRAINT_EQ) then
    { iPlan :=
        if c.op = SQLITE_INDEX_CONSTRAINT_LT then (s.iPlan ||| (s.idx <<< 4)) ||| 0x000002
        else s.iPlan ||| (s.idx <<< 4)
      idx := s.idx + 1
      usage := { s.usage with argvIndex := s.idx + 1 } }
  else s

/-- The `if` of the loop for an equality term on one of the hidden binding columns; the four
of them differ in the mask, the shift and the column. -/
def bestIndexOverride (mask shift col : Nat) (c : sqlite3_index_constraint)
    (s : bestIndexAcc) : bestIndexAcc :=
  if s.iPlan &&& mask = 0 ∧ c.iColumn = col ∧ c.op = SQLITE_INDEX_CONSTRAINT_EQ then
    { iPlan := s.iPlan ||| (s.idx <<< shift)
      idx := s.idx + 1
      usage := { argvIndex := s.idx + 1, omit_ := 1 } }
  else s

/-- One turn of the first loop of `bfsvtabBestIndex`, for constraint `c` with usage entry
`u`. -/
def bestIndexStep (iPlan idx : Nat) (c : sqlite3_index_constraint)
    (u : sqlite3_index_constraint_usage) : bestIndexAcc :=
  if c.usable = 0 then { iPlan := iPlan, idx := idx, usage := u }
  else
    bestIndexOverride 0xf00000 20 BFSVTAB_COL_ORDER_BY_COLUMN c
      (bestIndexOverride 0x0f0000 16 BFSVTAB_COL_TOCOLUMN c
        (bestIndexOverride 0x00f000 12 BFSVTAB_COL_FROMCOLUMN c
          (bestIndexOverride 0x000f00 8 BFSVTAB_COL_TABLENAME c
            (bestIndexDistance c
              (bestIndexRoot c { iPlan := iPlan, idx := idx, usage := u })))))

/-- The first loop of `bfsvtabBestIndex` over the constraints and their usage entries: the
plan, the counter and the usage entries afterwards. -/
def bestIndexLoop : Nat → Nat → List sqlite3_index_constraint →
    List sqlite3_index_constraint_usage → Nat × Nat × List sqlite3_index_constraint_usage
  | iPlan, idx, c :: cs, u :: us =>
    let s := bestIndexStep iPlan idx c u
    let r := bestIndexLoop s.iPlan s.idx cs us
    (r.1, r.2.1, s.usage :: r.2.2)
  | iPlan, idx, _, us => (iPlan, idx, us)

/-- Plan the query: from the table-level binding, the constraints (`aConstraint`) and their
usage entries as the host hands them over (`aConstraintUsage`, of the same length), the plan
descriptor stored in `idxNum` and the usage entries afterwards.  The estimated cost, a
floating-point number, is left out. -/
def bfsvtabBestIndex (pVtab : bfsvtab_vtab) (aConstraint : List sqlite3_index_constraint)
    (aConstraintUsage : List sqlite3_index_constraint_usage) :
    Nat × List sqlite3_index_constraint_usage :=
  let r := bestIndexLoop 0 1 aConstraint aConstraintUsage
  let iPlan :=
    if (pVtab.zTableName = none ∧ r.1 &&& 0x000f00 = 0) ∨
        (pVtab.zFromColumn = none ∧ r.1 &&& 0x00f000 = 0) ∨
        (pVtab.zToColumn = none ∧ r.1 &&& 0x0f0000 = 0) then 0
    else r.1
  if iPlan &&& 1 = 0 then (0, r.2.2.map fun u => { u with argvIndex := 0 })
  else (iPlan, r.2.2)

/-- The 4-bit field of a plan descriptor that starts at bit `k`, as `bfsvtabFilter` reads it:
`(idxNum >> k) & 0x0f`. -/
def planField (k : Nat) (x : Nat) : Nat := (x >>> k) &&& 0x0f

/-- The predicates, besides `root = ?`, that a plan descriptor records in a 4-bit field. -/
inductive PlanKind where
  | distance : PlanKind
  | tablename : PlanKind
  | fromcolumn : PlanKind
  | tocolumn : PlanKind
  | order_by_column : PlanKind
deriving DecidableEq, Repr

/-- The first bit of the field of a predicate in the plan descriptor. -/
def PlanKind.shift : PlanKind → Nat
  | .distance => 4
  | .tablename => 8
  | .fromcolumn => 12
  | .tocolumn => 16
  | .order_by_column => 20

/-- The column a predicate constrains. -/
def PlanKind.col : PlanKind → Nat
  | .distance => BFSVTAB_COL_DISTANCE
  | .tablename => BFSVTAB_COL_TABLENAME
  | .fromcolumn => BFSVTAB_COL_FROMCOLUMN
  | .tocolumn => BFSVTAB_COL_TOCOLUMN
  | .order_by_column => BFSVTAB_COL_ORDER_BY_COLUMN

/-- All the predicates with a field. -/
def PlanKind.all : List PlanKind :=
  [.distance, .tablename, .fromcolumn, .tocolumn, .order_by_column]

/-- The constraint is a usable `root = ?` term. -/
def rootTerm (c : sqlite3_index_constraint) : Prop :=
  c.usable ≠ 0 ∧ c.iColumn = BFSVTAB_COL_ROOT ∧ c.op = SQLITE_INDEX_CONSTRAINT_EQ

/-- The constraint is a usable term of predicate `k`: an equality on its column, or for the
distance also `<` or `<=`. -/
def planTerm (k : PlanKind) (c : sqlite3_index_constraint) : Prop :=
  c.usable ≠ 0 ∧ c.iColumn = k.col ∧
    (c.op = SQLITE_INDEX_CONSTRAINT_EQ ∨
      (k = .distance ∧
        (c.op = SQLITE_INDEX_CONSTRAINT_LT ∨ c.op = SQLITE_INDEX_CONSTRAINT_LE)))

instance (c : sqlite3_index_constraint) : Decidable (rootTerm c) := by
  unfold rootTerm; infer_instance

instance (k : PlanKind) (c : sqlite3_index_constraint) : Decidable (planTerm k c) := by
  unfold planTerm; infer_instance

/-- What one turn of the loop of `bfsvtabBestIndex` comes to when the term at hand is chosen
for predicate `k`: the field of `k` receives the counter, bit 1 is set for a strict distance
bound, the counter advances and the usage entry receives the new counter (with `omit` set
except for the distance). -/
def chooseTerm (k : PlanKind) (iPlan idx : Nat) (c : sqlite3_index_constraint)
    (u : sqlite3_index_constraint_usage) : bestIndexAcc :=
  { iPlan :=
      if k = .distance ∧ c.op = SQLITE_INDEX_CONSTRAINT_LT then
        (iPlan ||| (idx <<< k.shift)) ||| 2
      else iPlan ||| (idx <<< k.shift)
    idx := idx + 1
    usage := if k = .distance then { u with argvIndex := idx + 1 }
      else { argvIndex := idx + 1, omit_ := 1 } }

/-! ## The plan descriptor read back -/

/-- The number of predicates whose field in the plan descriptor is not zero. -/
def fieldCount (x : Nat) : Nat :=
  (if planField 4 x ≠ 0 then 1 else 0) + (if planField 8 x ≠ 0 then 1 else 0) +
    (if planField 12 x ≠ 0 then 1 else 0) + (if planField 16 x ≠ 0 then 1 else 0) +
    (if planField 20 x ≠ 0 then 1 else 0)

/-- What holds of the plan descriptor `x` and the argument counter `idx` at every turn of the
loop of `bfsvtabBestIndex`: the counter is one more than the number of fields in use, bit 1 is
clear while the distance field is, and no bit outside bits 0-1 and 4-23 is set. -/
def PlanWf (x idx : Nat) : Prop :=
  idx = 1 + fieldCount x ∧ (planField 4 x = 0 → x &&& 2 = 0) ∧ x &&& 12 = 0 ∧ x >>> 24 = 0

/-- What one turn of the loop of `bfsvtabBestIndex` at constraint `c` with usage entry `u`,
entered with plan descriptor `x` and counter `idx`, leaves in `s`. -/
structure StepSpec (x idx : Nat) (c : sqlite3_index_constraint)
    (u : sqlite3_index_constraint_usage) (s : bestIndexAcc) : Prop where
  wf : PlanWf s.iPlan s.idx
  le : idx ≤ s.idx
  bit0 : s.iPlan &&& 1 ≠ 0 ↔ (x &&& 1 ≠ 0 ∨ rootTerm c)
  field : ∀ k : PlanKind,
    planField k.shift s.iPlan ≠ 0 ↔ (planField k.shift x ≠ 0 ∨ planTerm k c)
  keep : ∀ k : PlanKind,
    planField k.shift x ≠ 0 → planField k.shift s.iPlan = planField k.shift x
  keep1 : planField 4 x ≠ 0 → s.iPlan &&& 2 = x &&& 2
  usage :
    (s.usage = u ∧ s.idx = idx ∧ s.iPlan &&& 1 = x &&& 1) ∨
    (rootTerm c ∧ s.usage.argvIndex = 1 ∧ x &&& 1 = 0 ∧ s.idx = idx) ∨
    (∃ k : PlanKind, planTerm k c ∧ planField k.shift x = 0 ∧
      planField k.shift s.iPlan = idx ∧ s.usage.argvIndex = (idx : Int) + 1 ∧
      s.idx = idx + 1 ∧ s.iPlan &&& 1 = x &&& 1 ∧
      (k = .distance → (s.iPlan &&& 2 ≠ 0 ↔ c.op = SQLITE_INDEX_CONSTRAINT_LT)))
  pick : ∀ k : PlanKind, planField k.shift x = 0 → planField k.shift s.iPlan ≠ 0 →
    planTerm k c ∧ s.usage.argvIndex = (planField k.shift s.iPlan : Int) + 1
  pick0 : x &&& 1 = 0 → s.iPlan &&& 1 ≠ 0 → rootTerm c ∧ s.usage.argvIndex = 1

/-- What the loop of `bfsvtabBestIndex` over the constraints `cs` and usage entries `us`,
entered with plan descriptor `x` and counter `idx`, leaves in `r` (plan descriptor, counter,
usage entries).  The last two fields read the usage entries back and are for entries that
the host hands over zeroed. -/
structure LoopSpec (x idx : Nat) (cs : List sqlite3_index_constraint)
    (us : List sqlite3_index_constraint_usage)
    (r : Nat × Nat × List sqlite3_index_constraint_usage) : Prop where
  wf : PlanWf r.1 r.2.1
  le : idx ≤ r.2.1
  len : r.2.2.length = cs.length
  bit0 : r.1 &&& 1 ≠ 0 ↔ (x &&& 1 ≠ 0 ∨ ∃ c ∈ cs, rootTerm c)
  field : ∀ k : PlanKind,
    planField k.shift r.1 ≠ 0 ↔ (planField k.shift x ≠ 0 ∨ ∃ c ∈ cs, planTerm k c)
  keep : ∀ k : PlanKind, planField k.shift x ≠ 0 → planField k.shift r.1 = planField k.shift x
  keep1 : planField 4 x ≠ 0 → r.1 &&& 2 = x &&& 2
  chosen : (∀ u ∈ us, u.argvIndex = 0) → ∀ cu ∈ cs.zip r.2.2, cu.2.argvIndex ≠ 0 →
    (rootTerm cu.1 ∧ cu.2.argvIndex = 1 ∧ x &&& 1 = 0) ∨
    (∃ k : PlanKind, planTerm k cu.1 ∧ planField k.shift x = 0 ∧
      cu.2.argvIndex = (planField k.shift r.1 : Int) + 1 ∧
      (k = .distance → (r.1 &&& 2 ≠ 0 ↔ cu.1.op = SQLITE_INDEX_CONSTRAINT_LT)))
  perm : (∀ u ∈ us, u.argvIndex = 0) →
    ((r.2.2.map fun u => u.argvIndex).filter fun a => a ≠ 0).Perm
      ((if x &&& 1 = 0 ∧ r.1 &&& 1 ≠ 0 then [1] else []) ++
        (List.range' (idx + 1) (r.2.1 - idx)).map Int.ofNat)
  pick : ∀ k : PlanKind, planField k.shift x = 0 → planField k.shift r.1 ≠ 0 →
    ∃ cu ∈ cs.zip r.2.2, planTerm k cu.1 ∧ cu.2.argvIndex = (planField k.shift r.1 : Int) + 1
  pick0 : x &&& 1 = 0 → r.1 &&& 1 ≠ 0 →
    ∃ cu ∈ cs.zip r.2.2, rootTerm cu.1 ∧ cu.2.argvIndex = 1

deriving instance DecidableEq for sqlite3_value

/-- One of table, from-column, to-column is neither configured on the virtual table nor
supplied by a usable equality constraint. -/
def bindingMissing (pVtab : bfsvtab_vtab) (cs : List sqlite3_index_constraint) : Prop :=
  (pVtab.zTableName = none ∧ ¬ ∃ c ∈ cs, planTerm .tablename c) ∨
  (pVtab.zFromColumn = none ∧ ¬ ∃ c ∈ cs, planTerm .fromcolumn c) ∨
  (pVtab.zToColumn = none ∧ ¬ ∃ c ∈ cs, planTerm .tocolumn c)

instance (pVtab : bfsvtab_vtab) (cs : List sqlite3_index_constraint) :
    Decidable (bindingMissing pVtab cs) := by
  unfold bindingMissing; infer_instance

/-- The host passes to `xFilter` the right-hand sides of the constraints ordered by
`argvIndex`: the value of the constraint whose usage entry has `argvIndex = a > 0` is
`argv[a - 1]`.  Here `vals` lists the right-hand side of every constraint. -/
def ArgvOrdered (usage : List sqlite3_index_constraint_usage) (vals : List sqlite3_value)
    (argv : Nat → sqlite3_value) : Prop :=
  ∀ uv ∈ usage.zip vals, uv.1.argvIndex ≠ 0 → argv (uv.1.argvIndex - 1).toNat = uv.2

instance (usage : List sqlite3_index_constraint_usage) (vals : List sqlite3_value)
    (argv : Nat → sqlite3_value) : Decidable (ArgvOrdered usage vals argv) := by
  unfold ArgvOrdered; infer_instance

/-- The argument array the host builds from the usage entries and the right-hand sides. -/
def hostArgv (usage : List sqlite3_index_constraint_usage) (vals : List sqlite3_value) :
    Nat → sqlite3_value :=
  fun n =>
    match (usage.zip vals).find? fun uv => uv.1.argvIndex = (n : Int) + 1 with
    | some uv => uv.2
    | none => intValue 0

/-- The constraints of a query
`tablename = ? AND distance < ? AND root = ? AND root = ? AND tablename = ? AND id = ?`,
the first `root = ?` term not usable. -/
def exampleConstraints : List sqlite3_index_constraint :=
  [{ iColumn := BFSVTAB_COL_TABLENAME, op := SQLITE_INDEX_CONSTRAINT_EQ, usable := 1 },
   { iColumn := BFSVTAB_COL_DISTANCE, op := SQLITE_INDEX_CONSTRAINT_LT, usable := 1 },
   { iColumn := BFSVTAB_COL_ROOT, op := SQLITE_INDEX_CONSTRAINT_EQ, usable := 0 },
   { iColumn := BFSVTAB_COL_ROOT, op := SQLITE_INDEX_CONSTRAINT_EQ, usable := 1 },
   { iColumn := BFSVTAB_COL_TABLENAME, op := SQLITE_INDEX_CONSTRAINT_EQ, usable := 1 },
   { iColumn := BFSVTAB_COL_ID, op := SQLITE_INDEX_CONSTRAINT_EQ, usable := 1 }]

/-- The usage entries of `n` constraints as the host hands them over: zeroed. -/
def zeroUsage (n : Nat) : List sqlite3_index_constraint_usage :=
  List.replicate n { argvIndex := 0, omit_ := 0 }

/-- The right-hand sides of the constraints of `exampleConstraints`. -/
def exampleValues : List sqlite3_value :=
  [textValue "other" 0, intValue 3, intValue 7, intValue 1, textValue "third" 0, intValue 2]

/-- The binding name `bfsvtabFilter` works with for predicate `k` under plan `idxNum`; the
distance is not a binding. -/
def planBinding (k : PlanKind) (pVtab : bfsvtab_vtab) (idxNum : Nat)
    (argv : Nat → sqlite3_value) : Option String :=
  match k with
  | .distance => none
  | .tablename => planTableName pVtab idxNum argv
  | .fromcolumn => planFromColumn pVtab idxNum argv
  | .tocolumn => planToColumn pVtab idxNum argv
  | .order_by_column => planOrderByColumn pVtab idxNum argv

/-- The binding name stored in the cursor for predicate `k`. -/
def cursorBinding (k : PlanKind) (pCur : bfsvtab_cursor) : Option String :=
  match k with
  | .distance => none
  | .tablename => pCur.zTableName
  | .fromcolumn => pCur.zFromColumn
  | .tocolumn => pCur.zToColumn
  | .order_by_column => pCur.zOrderByColumn

/-- The records of a sequence of insertions that are linked into the tree: those whose id is
not among `seen` and not the id of an earlier record of the sequence, in order. -/
def firstRecords (seen : List Int) : List (Int × Int) → List (Int × Int)
  | [] => []
  | e :: l => if e.1 ∈ seen then firstRecords seen l else e :: firstRecords (e.1 :: seen) l

/-! ## The calls of the host on a cursor -/

/-- The cursor states the host can bring about: `bfsvtabOpen`, followed by any calls of
`bfsvtabFilter` and `bfsvtabNext`. -/
inductive Reached : bfsvtab_cursor → Prop where
  | opened : Reached bfsvtabOpen
  | filter {c : bfsvtab_cursor} (db : sqlite3) (pVtab : bfsvtab_vtab) (idxNum : Nat)
      (argv : Nat → sqlite3_value) :
      Reached c → Reached (bfsvtabFilter db pVtab c idxNum argv).2.2
  | next {c : bfsvtab_cursor} : Reached c → Reached (bfsvtabNext c).2

/-- The statement handle that `bfsvtabClearCursor` hands to `sqlite3_finalize`. -/
def bfsvtabClearCursorFinalized (pCur : bfsvtab_cursor) : Option sqlite3_stmt := pCur.pStmt

/-- The virtual table after a `bfsvtabNext` call on one of its cursors: no statement of
`bfsvtabNext` stores into the table, so it is as it was, its error message included. -/
def bfsvtabNextVtab (pVtab : bfsvtab_vtab) : bfsvtab_cursor → bfsvtab_vtab := fun _ => pVtab

/-- Host status: disk I/O error. -/
def SQLITE_IOERR : Int := 10

/-- A neighbour statement that returns the row `2` for id 1 and whose stepping fails for
id 2 with `SQLITE_IOERR`, which `sqlite3_reset` then reports. -/
def failingStmt : sqlite3_stmt :=
  { step := fun u => if u = 1 then [intValue 2] else []
    reset := fun u => if u = 2 then SQLITE_IOERR else SQLITE_OK }

/-- A database whose every statement is `failingStmt`, with the error message of the failed
step. -/
def failingDb : sqlite3 :=
  { prepare := fun _ => (SQLITE_OK, some failingStmt)
    errmsg := "disk I/O error" }

/-- The `for` loop of `bfsvtabDequote` from input index `iIn` on, over the buffer `zIn` that
holds the input with its terminator at index `nIn`: the bytes stored to `zOut` (at indices
`iOut`, `iOut + 1`, ... in this order) and the indices of `zIn` read by the two reads of
every turn.  `fuel` bounds the number of turns; `nIn` turns always suffice. -/
def bfsvtabDequoteFor (zIn : List Char) (nIn : Nat) (q : Char) :
    Nat → Nat → List Char × List Nat
  | 0, _ => ([], [])
  | fuel + 1, iIn =>
    if iIn < nIn then
      if zIn.getD iIn NUL = q then
        (zIn.getD (iIn + 1) NUL :: (bfsvtabDequoteFor zIn nIn q fuel (iIn + 2)).1,
          iIn :: (iIn + 1) :: (bfsvtabDequoteFor zIn nIn q fuel (iIn + 2)).2)
      else
        (zIn.getD iIn NUL :: (bfsvtabDequoteFor zIn nIn q fuel (iIn + 1)).1,
          iIn :: iIn :: (bfsvtabDequoteFor zIn nIn q fuel (iIn + 1)).2)
    else ([], [])

/-- What `bfsvtabNext` relies on when it is entered: the visited set is a search tree, the
queue is well formed, and every queued record has its entry in the visited set. -/
def TraversalOk (c : bfsvtab_cursor) : Prop :=
  c.pVisited.Ordered ∧ QWf c.pQueue ∧ ∀ n ∈ c.pQueue.pFirst, entryOf n ∈ c.pVisited.entries

/-- What holds of the cursor between the calls of the host: besides `TraversalOk`, the queue
is empty when there is no current record, and the current record has its entry in the
visited set. -/
def CursorOk (c : bfsvtab_cursor) : Prop :=
  TraversalOk c ∧ (c.pCurrent = none → c.pQueue.pFirst = []) ∧
    ∀ cur, c.pCurrent = some cur → entryOf cur ∈ c.pVisited.entries

/-! ## The order of discovery -/

/-- The records `bfsvtabNext` pushes while it expands `cur` over the rows `rs` of the
neighbour statement, `seen` being the ids of the visited set: one record for every
integer-typed value that is neither in `seen` nor the value of an earlier such row, in the
order of the rows. -/
def discovered (cur : bfsvtab_node) (seen : List Int) : List sqlite3_value → List bfsvtab_node
  | [] => []
  | r :: rs =>
    if r.type = SQLITE_INTEGER ∧ r.int64 ∉ seen then
      { id := r.int64, parent := cur.id, distance := cur.distance + 1 } ::
        discovered cur (r.int64 :: seen) rs
    else discovered cur seen rs

/-- The position of the first integer-typed row with value `v` among the rows `rs` (their
number when there is none). -/
def firstRow (v : Int) (rs : List sqlite3_value) : Nat :=
  rs.findIdx fun r => r.type = SQLITE_INTEGER ∧ r.int64 = v

/-- The order in which the records were discovered.  `X` lists the records pulled from the
queue so far, in order, and `Q` is the chain of the queue, so that `X ++ Q` lists the records
in the order they were pushed.  Every record but the root has as parent the first record of
`X` with an integer edge to it; the records are pushed in the order of their parents in `X`;
and records of one parent are pushed in the order in which their ids first occur in the rows
of the neighbour statement for that parent. -/
structure Disc (stmt : sqlite3_stmt) (root : Int) (X Q : List bfsvtab_node) : Prop where
  first : ∀ x ∈ X ++ Q, x.id ≠ root →
    ∃ X1 y X2, X = X1 ++ y :: X2 ∧ y.id = x.parent ∧ Edge stmt y.id x.id ∧
      ∀ u ∈ X1, ¬ Edge stmt u.id x.id
  byParent : (X ++ Q).Pairwise fun a b => a.id ≠ root → b.id ≠ root →
    (X.map (·.id)).indexOf a.parent ≤ (X.map (·.id)).indexOf b.parent
  siblings : (X ++ Q).Pairwise fun a b => a.id ≠ root → b.id ≠ root → a.parent = b.parent →
    firstRow a.id (stmt.step a.parent) < firstRow b.id (stmt.step a.parent)

/-- The cursor stands at an emitted record, with the traversal invariant and the order of
discovery. -/
def GoodOrder (stmt : sqlite3_stmt) (root : Int) (c : bfsvtab_cursor)
    (Xs : List bfsvtab_node) (cur : bfsvtab_node) (Q : List bfsvtab_node) : Prop :=
  Good stmt root c Xs cur Q ∧ Disc stmt root (Xs ++ [cur]) Q

/-- The diamond `(1,2),(1,3),(2,4),(3,4)`, neighbours in ascending order. -/
def diamondEdges : List (Int × sqlite3_value) :=
  [(1, intValue 2), (1, intValue 3), (2, intValue 4), (3, intValue 4)]

/-! ## The visited set is a search tree -/

theorem entries_recompute (t : bfsvtab_avl) :
    (bfsvtabAvlRecomputeHeight t).entries = t.entries := by
  cases t <;> simp [bfsvtabAvlRecomputeHeight, bfsvtab_avl.entries]

theorem entries_rotateBefore (t : bfsvtab_avl) :
    (bfsvtabAvlRotateBefore t).entries = t.entries := by
  unfold bfsvtabAvlRotateBefore
  split
  · simp [bfsvtabAvlRecomputeHeight, bfsvtab_avl.entries]
  · rfl

theorem entries_rotateAfter (t : bfsvtab_avl) :
    (bfsvtabAvlRotateAfter t).entries = t.entries := by
  unfold bfsvtabAvlRotateAfter
  split
  · simp [bfsvtabAvlRecomputeHeight, bfsvtab_avl.entries]
  · rfl

theorem entries_balanceStep (t : bfsvtab_avl) :
    (bfsvtabAvlBalanceStep t).entries = t.entries := by
  unfold bfsvtabAvlBalanceStep
  split
  · next h => rw [← entries_recompute t, h]
  · next id parent pBefore pAfter hh imb h =>
    rw [← entries_recompute t, h]
    split_ifs <;>
      simp [entries_rotateBefore, entries_rotateAfter, bfsvtab_avl.entries]

theorem ordered_node {id parent : Int} {b a : bfsvtab_avl} {h i : Int} :
    (bfsvtab_avl.node id parent b a h i).Ordered ↔
      b.Ordered ∧ a.Ordered ∧ (∀ x ∈ b.ids, x < id) ∧ (∀ y ∈ a.ids, id < y) := by
  simp only [bfsvtab_avl.Ordered, bfsvtab_avl.ids, bfsvtab_avl.entries, List.map_append,
    List.map_cons, List.pairwise_append, List.pairwise_cons, List.mem_cons]
  constructor
  · rintro ⟨hb, ⟨ha1, ha2⟩, h3⟩
    exact ⟨hb, ha2, fun x hx => h3 x hx id (Or.inl rfl), ha1⟩
  · rintro ⟨hb, ha, h1, h2⟩
    refine ⟨hb, ⟨h2, ha⟩, ?_⟩
    intro x hx y hy
    rcases hy with rfl | hy
    · exact h1 x hx
    · exact lt_trans (h1 x hx) (h2 y hy)

theorem ids_node {id parent : Int} {b a : bfsvtab_avl} {h i : Int} :
    (bfsvtab_avl.node id parent b a h i).ids = b.ids ++ id :: a.ids := by
  simp [bfsvtab_avl.ids, bfsvtab_avl.entries]

theorem search_null_iff (t : bfsvtab_avl) (ht : t.Ordered) (v : Int) :
    bfsvtabAvlSearch t v = .null ↔ v ∉ t.ids := by
  induction t with
  | null => simp [bfsvtabAvlSearch, bfsvtab_avl.ids, bfsvtab_avl.entries]
  | node id parent b a h i ihb iha =>
    obtain ⟨hb, ha, h1, h2⟩ := ordered_node.mp ht
    rw [ids_node]
    unfold bfsvtabAvlSearch
    by_cases hv : v = id
    · subst hv; simp
    · simp only [ne_eq, hv, not_false_eq_true, ↓reduceIte, List.mem_append, List.mem_cons,
        false_or]
      by_cases hlt : v < id
      · simp only [hlt, ↓reduceIte, ihb hb]
        constructor
        · intro hnb hor
          rcases hor with hh | hh
          · exact hnb hh
          · exact absurd (h2 v hh) (by omega)
        · intro hn hh; exact hn (Or.inl hh)
      · simp only [hlt, ↓reduceIte, iha ha]
        constructor
        · intro hna hor
          rcases hor with hh | hh
          · exact hlt (h1 v hh)
          · exact hna hh
        · intro hn hh; exact hn (Or.inr hh)

theorem search_node (t : bfsvtab_avl) (v : Int) {i p : Int} {b a : bfsvtab_avl} {hh im : Int}
    (hs : bfsvtabAvlSearch t v = .node i p b a hh im) : i = v ∧ (v, p) ∈ t.entries := by
  induction t with
  | null => simp [bfsvtabAvlSearch] at hs
  | node id parent tb ta h0 i0 ihb iha =>
    unfold bfsvtabAvlSearch at hs
    by_cases hv : v = id
    · subst hv
      simp only [ne_eq, not_true_eq_false, ↓reduceIte, bfsvtab_avl.node.injEq] at hs
      obtain ⟨rfl, rfl, -⟩ := hs
      simp [bfsvtab_avl.entries]
    · simp only [ne_eq, hv, not_false_eq_true, ↓reduceIte] at hs
      by_cases hlt : v < id
      · simp only [hlt, ↓reduceIte] at hs
        obtain ⟨h1, h2⟩ := ihb hs
        exact ⟨h1, by simp [bfsvtab_avl.entries, h2]⟩
      · simp only [hlt, ↓reduceIte] at hs
        obtain ⟨h1, h2⟩ := iha hs
        exact ⟨h1, by simp [bfsvtab_avl.entries, h2]⟩

theorem entries_parent_unique (t : bfsvtab_avl) (ht : t.Ordered) {v p q : Int}
    (hp : (v, p) ∈ t.entries) (hq : (v, q) ∈ t.entries) : p = q := by
  have hnd : (t.entries.map Prod.fst).Nodup := by
    have := ht
    unfold bfsvtab_avl.Ordered bfsvtab_avl.ids at this
    exact this.imp (fun h => ne_of_lt h)
  have := List.inj_on_of_nodup_map hnd hp hq rfl
  exact (Prod.mk.inj this).2

theorem search_of_mem (t : bfsvtab_avl) (ht : t.Ordered) {v p : Int}
    (hm : (v, p) ∈ t.entries) :
    ∃ b a hh im, bfsvtabAvlSearch t v = .node v p b a hh im := by
  cases hs : bfsvtabAvlSearch t v with
  | null =>
    have := (search_null_iff t ht v).mp hs
    exact absurd (List.mem_map_of_mem Prod.fst hm) this
  | node i q b a hh im =>
    obtain ⟨rfl, hq⟩ := search_node t v hs
    have := entries_parent_unique t ht hm hq
    subst this
    exact ⟨b, a, hh, im, rfl⟩

theorem insertAt_fresh (v p : Int) (t : bfsvtab_avl) (ht : t.Ordered) (hv : v ∉ t.ids) :
    (bfsvtabAvlInsertAt v p t).1 = .null ∧
    ∃ l1 l2, t.entries = l1 ++ l2 ∧ (bfsvtabAvlInsertAt v p t).2.entries = l1 ++ (v, p) :: l2 ∧
      (∀ e ∈ l1, e.1 < v) ∧ (∀ e ∈ l2, v < e.1) := by
  induction t with
  | null =>
    refine ⟨rfl, [], [], ?_⟩
    simp [bfsvtabAvlInsertAt, bfsvtab_avl.entries]
  | node id parent b a h i ihb iha =>
    obtain ⟨hb, ha, h1, h2⟩ := ordered_node.mp ht
    rw [ids_node] at hv
    simp only [List.mem_append, List.mem_cons, not_or] at hv
    obtain ⟨hvb, hvid, hva⟩ := hv
    unfold bfsvtabAvlInsertAt
    by_cases hlt : v < id
    · obtain ⟨e1, l1, l2, e2, e3, e4, e5⟩ := ihb hb hvb
      rcases hr : bfsvtabAvlInsertAt v p b with ⟨r1, r2⟩
      rw [hr] at e1 e3
      simp only at e1 e3
      subst e1
      simp only [hlt, ↓reduceIte]
      refine ⟨trivial, l1, l2 ++ (id, parent) :: a.entries, ?_, ?_, e4, ?_⟩
      · simp [bfsvtab_avl.entries, e2]
      · simp [entries_balanceStep, bfsvtab_avl.entries, e3]
      · intro e he
        simp only [List.mem_append, List.mem_cons] at he
        rcases he with he | rfl | he
        · exact e5 e he
        · exact hlt
        · exact lt_trans hlt (h2 e.1 (List.mem_map_of_mem Prod.fst he))
    · have hgt : v > id := by omega
      obtain ⟨e1, l1, l2, e2, e3, e4, e5⟩ := iha ha hva
      rcases hr : bfsvtabAvlInsertAt v p a with ⟨r1, r2⟩
      rw [hr] at e1 e3
      simp only at e1 e3
      subst e1
      simp only [hlt, hgt, ↓reduceIte]
      refine ⟨trivial, b.entries ++ (id, parent) :: l1, l2, ?_, ?_, ?_, e5⟩
      · simp [bfsvtab_avl.entries, e2]
      · simp [entries_balanceStep, bfsvtab_avl.entries, e3]
      · intro e he
        simp only [List.mem_append, List.mem_cons] at he
        rcases he with he | rfl | he
        · exact lt_trans (h1 e.1 (List.mem_map_of_mem Prod.fst he)) hgt
        · exact hgt
        · exact e4 e he

theorem insert_fresh (v p : Int) (t : bfsvtab_avl) (ht : t.Ordered) (hv : v ∉ t.ids) :
    (bfsvtabAvlInsert t (newAvlNode v p)).1 = .null ∧
    ∃ l1 l2, t.entries = l1 ++ l2 ∧
      (bfsvtabAvlInsert t (newAvlNode v p)).2.1.entries = l1 ++ (v, p) :: l2 ∧
      (∀ e ∈ l1, e.1 < v) ∧ (∀ e ∈ l2, v < e.1) := by
  cases t with
  | null =>
    refine ⟨rfl, [], [], ?_⟩
    simp [bfsvtabAvlInsert, newAvlNode, entries_balanceStep, bfsvtab_avl.entries]
  | node id parent b a h i =>
    exact insertAt_fresh v p _ ht hv

theorem insert_fresh_ordered (v p : Int) (t : bfsvtab_avl) (ht : t.Ordered) (hv : v ∉ t.ids) :
    (bfsvtabAvlInsert t (newAvlNode v p)).2.1.Ordered := by
  obtain ⟨-, l1, l2, e2, e3, e4, e5⟩ := insert_fresh v p t ht hv
  unfold bfsvtab_avl.Ordered bfsvtab_avl.ids at ht ⊢
  rw [e2] at ht
  rw [e3]
  simp only [List.map_append, List.map_cons, List.pairwise_append, List.pairwise_cons,
    List.mem_map, List.mem_cons, forall_exists_index, and_imp] at ht ⊢
  obtain ⟨p1, p2, p3⟩ := ht
  refine ⟨p1, ⟨?_, p2⟩, ?_⟩
  · rintro _ e he rfl; exact e5 e he
  · rintro _ e he rfl y hy
    rcases hy with rfl | ⟨e', he', rfl⟩
    · exact e4 e he
    · exact p3 _ e he rfl _ e' he' rfl

theorem insert_fresh_perm (v p : Int) (t : bfsvtab_avl) (ht : t.Ordered) (hv : v ∉ t.ids) :
    (bfsvtabAvlInsert t (newAvlNode v p)).2.1.entries.Perm (t.entries ++ [(v, p)]) := by
  obtain ⟨-, l1, l2, e2, e3, -, -⟩ := insert_fresh v p t ht hv
  rw [e2, e3]
  have h1 : (l1 ++ (v, p) :: l2).Perm ((v, p) :: (l1 ++ l2)) := List.perm_middle
  exact h1.trans (List.perm_append_singleton (v, p) (l1 ++ l2)).symm

/-! ## The balancing walk dereferences no NULL pointer -/

theorem heightOr0_nonneg (t : bfsvtab_avl) (h : t.HeightsOk) : 0 ≤ t.heightOr0 := by
  cases t with
  | null => simp [bfsvtab_avl.heightOr0]
  | node id parent b a hh i => exact h.2.2.1

theorem isNode_of_height_pos (t : bfsvtab_avl) (h : 0 < t.heightOr0) : t.isNode := by
  cases t with
  | null => simp [bfsvtab_avl.heightOr0] at h
  | node id parent b a hh i => trivial

theorem heightsOk_recompute (id parent : Int) (b a : bfsvtab_avl) (h i : Int)
    (hb : b.HeightsOk) (ha : a.HeightsOk) :
    (bfsvtabAvlRecomputeHeight (.node id parent b a h i)).HeightsOk := by
  have h1 := heightOr0_nonneg b hb
  have h2 := heightOr0_nonneg a ha
  refine ⟨hb, ha, ?_, rfl⟩
  split_ifs <;> omega

theorem heightsOk_rotateBefore (id parent : Int) (b a : bfsvtab_avl) (h i : Int)
    (hb : b.HeightsOk) (ha : a.HeightsOk) (hn : b.isNode) :
    (bfsvtabAvlRotateBefore (.node id parent b a h i)).HeightsOk := by
  cases b with
  | null => exact absurd hn (by simp [bfsvtab_avl.isNode])
  | node idB parB x y hB iB =>
    unfold bfsvtabAvlRotateBefore
    exact heightsOk_recompute _ _ _ _ _ _ hb.1 (heightsOk_recompute _ _ _ _ _ _ hb.2.1 ha)

theorem heightsOk_rotateAfter (id parent : Int) (b a : bfsvtab_avl) (h i : Int)
    (hb : b.HeightsOk) (ha : a.HeightsOk) (hn : a.isNode) :
    (bfsvtabAvlRotateAfter (.node id parent b a h i)).HeightsOk := by
  cases a with
  | null => exact absurd hn (by simp [bfsvtab_avl.isNode])
  | node idA parA y z hA iA =>
    unfold bfsvtabAvlRotateAfter
    exact heightsOk_recompute _ _ _ _ _ _ (heightsOk_recompute _ _ _ _ _ _ hb ha.1) ha.2.1

theorem isNode_rotateBefore (t : bfsvtab_avl) (h : t.isNode) :
    (bfsvtabAvlRotateBefore t).isNode := by
  unfold bfsvtabAvlRotateBefore
  split
  · simp [bfsvtabAvlRecomputeHeight, bfsvtab_avl.isNode]
  · exact h

theorem isNode_rotateAfter (t : bfsvtab_avl) (h : t.isNode) :
    (bfsvtabAvlRotateAfter t).isNode := by
  unfold bfsvtabAvlRotateAfter
  split
  · simp [bfsvtabAvlRecomputeHeight, bfsvtab_avl.isNode]
  · exact h

/-- At a node whose children have reliable heights, a turn of the balancing loop dereferences
no NULL pointer and leaves a tree with reliable heights. -/
theorem balanceStep_heights (id parent : Int) (b a : bfsvtab_avl) (h i : Int)
    (hb : b.HeightsOk) (ha : a.HeightsOk) :
    balanceStepDefined (.node id parent b a h i) ∧
    (bfsvtabAvlBalanceStep (.node id parent b a h i)).HeightsOk ∧
    (bfsvtabAvlBalanceStep (.node id parent b a h i)).isNode := by
  have h1 := heightOr0_nonneg b hb
  have h2 := heightOr0_nonneg a ha
  unfold balanceStepDefined bfsvtabAvlBalanceStep
  simp only [bfsvtabAvlRecomputeHeight]
  by_cases c1 : b.heightOr0 - a.heightOr0 ≥ 2
  · simp only [c1, ↓reduceIte]
    have hbn : b.isNode := isNode_of_height_pos b (by omega)
    have hinner : b.imbalanceOf < 0 → b.afterOf.isNode := by
      intro hlt
      cases b with
      | null => exact absurd hbn (by simp [bfsvtab_avl.isNode])
      | node idB parB x y hB iB =>
        have hx := heightOr0_nonneg x hb.1
        have hi := hb.2.2.2
        simp only [bfsvtab_avl.imbalanceOf] at hlt
        exact isNode_of_height_pos y (by omega)
    refine ⟨⟨hbn, hinner⟩, ?_, ?_⟩
    · apply heightsOk_rotateBefore _ _ _ _ _ _ _ ha
      · split_ifs with hlt
        · exact isNode_rotateAfter b hbn
        · exact hbn
      · split_ifs with hlt
        · cases b with
          | null => exact absurd hbn (by simp [bfsvtab_avl.isNode])
          | node idB parB x y hB iB =>
            exact heightsOk_rotateAfter _ _ _ _ _ _ hb.1 hb.2.1 (hinner hlt)
        · exact hb
    · exact isNode_rotateBefore _ trivial
  · by_cases c2 : b.heightOr0 - a.heightOr0 ≤ -2
    · simp only [c1, c2, ↓reduceIte]
      have han : a.isNode := isNode_of_height_pos a (by omega)
      have hinner : a.imbalanceOf > 0 → a.beforeOf.isNode := by
        intro hgt
        cases a with
        | null => exact absurd han (by simp [bfsvtab_avl.isNode])
        | node idA parA y z hA iA =>
          have hz := heightOr0_nonneg z ha.2.1
          have hi := ha.2.2.2
          simp only [bfsvtab_avl.imbalanceOf] at hgt
          exact isNode_of_height_pos y (by omega)
      refine ⟨⟨han, hinner⟩, ?_, ?_⟩
      · apply heightsOk_rotateAfter _ _ _ _ _ _ hb
        · split_ifs with hgt
          · cases a with
            | null => exact absurd han (by simp [bfsvtab_avl.isNode])
            | node idA parA y z hA iA =>
              exact heightsOk_rotateBefore _ _ _ _ _ _ ha.1 ha.2.1 (hinner hgt)
          · exact ha
        · split_ifs with hgt
          · exact isNode_rotateBefore a han
          · exact han
      · exact isNode_rotateAfter _ trivial
    · simp only [c1, c2, ↓reduceIte]
      refine ⟨trivial, ⟨hb, ha, ?_, rfl⟩, trivial⟩
      split_ifs <;> omega

theorem insertAt_heights (v p : Int) (t : bfsvtab_avl) (ht : t.HeightsOk) :
    insertAtDefined v p t ∧ (bfsvtabAvlInsertAt v p t).2.HeightsOk := by
  induction t with
  | null =>
    refine ⟨trivial, ?_⟩
    simp [bfsvtabAvlInsertAt, bfsvtab_avl.HeightsOk, bfsvtab_avl.heightOr0]
  | node id parent b a h i ihb iha =>
    obtain ⟨hb, ha, h1, h2⟩ := ht
    obtain ⟨db, hb'⟩ := ihb hb
    obtain ⟨da, ha'⟩ := iha ha
    constructor
    · rw [insertAtDefined]
      by_cases c1 : v < id
      · simp only [c1, ↓reduceIte]
        exact ⟨db, fun _ => (balanceStep_heights _ _ _ _ _ _ hb' ha).1⟩
      · by_cases c2 : v > id
        · simp only [c1, c2, ↓reduceIte]
          exact ⟨da, fun _ => (balanceStep_heights _ _ _ _ _ _ hb ha').1⟩
        · simp only [c1, c2, ↓reduceIte]
    · rw [bfsvtabAvlInsertAt]
      by_cases c1 : v < id
      · simp only [c1, ↓reduceIte]
        rcases hr : bfsvtabAvlInsertAt v p b with ⟨r1, r2⟩
        rw [hr] at hb'
        simp only at hb'
        cases r1 with
        | null => exact (balanceStep_heights id parent r2 a h i hb' ha).2.1
        | node _ _ _ _ _ _ => exact ⟨hb, ha, h1, h2⟩
      · by_cases c2 : v > id
        · simp only [c1, c2, ↓reduceIte]
          rcases hr : bfsvtabAvlInsertAt v p a with ⟨r1, r2⟩
          rw [hr] at ha'
          simp only at ha'
          cases r1 with
          | null => exact (balanceStep_heights id parent b r2 h i hb ha').2.1
          | node _ _ _ _ _ _ => exact ⟨hb, ha, h1, h2⟩
        · simp only [c1, c2, ↓reduceIte]
          exact ⟨hb, ha, h1, h2⟩

/-- On a tree with reliable heights `bfsvtabAvlInsert` dereferences no NULL pointer, and the
heights of the tree it leaves are reliable again. -/
theorem insert_heights (v p : Int) (t : bfsvtab_avl) (ht : t.HeightsOk) :
    insertDefined t v p ∧ (bfsvtabAvlInsert t (newAvlNode v p)).2.1.HeightsOk := by
  cases t with
  | null =>
    have := balanceStep_heights v p .null .null 1 0 trivial trivial
    exact ⟨this.1, this.2.1⟩
  | node id parent b a h i => exact insertAt_heights v p _ ht

/-! ## The traversal invariant -/

theorem Inv.mono {stmt : sqlite3_stmt} {root : Int} {P P' : Int → Int → Prop}
    {X Q : List bfsvtab_node} {vis : bfsvtab_avl} (h : Inv stmt root P X Q vis)
    (hP : ∀ u w, P' u w → P u w) : Inv stmt root P' X Q vis :=
  { h with exp := fun y hy v hv => h.exp y hy v (hP _ _ hv) }

theorem Inv.ids_eq {stmt : sqlite3_stmt} {root : Int} {P : Int → Int → Prop}
    {X Q : List bfsvtab_node} {vis : bfsvtab_avl} (h : Inv stmt root P X Q vis) :
    vis.ids.Perm ((X ++ Q).map (·.id)) := by
  have := h.perm.map Prod.fst
  simpa [bfsvtab_avl.ids, entryOf, Function.comp_def] using this

theorem Inv.nodup {stmt : sqlite3_stmt} {root : Int} {P : Int → Int → Prop}
    {X Q : List bfsvtab_node} {vis : bfsvtab_avl} (h : Inv stmt root P X Q vis) :
    ((X ++ Q).map (·.id)).Nodup := by
  have h1 : vis.ids.Nodup := by
    have := h.ordered
    unfold bfsvtab_avl.Ordered at this
    exact this.imp (fun h => ne_of_lt h)
  exact h.ids_eq.nodup_iff.mp h1

theorem Inv.eq_of_id {stmt : sqlite3_stmt} {root : Int} {P : Int → Int → Prop}
    {X Q : List bfsvtab_node} {vis : bfsvtab_avl} (h : Inv stmt root P X Q vis)
    {a b : bfsvtab_node} (ha : a ∈ X ++ Q) (hb : b ∈ X ++ Q) (hab : a.id = b.id) : a = b :=
  List.inj_on_of_nodup_map h.nodup ha hb hab

theorem queuePush_wf (q : bfsvtab_queue) (hq : QWf q) (n : bfsvtab_node) :
    (queuePush q n).pFirst = q.pFirst ++ [n] ∧ QWf (queuePush q n) := by
  unfold QWf at hq
  unfold queuePush QWf
  cases hl : q.pLast with
  | none =>
    rw [hl] at hq
    have : q.pFirst = [] := by
      cases hf : q.pFirst with
      | nil => rfl
      | cons a l =>
        rw [hf] at hq
        have := (List.getLast?_eq_none_iff.mp hq.symm)
        simp at this
    simp [this]
  | some z => simp

theorem queuePull_wf (q : bfsvtab_queue) (hq : QWf q) (p : bfsvtab_node)
    (rest : List bfsvtab_node) (hf : q.pFirst = p :: rest) :
    (queuePull q).1 = some p ∧ (queuePull q).2.pFirst = rest ∧ QWf (queuePull q).2 := by
  unfold QWf at hq
  unfold queuePull QWf
  rw [hf] at hq ⊢
  refine ⟨rfl, rfl, ?_⟩
  cases rest with
  | nil => simp
  | cons a l => simp [hq, List.getLast?_cons_cons]

theorem nextRow_inv (stmt : sqlite3_stmt) (root : Int) (P : Int → Int → Prop)
    (X Q : List bfsvtab_node) (vis : bfsvtab_avl) (q : bfsvtab_queue) (cur : bfsvtab_node)
    (r : sqlite3_value)
    (hq : q.pFirst = Q) (hwf : QWf q) (hinv : Inv stmt root P X Q vis)
    (hcur : cur ∈ X) (hnear : ∀ x ∈ X ++ Q, x.distance ≤ cur.distance + 1)
    (hcq : ∀ y ∈ Q, cur.distance ≤ y.distance)
    (hr : r ∈ stmt.step cur.id) :
    ∃ Qn, (bfsvtabNextRow cur (vis, q) r).2.pFirst = Q ++ Qn ∧
      QWf (bfsvtabNextRow cur (vis, q) r).2 ∧
      Inv stmt root (fun u w => P u w ∨ (u = cur.id ∧ r.type = SQLITE_INTEGER ∧ r.int64 = w))
        X (Q ++ Qn) (bfsvtabNextRow cur (vis, q) r).1 ∧
      (∀ x ∈ X ++ (Q ++ Qn), x.distance ≤ cur.distance + 1) ∧
      (∀ y ∈ Q ++ Qn, cur.distance ≤ y.distance) := by
  have hcurL : cur ∈ X ++ Q := List.mem_append_left _ hcur
  unfold bfsvtabNextRow
  by_cases hty : r.type = SQLITE_INTEGER
  · simp only [hty, ↓reduceIte]
    cases hs : bfsvtabAvlSearch vis r.int64 with
    | node i p b a hh im =>
      simp only
      refine ⟨[], by simpa using hq, hwf, ?_, by simpa using hnear, by simpa using hcq⟩
      rw [List.append_nil]
      refine { hinv with exp := ?_ }
      intro y hy v hv
      rcases hv with hv | ⟨h1, -, h3⟩
      · exact hinv.exp y hy v hv
      · have hmem : r.int64 ∈ vis.ids := by
          by_contra hc
          rw [(search_null_iff vis hinv.ordered _).mpr hc] at hs
          exact bfsvtab_avl.noConfusion hs
        have hmem2 := hinv.ids_eq.mem_iff.mp hmem
        obtain ⟨x, hx, hxid⟩ := List.mem_map.mp hmem2
        have hyc : y = cur := hinv.eq_of_id (List.mem_append_left _ hy) hcurL h1
        refine ⟨x, hx, by rw [← h3]; exact hxid, ?_⟩
        rw [hyc]; exact hnear x hx
    | null =>
      simp only
      have hfresh : r.int64 ∉ vis.ids := (search_null_iff vis hinv.ordered _).mp hs
      have hfreshL : ∀ x ∈ X ++ Q, x.id ≠ r.int64 := by
        intro x hx hxe
        exact hfresh (hinv.ids_eq.mem_iff.mpr (List.mem_map.mpr ⟨x, hx, hxe⟩))
      obtain ⟨hp1, hp2⟩ := queuePush_wf q hwf
        { id := r.int64, parent := cur.id, distance := cur.distance + 1 }
      have hedge : Edge stmt cur.id r.int64 := ⟨r, hr, hty, rfl⟩
      refine ⟨[{ id := r.int64, parent := cur.id, distance := cur.distance + 1 }],
        by rw [hp1, hq], hp2, ?_, ?_, ?_⟩
      · refine
          { ordered := insert_fresh_ordered _ _ vis hinv.ordered hfresh
            heights := (insert_heights _ _ vis hinv.heights).2
            perm := ?_, sorted := ?_, nearQ := ?_, rootIn := ?_, walk := ?_, par := ?_,
            exp := ?_ }
        · have h1 := insert_fresh_perm r.int64 cur.id vis hinv.ordered hfresh
          refine h1.trans ?_
          rw [← List.append_assoc, List.map_append]
          exact List.Perm.append_right _ hinv.perm
        · rw [← List.append_assoc, List.pairwise_append]
          refine ⟨hinv.sorted, List.pairwise_singleton _ _, ?_⟩
          intro x hx y hy
          rw [List.mem_singleton] at hy
          subst hy
          exact hnear x hx
        · intro x hx y hy
          rw [← List.append_assoc, List.mem_append, List.mem_singleton] at hx
          rw [List.mem_append, List.mem_singleton] at hy
          rcases hx with hx | rfl <;> rcases hy with hy | rfl
          · exact hinv.nearQ x hx y hy
          · have := hnear x hx
            show x.distance ≤ cur.distance + 1 + 1
            omega
          · have := hcq y hy
            show cur.distance + 1 ≤ y.distance + 1
            omega
          · show cur.distance + 1 ≤ cur.distance + 1 + 1
            omega
        · rw [← List.append_assoc]
          exact List.mem_append_left _ hinv.rootIn
        · intro x hx
          rw [← List.append_assoc, List.mem_append, List.mem_singleton] at hx
          rcases hx with hx | rfl
          · exact hinv.walk x hx
          · obtain ⟨n, hn1, hn2⟩ := hinv.walk cur hcurL
            refine ⟨n + 1, ?_, Walk.snoc hn2 hedge⟩
            show cur.distance + 1 = ((n + 1 : Nat) : Int)
            rw [hn1]; push_cast; rfl
        · intro x hx hxr
          rw [← List.append_assoc, List.mem_append, List.mem_singleton] at hx
          rcases hx with hx | rfl
          · exact hinv.par x hx hxr
          · exact ⟨cur, hcur, rfl, rfl, hedge⟩
        · intro y hy v hv
          rcases hv with hv | ⟨h1, -, h3⟩
          · obtain ⟨x, hx, hx2⟩ := hinv.exp y hy v hv
            refine ⟨x, ?_, hx2⟩
            rw [← List.append_assoc]
            exact List.mem_append_left _ hx
          · have hyc : y = cur := hinv.eq_of_id (List.mem_append_left _ hy) hcurL h1
            refine ⟨{ id := r.int64, parent := cur.id, distance := cur.distance + 1 }, ?_,
              h3, ?_⟩
            · rw [← List.append_assoc]
              exact List.mem_append_right _ (List.mem_singleton.mpr rfl)
            · rw [hyc]
      · intro x hx
        rw [← List.append_assoc, List.mem_append, List.mem_singleton] at hx
        rcases hx with hx | rfl
        · exact hnear x hx
        · exact le_refl _
      · intro y hy
        rw [List.mem_append, List.mem_singleton] at hy
        rcases hy with hy | rfl
        · exact hcq y hy
        · show cur.distance ≤ cur.distance + 1
          omega
  · simp only [hty, ↓reduceIte]
    refine ⟨[], by simpa using hq, hwf, ?_, by simpa using hnear, by simpa using hcq⟩
    rw [List.append_nil]
    exact hinv.mono (fun u w h => h.elim id (fun h' => h'.2.1.elim))

theorem nextRows_inv (stmt : sqlite3_stmt) (root : Int) (cur : bfsvtab_node)
    (X : List bfsvtab_node) (hcur : cur ∈ X) (rs : List sqlite3_value) :
    ∀ (P : Int → Int → Prop) (Q : List bfsvtab_node) (vis : bfsvtab_avl) (q : bfsvtab_queue),
    q.pFirst = Q → QWf q → Inv stmt root P X Q vis →
    (∀ x ∈ X ++ Q, x.distance ≤ cur.distance + 1) →
    (∀ y ∈ Q, cur.distance ≤ y.distance) →
    (∀ r ∈ rs, r ∈ stmt.step cur.id) →
    ∃ Qn, (rs.foldl (bfsvtabNextRow cur) (vis, q)).2.pFirst = Q ++ Qn ∧
      QWf (rs.foldl (bfsvtabNextRow cur) (vis, q)).2 ∧
      Inv stmt root
        (fun u w => P u w ∨ (u = cur.id ∧ ∃ r ∈ rs, r.type = SQLITE_INTEGER ∧ r.int64 = w))
        X (Q ++ Qn) (rs.foldl (bfsvtabNextRow cur) (vis, q)).1 ∧
      nextRowsDefined cur rs (vis, q) := by
  induction rs with
  | nil =>
    intro P Q vis q hq hwf hinv _ _ _
    refine ⟨[], by simpa using hq, hwf, ?_, trivial⟩
    rw [List.append_nil]
    exact hinv.mono (fun u w h => h.elim id (fun h' => by simp at h'))
  | cons r rs ih =>
    intro P Q vis q hq hwf hinv hnear hcq hrs
    obtain ⟨Q1, h1, h2, h3, h4, h5⟩ := nextRow_inv stmt root P X Q vis q cur r hq hwf hinv hcur
      hnear hcq (hrs r (List.mem_cons_self _ _))
    obtain ⟨Q2, g1, g2, g3, g4⟩ := ih _ (Q ++ Q1) (bfsvtabNextRow cur (vis, q) r).1
      (bfsvtabNextRow cur (vis, q) r).2 h1 h2 h3 h4 h5
      (fun r' hr' => hrs r' (List.mem_cons_of_mem _ hr'))
    refine ⟨Q1 ++ Q2, ?_, ?_, ?_, ?_⟩
    · rw [List.foldl_cons, ← List.append_assoc]; exact g1
    · rw [List.foldl_cons]; exact g2
    · rw [List.foldl_cons, ← List.append_assoc]
      refine g3.mono ?_
      intro u w h
      rcases h with h | ⟨hu, r', hr', ht, hw⟩
      · exact Or.inl (Or.inl h)
      · rcases List.mem_cons.mp hr' with rfl | hr'
        · exact Or.inl (Or.inr ⟨hu, ht, hw⟩)
        · exact Or.inr ⟨hu, r', hr', ht, hw⟩
    · exact ⟨fun _ _ => (insert_heights _ _ vis hinv.heights).1, g4⟩

theorem next_inv (c : bfsvtab_cursor) (stmt : sqlite3_stmt) (root : Int)
    (X : List bfsvtab_node) (q0 : bfsvtab_node) (rest : List bfsvtab_node)
    (hst : c.pStmt = some stmt) (hq : c.pQueue.pFirst = q0 :: rest) (hwf : QWf c.pQueue)
    (hinv : Inv stmt root (Edge stmt) X (q0 :: rest) c.pVisited) :
    ∃ Qn, (bfsvtabNext c).2.pCurrent = some q0 ∧
      (bfsvtabNext c).2.pQueue.pFirst = rest ++ Qn ∧ QWf (bfsvtabNext c).2.pQueue ∧
      Inv stmt root (Edge stmt) (X ++ [q0]) (rest ++ Qn) (bfsvtabNext c).2.pVisited ∧
      (bfsvtabNext c).2.pStmt = some stmt ∧ (bfsvtabNext c).2.root = c.root ∧
      (bfsvtabNext c).1 = stmt.reset q0.id ∧ bfsvtabNextDefined c := by
  obtain ⟨p1, p2, p3⟩ := queuePull_wf c.pQueue hwf q0 rest hq
  have hL : (X ++ [q0]) ++ rest = X ++ q0 :: rest := by simp
  have hq0 : q0 ∈ X ++ q0 :: rest := by simp
  have hinv1 : Inv stmt root (fun u w => u ≠ q0.id ∧ Edge stmt u w) (X ++ [q0]) rest
      c.pVisited :=
    { ordered := hinv.ordered
      heights := hinv.heights
      perm := by rw [hL]; exact hinv.perm
      sorted := by rw [hL]; exact hinv.sorted
      nearQ := by
        intro x hx y hy
        rw [hL] at hx
        exact hinv.nearQ x hx y (List.mem_cons_of_mem _ hy)
      rootIn := by rw [hL]; exact hinv.rootIn
      walk := by rw [hL]; exact hinv.walk
      par := by
        intro x hx hxr
        rw [hL] at hx
        obtain ⟨y, hy, h⟩ := hinv.par x hx hxr
        exact ⟨y, List.mem_append_left _ hy, h⟩
      exp := by
        intro y hy v hv
        rw [hL]
        rcases List.mem_append.mp hy with hy | hy
        · exact hinv.exp y hy v hv.2
        · rw [List.mem_singleton] at hy
          subst hy
          exact absurd rfl hv.1 }
  have hnear : ∀ x ∈ (X ++ [q0]) ++ rest, x.distance ≤ q0.distance + 1 := by
    intro x hx
    rw [hL] at hx
    exact hinv.nearQ x hx q0 (List.mem_cons_self _ _)
  have hcq : ∀ y ∈ rest, q0.distance ≤ y.distance := by
    intro y hy
    have := hinv.sorted
    rw [List.pairwise_append] at this
    exact (List.pairwise_cons.mp this.2.1).1 y hy
  obtain ⟨Qn, g1, g2, g3, g4⟩ := nextRows_inv stmt root q0 (X ++ [q0]) (by simp)
    (stmt.step q0.id) _ rest c.pVisited (queuePull c.pQueue).2 p2 p3 hinv1 hnear hcq
    (fun r hr => hr)
  have hpull : queuePull c.pQueue = (some q0, (queuePull c.pQueue).2) := by
    rw [← p1]
  have hn : bfsvtabNext c = (stmt.reset q0.id,
      { c with
        pCurrent := some q0
        pVisited := ((stmt.step q0.id).foldl (bfsvtabNextRow q0)
          (c.pVisited, (queuePull c.pQueue).2)).1
        pQueue := ((stmt.step q0.id).foldl (bfsvtabNextRow q0)
          (c.pVisited, (queuePull c.pQueue).2)).2 }) := by
    unfold bfsvtabNext
    rw [hpull]
    simp only [hst]
  have hdef : bfsvtabNextDefined c := by
    unfold bfsvtabNextDefined
    rw [hpull, hst]
    exact g4
  refine ⟨Qn, ?_⟩
  rw [hn]
  refine ⟨rfl, g1, g2, ?_, hst, rfl, rfl, hdef⟩
  refine g3.mono ?_
  intro u w h
  by_cases hu : u = q0.id
  · obtain ⟨r, hr, ht, hw⟩ := h
    exact Or.inr ⟨hu, r, by rw [← hu]; exact hr, ht, hw⟩
  · exact Or.inl ⟨hu, h⟩

/-! ## Filter and the scan of the host -/

theorem filter_noroot (db : sqlite3) (pVtab : bfsvtab_vtab) (pCur : bfsvtab_cursor)
    (idxNum : Nat) (argv : Nat → sqlite3_value) (hbit : idxNum &&& 1 = 0) :
    bfsvtabFilter db pVtab pCur idxNum argv = (SQLITE_OK, pVtab, bfsvtabClearCursor pCur) := by
  unfold bfsvtabFilter
  simp only [hbit, ↓reduceIte]

theorem filter_root (db : sqlite3) (pVtab : bfsvtab_vtab) (pCur : bfsvtab_cursor)
    (idxNum : Nat) (argv : Nat → sqlite3_value) (hbit : idxNum &&& 1 ≠ 0) :
    ∃ (zSql : String) (base : bfsvtab_cursor),
      bfsvtabFilter db pVtab pCur idxNum argv =
        if (db.prepare zSql).1 ≠ 0 then
          ((db.prepare zSql).1, { pVtab with zErrMsg := some (fmt_s (some db.errmsg)) },
            { base with pStmt := (db.prepare zSql).2 })
        else
          ((bfsvtabNext (seedCursor base (db.prepare zSql).2 (argv 0).int64)).1, pVtab,
           (bfsvtabNext (seedCursor base (db.prepare zSql).2 (argv 0).int64)).2) := by
  unfold bfsvtabFilter
  rw [if_neg hbit]
  exact ⟨_, _, rfl⟩

theorem inv_init (stmt : sqlite3_stmt) (root : Int) :
    Inv stmt root (Edge stmt) [] [{ id := root, parent := root, distance := 0 }]
      (.node root root .null .null 0 0) :=
  { ordered := by simp [bfsvtab_avl.Ordered, bfsvtab_avl.ids, bfsvtab_avl.entries]
    heights := by simp [bfsvtab_avl.HeightsOk, bfsvtab_avl.heightOr0]
    perm := by simp [bfsvtab_avl.entries, entryOf]
    sorted := by simp
    nearQ := by
      intro x hx y hy
      simp only [List.nil_append, List.mem_singleton] at hx hy
      subst hx; subst hy; simp
    rootIn := by simp
    walk := by
      intro x hx
      simp only [List.nil_append, List.mem_singleton] at hx
      subst hx
      exact ⟨0, rfl, Walk.nil⟩
    par := by
      intro x hx hxr
      simp only [List.nil_append, List.mem_singleton] at hx
      subst hx
      exact absurd rfl hxr
    exp := by
      intro y hy
      simp at hy }

theorem filter_good (db : sqlite3) (pVtab : bfsvtab_vtab) (pCur : bfsvtab_cursor)
    (idxNum : Nat) (argv : Nat → sqlite3_value) (hbit : idxNum &&& 1 ≠ 0)
    (hrc : (bfsvtabFilter db pVtab pCur idxNum argv).1 = SQLITE_OK) :
    ∃ stmt Q, Good stmt (argv 0).int64 (bfsvtabFilter db pVtab pCur idxNum argv).2.2 []
      { id := (argv 0).int64, parent := (argv 0).int64, distance := 0 } Q := by
  obtain ⟨zSql, base, hf⟩ := filter_root db pVtab pCur idxNum argv hbit
  rw [hf] at hrc ⊢
  by_cases hp : (db.prepare zSql).1 ≠ 0
  · rw [if_pos hp] at hrc
    exact absurd hrc hp
  · rw [if_neg hp] at hrc ⊢
    simp only at hrc ⊢
    cases hs : (db.prepare zSql).2 with
    | none =>
      rw [hs] at hrc
      simp [bfsvtabNext, queuePull, seedCursor, SQLITE_MISUSE, SQLITE_OK] at hrc
    | some stmt =>
      rw [hs] at hrc
      obtain ⟨Qn, g1, g2, g3, g4, g5, g6, -, -⟩ := next_inv
        (seedCursor base (some stmt) (argv 0).int64)
        stmt (argv 0).int64 [] _ [] rfl rfl (by simp [QWf, seedCursor]) (inv_init stmt _)
      exact ⟨stmt, [] ++ Qn, g1, g5, g6, g2, g3, g4⟩

theorem next_empty (c : bfsvtab_cursor) (hq : c.pQueue.pFirst = []) :
    (bfsvtabNext c).1 = SQLITE_OK ∧ bfsvtabEof (bfsvtabNext c).2 = true := by
  unfold bfsvtabNext queuePull
  rw [hq]
  simp [bfsvtabEof, hq]

theorem hostScan_eof (fuel : Nat) (rc : Int) (c : bfsvtab_cursor)
    (h : bfsvtabEof c = true) : hostScan fuel (rc, c) = [] := by
  cases fuel with
  | zero => rfl
  | succ n => simp [hostScan, h]

theorem Good.not_eof {stmt : sqlite3_stmt} {root : Int} {c : bfsvtab_cursor}
    {Xs : List bfsvtab_node} {cur : bfsvtab_node} {Q : List bfsvtab_node}
    (h : Good stmt root c Xs cur Q) : bfsvtabEof c = false := by
  simp [bfsvtabEof, h.1]

theorem Good.next {stmt : sqlite3_stmt} {root : Int} {c : bfsvtab_cursor}
    {Xs : List bfsvtab_node} {cur q0 : bfsvtab_node} {rest : List bfsvtab_node}
    (h : Good stmt root c Xs cur (q0 :: rest)) :
    ∃ Qn, Good stmt root (bfsvtabNext c).2 (Xs ++ [cur]) q0 (rest ++ Qn) ∧
      (bfsvtabNext c).1 = stmt.reset q0.id := by
  obtain ⟨h1, h2, h3, h4, h5, h6⟩ := h
  obtain ⟨Qn, g1, g2, g3, g4, g5, g6, g7, -⟩ := next_inv c stmt root _ q0 rest h2 h4 h5 h6
  exact ⟨Qn, ⟨g1, g5, by rw [g6, h3], g2, g3, g4⟩, g7⟩

theorem currentOf_append (r1 r2 : List bfsvtab_cursor) :
    currentOf (r1 ++ r2) = currentOf r1 ++ currentOf r2 := by
  simp [currentOf]

theorem scan_inv (stmt : sqlite3_stmt) (root : Int) :
    ∀ (fuel : Nat) (rc : Int) (c : bfsvtab_cursor) (Xs : List bfsvtab_node)
      (cur : bfsvtab_node) (Q : List bfsvtab_node), Good stmt root c Xs cur Q →
    ∃ Xf Qf visf, Inv stmt root (Edge stmt) Xf Qf visf ∧
      (Xs ++ currentOf (hostScan fuel (rc, c))) <+: Xf ∧
      ∀ r1 c' r2, hostScan fuel (rc, c) = r1 ++ c' :: r2 →
        ∃ cur' Q', Good stmt root c' (Xs ++ currentOf r1) cur' Q' := by
  intro fuel
  induction fuel with
  | zero =>
    intro rc c Xs cur Q h
    refine ⟨Xs ++ [cur], Q, c.pVisited, h.2.2.2.2.2, ?_, ?_⟩
    · simp [hostScan, currentOf]
    · intro r1 c' r2 hd
      simp [hostScan] at hd
  | succ n ih =>
    intro rc c Xs cur Q h
    by_cases hstop : rc ≠ SQLITE_OK ∨ bfsvtabEof c = true
    · refine ⟨Xs ++ [cur], Q, c.pVisited, h.2.2.2.2.2, ?_, ?_⟩
      · simp [hostScan, hstop, currentOf]
      · intro r1 c' r2 hd
        simp [hostScan, hstop] at hd
    · have hsc : hostScan (n + 1) (rc, c) = c :: hostScan n (bfsvtabNext c) := by
        simp only [hostScan, hstop, ↓reduceIte]
      rw [hsc]
      have hcur : currentOf (c :: hostScan n (bfsvtabNext c)) =
          cur :: currentOf (hostScan n (bfsvtabNext c)) := by
        simp [currentOf, h.1]
      rw [hcur]
      cases Q with
      | nil =>
        have he := next_empty c h.2.2.2.1
        have : hostScan n (bfsvtabNext c) = [] :=
          hostScan_eof n (bfsvtabNext c).1 (bfsvtabNext c).2 he.2
        rw [this]
        refine ⟨Xs ++ [cur], [], c.pVisited, h.2.2.2.2.2, ?_, ?_⟩
        · simp [currentOf]
        · intro r1 c' r2 hd
          cases r1 with
          | nil =>
            simp only [List.nil_append, List.cons.injEq] at hd
            obtain ⟨rfl, -⟩ := hd
            exact ⟨cur, [], by simpa [currentOf] using h⟩
          | cons a l => simp at hd
      | cons q0 rest =>
        obtain ⟨Qn, hg, -⟩ := h.next
        obtain ⟨Xf, Qf, visf, i1, i2, i3⟩ := ih (bfsvtabNext c).1 (bfsvtabNext c).2 _ _ _ hg
        refine ⟨Xf, Qf, visf, i1, ?_, ?_⟩
        · simpa using i2
        · intro r1 c' r2 hd
          cases r1 with
          | nil =>
            simp only [List.nil_append, List.cons.injEq] at hd
            obtain ⟨rfl, -⟩ := hd
            exact ⟨cur, _, by simpa [currentOf] using h⟩
          | cons a l =>
            simp only [List.cons_append, List.cons.injEq] at hd
            obtain ⟨rfl, hd⟩ := hd
            obtain ⟨cur', Q', hG⟩ := i3 l c' r2 hd
            refine ⟨cur', Q', ?_⟩
            have : Xs ++ currentOf (c :: l) = Xs ++ [cur] ++ currentOf l := by
              simp [currentOf, h.1]
            rw [this]; exact hG

/-- What a query yields: nothing, or a scan over a statement that keeps the invariant. -/
theorem query_inv (fuel : Nat) (db : sqlite3) (pVtab : bfsvtab_vtab) (pCur : bfsvtab_cursor)
    (idxNum : Nat) (argv : Nat → sqlite3_value) :
    bfsvtabQuery fuel db pVtab pCur idxNum argv = [] ∨
    ∃ stmt, (bfsvtabFilter db pVtab pCur idxNum argv).2.2.pStmt = some stmt ∧
      idxNum &&& 1 ≠ 0 ∧ (bfsvtabFilter db pVtab pCur idxNum argv).1 = SQLITE_OK ∧
      ∃ Xf Qf visf, Inv stmt (argv 0).int64 (Edge stmt) Xf Qf visf ∧
        currentOf (bfsvtabQuery fuel db pVtab pCur idxNum argv) <+: Xf ∧
        ∀ r1 c' r2, bfsvtabQuery fuel db pVtab pCur idxNum argv = r1 ++ c' :: r2 →
          ∃ cur' Q', Good stmt (argv 0).int64 c' (currentOf r1) cur' Q' := by
  by_cases hbit : idxNum &&& 1 = 0
  · left
    unfold bfsvtabQuery
    rw [filter_noroot db pVtab pCur idxNum argv hbit]
    exact hostScan_eof _ _ _ (by simp [bfsvtabEof, bfsvtabClearCursor])
  · by_cases hrc : (bfsvtabFilter db pVtab pCur idxNum argv).1 = SQLITE_OK
    · right
      obtain ⟨stmt, Q, hG⟩ := filter_good db pVtab pCur idxNum argv hbit hrc
      obtain ⟨Xf, Qf, visf, i1, i2, i3⟩ := scan_inv stmt (argv 0).int64 fuel
        (bfsvtabFilter db pVtab pCur idxNum argv).1 _ _ _ _ hG
      refine ⟨stmt, hG.2.1, hbit, hrc, Xf, Qf, visf, i1, ?_, ?_⟩
      · simpa [bfsvtabQuery] using i2
      · intro r1 c' r2 hd
        simpa using i3 r1 c' r2 hd
    · left
      unfold bfsvtabQuery
      cases fuel with
      | zero => rfl
      | succ n => simp [hostScan, hrc]

theorem Good.next_defined {stmt : sqlite3_stmt} {root : Int} {c : bfsvtab_cursor}
    {Xs : List bfsvtab_node} {cur : bfsvtab_node} {Q : List bfsvtab_node}
    (h : Good stmt root c Xs cur Q) : bfsvtabNextDefined c := by
  cases Q with
  | nil =>
    unfold bfsvtabNextDefined queuePull
    rw [h.2.2.2.1]
    trivial
  | cons q0 rest =>
    obtain ⟨h1, h2, h3, h4, h5, h6⟩ := h
    exact (next_inv c stmt root _ q0 rest h2 h4 h5 h6).choose_spec.2.2.2.2.2.2.2

/-- The call of `bfsvtabNext` that closes `bfsvtabFilter` dereferences no NULL pointer of the
visited set. -/
theorem seed_next_defined (base : bfsvtab_cursor) (stmt : sqlite3_stmt) (rootId : Int) :
    bfsvtabNextDefined (seedCursor base (some stmt) rootId) :=
  (next_inv (seedCursor base (some stmt) rootId) stmt rootId [] _ [] rfl rfl
    (by simp [QWf, seedCursor]) (inv_init stmt _)).choose_spec.2.2.2.2.2.2.2

/-- At every row of a query, the following `bfsvtabNext` call dereferences no NULL pointer of
the visited set: the rotations of the model are never applied where the C code would read
through a NULL child. -/
theorem query_next_defined (fuel : Nat) (db : sqlite3) (pVtab : bfsvtab_vtab)
    (pCur : bfsvtab_cursor) (idxNum : Nat) (argv : Nat → sqlite3_value)
    (c : bfsvtab_cursor) (hc : c ∈ bfsvtabQuery fuel db pVtab pCur idxNum argv) :
    bfsvtabNextDefined c := by
  rcases query_inv fuel db pVtab pCur idxNum argv with h0 | ⟨stmt, -, -, -, Xf, Qf, visf,
    -, -, i3⟩
  · rw [h0] at hc; simp at hc
  · obtain ⟨r1, r2, hd⟩ := List.append_of_mem hc
    obtain ⟨cur', Q', hG⟩ := i3 r1 c r2 hd
    exact hG.next_defined

/-! ## The path text -/

theorem digitChar_ne_slash (d : Nat) (hd : d < 10) : Nat.digitChar d ≠ '/' := by
  interval_cases d <;> decide

theorem toDigitsCore_no_slash (fuel : Nat) :
    ∀ (n : Nat) (ds : List Char), (∀ c ∈ ds, c ≠ '/') →
      ∀ c ∈ Nat.toDigitsCore 10 fuel n ds, c ≠ '/' := by
  induction fuel with
  | zero => intro n ds h; simpa [Nat.toDigitsCore] using h
  | succ k ih =>
    intro n ds h
    have hd : ∀ c ∈ Nat.digitChar (n % 10) :: ds, c ≠ '/' := by
      intro c hc
      rcases List.mem_cons.mp hc with rfl | hc
      · exact digitChar_ne_slash _ (Nat.mod_lt _ (by decide))
      · exact h c hc
    unfold Nat.toDigitsCore
    simp only
    split_ifs
    · exact hd
    · exact ih _ _ hd

theorem natRepr_no_slash (n : Nat) : ∀ c ∈ (Nat.repr n).data, c ≠ '/' := by
  unfold Nat.repr Nat.toDigits
  simp only [List.asString]
  exact toDigitsCore_no_slash _ _ _ (by simp)

theorem fmt_d_no_slash (i : Int) : (fmt_d i).data.count '/' = 0 := by
  rw [List.count_eq_zero]
  intro hmem
  unfold fmt_d at hmem
  cases h : int32 i with
  | ofNat m =>
    rw [h] at hmem
    exact natRepr_no_slash m _ hmem rfl
  | negSucc m =>
    rw [h] at hmem
    have : (toString (Int.negSucc m)).data = '-' :: (Nat.repr (m + 1)).data := rfl
    rw [this] at hmem
    rcases List.mem_cons.mp hmem with hc | hc
    · exact absurd hc (by decide)
    · exact natRepr_no_slash _ _ hc rfl

/-- The text the path builder produces for a chain of ids, appended to `str`. -/
theorem pathText_count (chain : List Int) :
    ∀ str : String, (chain.foldl (fun s i => s ++ fmt_d i ++ "/") str).data.count '/' =
      str.data.count '/' + chain.length := by
  induction chain with
  | nil => intro str; simp
  | cons a l ih =>
    intro str
    rw [List.foldl_cons, ih]
    simp only [String.data_append, List.count_append, fmt_d_no_slash, List.length_cons]
    have : ("/" : String).data.count '/' = 1 := by decide
    rw [this]
    omega

theorem Inv.search_entry {stmt : sqlite3_stmt} {root : Int} {P : Int → Int → Prop}
    {X Q : List bfsvtab_node} {vis : bfsvtab_avl} (h : Inv stmt root P X Q vis)
    {x : bfsvtab_node} (hx : x ∈ X ++ Q) :
    ∃ b a hh im, bfsvtabAvlSearch vis x.id = .node x.id x.parent b a hh im := by
  apply Bfsvtab.search_of_mem vis h.ordered
  exact h.perm.mem_iff.mpr (List.mem_map.mpr ⟨x, hx, rfl⟩)

theorem Inv.root_eq {stmt : sqlite3_stmt} {root : Int} {P : Int → Int → Prop}
    {X Q : List bfsvtab_node} {vis : bfsvtab_avl} (h : Inv stmt root P X Q vis)
    {x : bfsvtab_node} (hx : x ∈ X ++ Q) (hid : x.id = root) :
    x = { id := root, parent := root, distance := 0 } :=
  h.eq_of_id hx h.rootIn hid

theorem Inv.min {stmt : sqlite3_stmt} {root : Int} {X Q : List bfsvtab_node}
    {vis : bfsvtab_avl} (h : Inv stmt root (Edge stmt) X Q vis) {v : Int} {n : Nat}
    (hw : Walk stmt root v n) :
    (∃ x ∈ X ++ Q, x.id = v ∧ x.distance ≤ n) ∨ (∃ q ∈ Q, q.distance < n) := by
  induction hw with
  | nil => exact Or.inl ⟨_, h.rootIn, rfl, le_refl _⟩
  | snoc hw he ih =>
    rcases ih with ⟨y, hy, hyid, hyd⟩ | ⟨q, hq, hqd⟩
    · rcases List.mem_append.mp hy with hyX | hyQ
      · obtain ⟨x, hx, hxid, hxd⟩ := h.exp y hyX _ (hyid ▸ he)
        refine Or.inl ⟨x, hx, hxid, ?_⟩
        push_cast; omega
      · refine Or.inr ⟨y, hyQ, ?_⟩
        push_cast; omega
    · refine Or.inr ⟨q, hq, ?_⟩
      push_cast; omega

theorem Inv.min_dist {stmt : sqlite3_stmt} {root : Int} {X Q : List bfsvtab_node}
    {vis : bfsvtab_avl} (h : Inv stmt root (Edge stmt) X Q vis) {x : bfsvtab_node}
    (hx : x ∈ X) {m : Nat} (hw : Walk stmt root x.id m) : x.distance ≤ m := by
  rcases h.min hw with ⟨y, hy, hyid, hyd⟩ | ⟨q, hq, hqd⟩
  · have := h.eq_of_id hy (List.mem_append_left _ hx) hyid
    rw [← this]; exact hyd
  · have hs := h.sorted
    rw [List.pairwise_append] at hs
    have := hs.2.2 x hx q hq
    omega

theorem Walk.target {stmt : sqlite3_stmt} {root v : Int} {n : Nat}
    (hw : Walk stmt root v n) : v = root ∨ ∃ u, Edge stmt u v := by
  cases hw with
  | nil => exact Or.inl rfl
  | snoc _ he => exact Or.inr ⟨_, he⟩

theorem Inv.length_le {stmt : sqlite3_stmt} {root : Int} {P : Int → Int → Prop}
    {X Q : List bfsvtab_node} {vis : bfsvtab_avl} (h : Inv stmt root P X Q vis)
    (V : Finset Int) (hroot : root ∈ V) (hV : ∀ u v, Edge stmt u v → v ∈ V) :
    (X ++ Q).length ≤ V.card := by
  have h1 : ((X ++ Q).map (·.id)).toFinset ⊆ V := by
    intro v hv
    rw [List.mem_toFinset, List.mem_map] at hv
    obtain ⟨x, hx, rfl⟩ := hv
    obtain ⟨n, -, hw⟩ := h.walk x hx
    rcases hw.target with he | ⟨u, he⟩
    · rw [he]; exact hroot
    · exact hV u _ he
  have h2 := Finset.card_le_card h1
  rw [List.toFinset_card_of_nodup h.nodup, List.length_map] at h2
  exact h2

theorem build_spec {stmt : sqlite3_stmt} {root : Int} {P : Int → Int → Prop}
    {X Q : List bfsvtab_node} {vis : bfsvtab_avl} (h : Inv stmt root P X Q vis) (n : Nat) :
    ∀ (x : bfsvtab_node), x ∈ X ++ Q → x.distance = n → ∀ (fuel : Nat), n + 1 ≤ fuel →
      ∀ str : String, ∃ chain : List Int,
        bfsvtabBuildShortestPathStr fuel str vis x.id =
          some (chain.foldl (fun s i => s ++ fmt_d i ++ "/") (str ++ "/")) ∧
        chain.length = n + 1 ∧ chain.head? = some root ∧ chain.getLast? = some x.id ∧
        chain.Chain' (Edge stmt) := by
  induction n with
  | zero =>
    intro x hx hd fuel hfuel str
    have hroot : x.id = root := by
      by_contra hne
      obtain ⟨y, hy, -, hyd, -⟩ := h.par x hx hne
      obtain ⟨m, hm, -⟩ := h.walk y (List.mem_append_left _ hy)
      rw [hd, hm] at hyd
      push_cast at hyd
      omega
    have hxe := h.root_eq hx hroot
    obtain ⟨b, a, hh, im, hs⟩ := h.search_entry hx
    obtain ⟨k, rfl⟩ : ∃ k, fuel = k + 1 := ⟨fuel - 1, by omega⟩
    refine ⟨[root], ?_, rfl, rfl, by simp [hroot], by simp⟩
    unfold bfsvtabBuildShortestPathStr
    rw [hs]
    have hp : x.parent = x.id := by rw [hxe]
    simp only [hp, ne_eq, not_true_eq_false, ↓reduceIte, List.foldl_cons, List.foldl_nil, hroot]
  | succ n ih =>
    intro x hx hd fuel hfuel str
    have hne : x.id ≠ root := by
      intro hroot
      have hxe := h.root_eq hx hroot
      rw [hxe] at hd
      simp only at hd
      push_cast at hd
      omega
    obtain ⟨y, hy, hyid, hyd, hedge⟩ := h.par x hx hne
    have hyL : y ∈ X ++ Q := List.mem_append_left _ hy
    have hyn : y.distance = n := by
      rw [hd] at hyd; push_cast at hyd; omega
    have hpne : x.parent ≠ x.id := by
      intro hp
      have := h.eq_of_id hyL hx (hyid.trans hp)
      rw [this] at hyd
      omega
    obtain ⟨b, a, hh, im, hs⟩ := h.search_entry hx
    obtain ⟨k, rfl⟩ : ∃ k, fuel = k + 1 := ⟨fuel - 1, by omega⟩
    obtain ⟨chain, c1, c2, c3, c4, c5⟩ := ih y hyL hyn k (by omega) str
    refine ⟨chain ++ [x.id], ?_, by simp [c2], ?_, by simp, ?_⟩
    · unfold bfsvtabBuildShortestPathStr
      rw [hs]
      simp only [ne_eq, hpne, not_false_eq_true, ↓reduceIte]
      rw [← hyid, c1]
      simp [List.foldl_append]
    · cases chain with
      | nil => simp at c2
      | cons a l => simpa using c3
    · refine List.Chain'.append c5 (by simp) ?_
      intro u hu w hw
      rw [c4] at hu
      simp only [Option.mem_def, Option.some.injEq, List.head?_cons] at hu hw
      rw [← hu, ← hw]
      exact hedge

theorem scan_total (stmt : sqlite3_stmt) (root : Int) (B : Nat)
    (hreset : ∀ id, stmt.reset id = SQLITE_OK)
    (hB : ∀ X Q vis, Inv stmt root (Edge stmt) X Q vis → (X ++ Q).length ≤ B) :
    ∀ (fuel : Nat) (c : bfsvtab_cursor) (Xs : List bfsvtab_node) (cur : bfsvtab_node)
      (Q : List bfsvtab_node), Good stmt root c Xs cur Q → B + 1 ≤ Xs.length + fuel →
    ∃ cEnd Xf visf, hostScanEnd fuel (SQLITE_OK, c) = some (SQLITE_OK, cEnd) ∧
      bfsvtabEof cEnd = true ∧ Inv stmt root (Edge stmt) Xf [] visf ∧
      Xs ++ currentOf (hostScan fuel (SQLITE_OK, c)) = Xf := by
  intro fuel
  induction fuel with
  | zero =>
    intro c Xs cur Q h hf
    have := hB _ _ _ h.2.2.2.2.2
    simp only [List.length_append, List.length_cons, List.length_nil] at this
    omega
  | succ n ih =>
    intro c Xs cur Q h hf
    have hlen := hB _ _ _ h.2.2.2.2.2
    simp only [List.length_append, List.length_cons, List.length_nil] at hlen
    have hstop : ¬ (SQLITE_OK ≠ SQLITE_OK ∨ bfsvtabEof c = true) := by
      simp [h.not_eof]
    have hsc : hostScan (n + 1) (SQLITE_OK, c) = c :: hostScan n (bfsvtabNext c) := by
      simp only [hostScan, hstop, ↓reduceIte]
    have hse : hostScanEnd (n + 1) (SQLITE_OK, c) = hostScanEnd n (bfsvtabNext c) := by
      simp only [hostScanEnd, hstop, ↓reduceIte]
    have hcur : currentOf (c :: hostScan n (bfsvtabNext c)) =
        cur :: currentOf (hostScan n (bfsvtabNext c)) := by
      simp [currentOf, h.1]
    rw [hsc, hse, hcur]
    cases Q with
    | nil =>
      have he := next_empty c h.2.2.2.1
      have hnx : bfsvtabNext c = (SQLITE_OK, (bfsvtabNext c).2) := by
        rw [← he.1]
      have hs0 : hostScan n (bfsvtabNext c) = [] :=
        hostScan_eof n (bfsvtabNext c).1 (bfsvtabNext c).2 he.2
      obtain ⟨k, rfl⟩ : ∃ k, n = k + 1 := ⟨n - 1, by omega⟩
      refine ⟨(bfsvtabNext c).2, Xs ++ [cur], c.pVisited, ?_, he.2, h.2.2.2.2.2, ?_⟩
      · rw [hnx]
        simp [hostScanEnd, he.2]
      · rw [hs0]; simp [currentOf]
    | cons q0 rest =>
      obtain ⟨Qn, hg, hrc⟩ := h.next
      have hnx : bfsvtabNext c = (SQLITE_OK, (bfsvtabNext c).2) := by
        rw [← hreset q0.id, ← hrc]
      obtain ⟨cEnd, Xf, visf, e1, e2, e3, e4⟩ := ih (bfsvtabNext c).2 _ _ _ hg
        (by simp only [List.length_append, List.length_cons, List.length_nil]; omega)
      refine ⟨cEnd, Xf, visf, ?_, e2, e3, ?_⟩
      · rw [hnx]; exact e1
      · rw [hnx, ← e4]; simp

theorem currentOf_length (rows : List bfsvtab_cursor)
    (h : ∀ c ∈ rows, ∃ x, c.pCurrent = some x) : (currentOf rows).length = rows.length := by
  induction rows with
  | nil => rfl
  | cons a l ih =>
    obtain ⟨x, hx⟩ := h a (List.mem_cons_self _ _)
    have : currentOf (a :: l) = x :: currentOf l := by simp [currentOf, hx]
    rw [this, List.length_cons, List.length_cons,
      ih (fun c hc => h c (List.mem_cons_of_mem _ hc))]

theorem decomp_of_getElem? {α : Type} (l : List α) (i : Nat) (a : α) (h : l[i]? = some a) :
    l = l.take i ++ a :: l.drop (i + 1) := by
  obtain ⟨hi, rfl⟩ := List.getElem?_eq_some.mp h
  rw [← List.drop_eq_getElem_cons hi, List.take_append_drop]

/-! ## Properties of the traversal -/

/-- C1: after a successful `bfsvtabFilter` with a root-bearing plan over a finite edge
relation whose statement steps without failure, the scan reaches end-of-file, and the ids of
the rows emitted are exactly the vertices reachable from the root along integer-typed
neighbour values (the root included; other values contribute no edge). -/
theorem bfs_emits_reachable_set (db : sqlite3) (pVtab : bfsvtab_vtab) (pCur : bfsvtab_cursor)
    (idxNum : Nat) (argv : Nat → sqlite3_value) (stmt : sqlite3_stmt) (V : Finset Int)
    (hbit : idxNum &&& 1 ≠ 0)
    (hrc : (bfsvtabFilter db pVtab pCur idxNum argv).1 = SQLITE_OK)
    (hst : (bfsvtabFilter db pVtab pCur idxNum argv).2.2.pStmt = some stmt)
    (hreset : ∀ id, stmt.reset id = SQLITE_OK)
    (hV : ∀ u v, Edge stmt u v → v ∈ V) :
    ∃ N, ∀ fuel, N ≤ fuel →
      (∃ cEnd, hostScanEnd fuel ((bfsvtabFilter db pVtab pCur idxNum argv).1,
          (bfsvtabFilter db pVtab pCur idxNum argv).2.2) = some (SQLITE_OK, cEnd) ∧
        bfsvtabEof cEnd = true) ∧
      ∀ v, v ∈ (currentOf (bfsvtabQuery fuel db pVtab pCur idxNum argv)).map (·.id) ↔
        Reachable stmt (argv 0).int64 v := by
  obtain ⟨stmt', Q, hG⟩ := filter_good db pVtab pCur idxNum argv hbit hrc
  have hs : stmt' = stmt := by
    have := hG.2.1
    rw [hst] at this
    exact (Option.some.inj this).symm
  subst hs
  refine ⟨(insert (argv 0).int64 V).card + 1, ?_⟩
  intro fuel hfuel
  obtain ⟨cEnd, Xf, visf, e1, e2, e3, e4⟩ := scan_total stmt' (argv 0).int64
    (insert (argv 0).int64 V).card hreset
    (fun X Q vis hi => hi.length_le _ (Finset.mem_insert_self _ _)
      (fun u v he => Finset.mem_insert_of_mem (hV u v he)))
    fuel _ _ _ _ hG (by simpa using hfuel)
  rw [hrc]
  refine ⟨⟨cEnd, e1, e2⟩, ?_⟩
  intro v
  have hq : currentOf (bfsvtabQuery fuel db pVtab pCur idxNum argv) = Xf := by
    unfold bfsvtabQuery
    simp only [hrc]
    simpa using e4
  rw [hq, List.mem_map]
  constructor
  · rintro ⟨x, hx, rfl⟩
    obtain ⟨n, -, hw⟩ := e3.walk x (List.mem_append_left _ hx)
    exact ⟨n, hw⟩
  · rintro ⟨n, hw⟩
    rcases e3.min hw with ⟨x, hx, hxid, -⟩ | ⟨q, hq, -⟩
    · exact ⟨x, by simpa using hx, hxid⟩
    · simp at hq

theorem cycle_edges_in (u v : Int) (h : Edge (edgeStmt cycleEdges) u v) :
    v ∈ ({1, 2, 3} : Finset Int) := by
  obtain ⟨r, hr, -, rfl⟩ := h
  simp only [edgeStmt, cycleEdges, List.mem_map, List.mem_filter, List.mem_cons,
    List.mem_singleton, List.not_mem_nil, or_false, decide_eq_true_eq] at hr
  obtain ⟨e, ⟨he | he | he, -⟩, rfl⟩ := hr <;> subst he <;> simp [intValue]

theorem mixed_edges_in (u v : Int) (h : Edge (edgeStmt mixedEdges) u v) :
    v ∈ ({1, 2, 3} : Finset Int) := by
  obtain ⟨r, hr, ht, rfl⟩ := h
  simp only [edgeStmt, mixedEdges, List.mem_map, List.mem_filter, List.mem_cons,
    List.mem_singleton, List.not_mem_nil, or_false, decide_eq_true_eq] at hr
  obtain ⟨e, ⟨he | he | he | he, -⟩, rfl⟩ := hr <;> subst he
  · simp [intValue]
  · simp [textValue, SQLITE_INTEGER] at ht
  · simp [intValue]
  · simp [intValue]

theorem bfs_emits_reachable_set_witness :
    (1 &&& 1 ≠ 0) ∧
    (bfsvtabFilter (edgeDb mixedEdges) exampleVtab bfsvtabOpen 1 (rootArgv 1)).1 = SQLITE_OK ∧
    ∃ N, ∀ fuel, N ≤ fuel →
      (∃ cEnd, hostScanEnd fuel
          ((bfsvtabFilter (edgeDb mixedEdges) exampleVtab bfsvtabOpen 1 (rootArgv 1)).1,
          (bfsvtabFilter (edgeDb mixedEdges) exampleVtab bfsvtabOpen 1 (rootArgv 1)).2.2) =
            some (SQLITE_OK, cEnd) ∧
        bfsvtabEof cEnd = true) ∧
      ∀ v, v ∈ (currentOf (bfsvtabQuery fuel (edgeDb mixedEdges) exampleVtab bfsvtabOpen 1
          (rootArgv 1))).map (·.id) ↔
        Reachable (edgeStmt mixedEdges) (rootArgv 1 0).int64 v :=
  ⟨by decide, by decide,
    bfs_emits_reachable_set (edgeDb mixedEdges) exampleVtab bfsvtabOpen 1 (rootArgv 1)
      (edgeStmt mixedEdges) {1, 2, 3} (by decide) (by decide) rfl (fun _ => rfl)
      mixed_edges_in⟩

/-- C2: the distance of every emitted row is the length of a walk from the root to the
row's id in the graph of integer edges, and no walk from the root to that id is shorter. -/
theorem bfs_distance_is_shortest (fuel : Nat) (db : sqlite3) (pVtab : bfsvtab_vtab)
    (pCur : bfsvtab_cursor) (idxNum : Nat) (argv : Nat → sqlite3_value) (stmt : sqlite3_stmt)
    (x : bfsvtab_node)
    (hst : (bfsvtabFilter db pVtab pCur idxNum argv).2.2.pStmt = some stmt)
    (hx : x ∈ currentOf (bfsvtabQuery fuel db pVtab pCur idxNum argv)) :
    (∃ n : Nat, x.distance = n ∧ Walk stmt (argv 0).int64 x.id n) ∧
    ∀ m : Nat, Walk stmt (argv 0).int64 x.id m → x.distance ≤ m := by
  rcases query_inv fuel db pVtab pCur idxNum argv with h0 | ⟨stmt', hs, -, -, Xf, Qf, visf,
    i1, i2, -⟩
  · rw [h0] at hx; simp [currentOf] at hx
  · have : stmt' = stmt := by
      rw [hst] at hs; exact (Option.some.inj hs).symm
    subst this
    have hxX : x ∈ Xf := i2.subset hx
    exact ⟨i1.walk x (List.mem_append_left _ hxX), fun m hw => i1.min_dist hxX hw⟩

theorem bfs_distance_is_shortest_witness :
    (bfsvtabFilter (edgeDb cycleEdges) exampleVtab bfsvtabOpen 1 (rootArgv 1)).2.2.pStmt =
      some (edgeStmt cycleEdges) ∧
    ({ id := 3, parent := 2, distance := 2 } : bfsvtab_node) ∈
      currentOf (bfsvtabQuery 5 (edgeDb cycleEdges) exampleVtab bfsvtabOpen 1 (rootArgv 1)) ∧
    (∃ n : Nat, (2 : Int) = n ∧ Walk (edgeStmt cycleEdges) (rootArgv 1 0).int64 3 n) ∧
    ∀ m : Nat, Walk (edgeStmt cycleEdges) (rootArgv 1 0).int64 3 m → (2 : Int) ≤ m :=
  ⟨rfl, by decide,
    bfs_distance_is_shortest 5 (edgeDb cycleEdges) exampleVtab bfsvtabOpen 1 (rootArgv 1)
      (edgeStmt cycleEdges) { id := 3, parent := 2, distance := 2 } rfl (by decide)⟩

/-- C3: the ids of the emitted rows are pairwise distinct; more, at every row the records
pushed so far (those emitted up to this row and those still queued) have pairwise distinct
ids, so no id is pushed twice. -/
theorem emitted_ids_distinct (fuel : Nat) (db : sqlite3) (pVtab : bfsvtab_vtab)
    (pCur : bfsvtab_cursor) (idxNum : Nat) (argv : Nat → sqlite3_value) :
    ((currentOf (bfsvtabQuery fuel db pVtab pCur idxNum argv)).map (·.id)).Nodup ∧
    ∀ (i : Nat) (c : bfsvtab_cursor),
      (bfsvtabQuery fuel db pVtab pCur idxNum argv)[i]? = some c →
      ((currentOf ((bfsvtabQuery fuel db pVtab pCur idxNum argv).take (i + 1)) ++
        c.pQueue.pFirst).map (·.id)).Nodup := by
  rcases query_inv fuel db pVtab pCur idxNum argv with h0 | ⟨stmt, -, -, -, Xf, Qf, visf,
    i1, i2, i3⟩
  · rw [h0]; simp [currentOf]
  · constructor
    · have hn := i1.nodup
      rw [List.map_append] at hn
      exact (List.nodup_append.mp hn).1.sublist (i2.sublist.map _)
    · intro i c hi
      have hd := decomp_of_getElem? _ i c hi
      obtain ⟨cur', Q', hG⟩ := i3 _ c _ hd
      have hn := hG.2.2.2.2.2.nodup
      have ht : currentOf ((bfsvtabQuery fuel db pVtab pCur idxNum argv).take (i + 1)) =
          currentOf ((bfsvtabQuery fuel db pVtab pCur idxNum argv).take i) ++ [cur'] := by
        obtain ⟨hlt, hget⟩ := List.getElem?_eq_some.mp hi
        rw [List.take_succ, hi, currentOf_append]
        simp [currentOf, hG.1]
      rw [ht, hG.2.2.2.1]
      exact hn

/-- C4: along the emitted rows the distance never decreases: a row emitted before another
has a distance no larger. -/
theorem emitted_distance_monotone (fuel : Nat) (db : sqlite3) (pVtab : bfsvtab_vtab)
    (pCur : bfsvtab_cursor) (idxNum : Nat) (argv : Nat → sqlite3_value) :
    (currentOf (bfsvtabQuery fuel db pVtab pCur idxNum argv)).Pairwise
      (fun r1 r2 => r1.distance ≤ r2.distance) := by
  rcases query_inv fuel db pVtab pCur idxNum argv with h0 | ⟨stmt, -, -, -, Xf, Qf, visf,
    i1, i2, -⟩
  · rw [h0]; simp [currentOf]
  · have hs := i1.sorted
    exact (List.pairwise_append.mp hs).1.sublist i2.sublist

/-- C5: for every emitted row whose id is not the root, the visited set holds an entry at the
row's parent, and a row with that id is among the rows emitted before it. -/
theorem parent_emitted_before (fuel : Nat) (db : sqlite3) (pVtab : bfsvtab_vtab)
    (pCur : bfsvtab_cursor) (idxNum : Nat) (argv : Nat → sqlite3_value) (i : Nat)
    (c : bfsvtab_cursor) (x : bfsvtab_node)
    (hi : (bfsvtabQuery fuel db pVtab pCur idxNum argv)[i]? = some c)
    (hx : c.pCurrent = some x) (hroot : x.id ≠ c.root) :
    bfsvtabAvlSearch c.pVisited x.parent ≠ .null ∧
    ∃ y ∈ currentOf ((bfsvtabQuery fuel db pVtab pCur idxNum argv).take i),
      y.id = x.parent := by
  rcases query_inv fuel db pVtab pCur idxNum argv with h0 | ⟨stmt, -, -, -, Xf, Qf, visf,
    -, -, i3⟩
  · rw [h0] at hi; simp at hi
  · have hd := decomp_of_getElem? _ i c hi
    obtain ⟨cur', Q', hG⟩ := i3 _ c _ hd
    have hc : cur' = x := by
      have := hG.1; rw [hx] at this; exact (Option.some.inj this).symm
    subst hc
    have hinv := hG.2.2.2.2.2
    have hcurL : cur' ∈ (currentOf ((bfsvtabQuery fuel db pVtab pCur idxNum argv).take i) ++
        [cur']) ++ Q' := by simp
    obtain ⟨y, hy, hyid, hyd, -⟩ := hinv.par cur' hcurL (by rw [← hG.2.2.1]; exact hroot)
    constructor
    · obtain ⟨b, a, hh, im, hs⟩ := hinv.search_entry (List.mem_append_left _ hy)
      rw [← hyid, hs]
      exact fun h => bfsvtab_avl.noConfusion h
    · rcases List.mem_append.mp hy with hy | hy
      · exact ⟨y, hy, hyid⟩
      · rw [List.mem_singleton] at hy
        rw [hy] at hyd
        omega

theorem parent_emitted_before_witness :
    (bfsvtabQuery 5 (edgeDb cycleEdges) exampleVtab bfsvtabOpen 1 (rootArgv 1))[1]? =
      some (bfsvtabNext
        (bfsvtabFilter (edgeDb cycleEdges) exampleVtab bfsvtabOpen 1 (rootArgv 1)).2.2).2 ∧
    (bfsvtabNext (bfsvtabFilter (edgeDb cycleEdges) exampleVtab bfsvtabOpen 1
      (rootArgv 1)).2.2).2.pCurrent = some { id := 2, parent := 1, distance := 1 } ∧
    (2 : Int) ≠ (bfsvtabNext (bfsvtabFilter (edgeDb cycleEdges) exampleVtab bfsvtabOpen 1
      (rootArgv 1)).2.2).2.root ∧
    bfsvtabAvlSearch (bfsvtabNext (bfsvtabFilter (edgeDb cycleEdges) exampleVtab bfsvtabOpen 1
      (rootArgv 1)).2.2).2.pVisited 1 ≠ .null ∧
    ∃ y ∈ currentOf ((bfsvtabQuery 5 (edgeDb cycleEdges) exampleVtab bfsvtabOpen 1
      (rootArgv 1)).take 1), y.id = 1 :=
  ⟨rfl, rfl, by decide,
    parent_emitted_before 5 (edgeDb cycleEdges) exampleVtab bfsvtabOpen 1 (rootArgv 1) 1
      (bfsvtabNext
        (bfsvtabFilter (edgeDb cycleEdges) exampleVtab bfsvtabOpen 1 (rootArgv 1)).2.2).2
      { id := 2, parent := 1, distance := 1 } rfl rfl (by decide)⟩

/-- C6: after a successful `bfsvtabFilter` with a root-bearing plan the cursor is not at
end-of-file, the row it stands at is the first row of the scan, and that row has the root as
id, distance 0 and a NULL parent column. -/
theorem first_row_is_root (fuel pathFuel : Nat) (db : sqlite3) (pVtab : bfsvtab_vtab)
    (pCur : bfsvtab_cursor) (idxNum : Nat) (argv : Nat → sqlite3_value)
    (hbit : idxNum &&& 1 ≠ 0)
    (hrc : (bfsvtabFilter db pVtab pCur idxNum argv).1 = SQLITE_OK) :
    bfsvtabEof (bfsvtabFilter db pVtab pCur idxNum argv).2.2 = false ∧
    (bfsvtabQuery (fuel + 1) db pVtab pCur idxNum argv).head? =
      some (bfsvtabFilter db pVtab pCur idxNum argv).2.2 ∧
    (bfsvtabFilter db pVtab pCur idxNum argv).2.2.root = (argv 0).int64 ∧
    bfsvtabColumn pathFuel pVtab (bfsvtabFilter db pVtab pCur idxNum argv).2.2
      BFSVTAB_COL_ID = .ok (.integer (argv 0).int64) ∧
    bfsvtabColumn pathFuel pVtab (bfsvtabFilter db pVtab pCur idxNum argv).2.2
      BFSVTAB_COL_DISTANCE = .ok (.integer 0) ∧
    bfsvtabColumn pathFuel pVtab (bfsvtabFilter db pVtab pCur idxNum argv).2.2
      BFSVTAB_COL_PARENT = .ok .null := by
  obtain ⟨stmt, Q, hG⟩ := filter_good db pVtab pCur idxNum argv hbit hrc
  have hne := hG.not_eof
  refine ⟨hne, ?_, hG.2.2.1, ?_, ?_, ?_⟩
  · simp [bfsvtabQuery, hostScan, hrc, hne]
  · simp [bfsvtabColumn, BFSVTAB_COL_ID, hG.1, sqlite3_result_int64]
  · simp [bfsvtabColumn, BFSVTAB_COL_ID, BFSVTAB_COL_PARENT, BFSVTAB_COL_DISTANCE, hG.1,
      sqlite3_result_int, int32]
  · simp [bfsvtabColumn, BFSVTAB_COL_ID, BFSVTAB_COL_PARENT, hG.1, hG.2.2.1]

theorem first_row_is_root_witness :
    (1 &&& 1 ≠ 0) ∧
    (bfsvtabFilter (edgeDb cycleEdges) exampleVtab bfsvtabOpen 1 (rootArgv 1)).1 = SQLITE_OK ∧
    bfsvtabEof (bfsvtabFilter (edgeDb cycleEdges) exampleVtab bfsvtabOpen 1
      (rootArgv 1)).2.2 = false ∧
    (bfsvtabQuery (0 + 1) (edgeDb cycleEdges) exampleVtab bfsvtabOpen 1 (rootArgv 1)).head? =
      some (bfsvtabFilter (edgeDb cycleEdges) exampleVtab bfsvtabOpen 1 (rootArgv 1)).2.2 ∧
    (bfsvtabFilter (edgeDb cycleEdges) exampleVtab bfsvtabOpen 1 (rootArgv 1)).2.2.root =
      (rootArgv 1 0).int64 ∧
    bfsvtabColumn 0 exampleVtab (bfsvtabFilter (edgeDb cycleEdges) exampleVtab bfsvtabOpen 1
      (rootArgv 1)).2.2 BFSVTAB_COL_ID = .ok (.integer (rootArgv 1 0).int64) ∧
    bfsvtabColumn 0 exampleVtab (bfsvtabFilter (edgeDb cycleEdges) exampleVtab bfsvtabOpen 1
      (rootArgv 1)).2.2 BFSVTAB_COL_DISTANCE = .ok (.integer 0) ∧
    bfsvtabColumn 0 exampleVtab (bfsvtabFilter (edgeDb cycleEdges) exampleVtab bfsvtabOpen 1
      (rootArgv 1)).2.2 BFSVTAB_COL_PARENT = .ok .null :=
  ⟨by decide, by decide,
    first_row_is_root 0 0 (edgeDb cycleEdges) exampleVtab bfsvtabOpen 1 (rootArgv 1)
      (by decide) (by decide)⟩

/-- C7 (the code at a failing input): on the chain `4294967297 → 4294967298 → 4294967299`
with root `4294967297`, ids that do not fit in 32 bits, the id column of the rows holds the
full ids while the path column holds `/1/`, `/1/2/` and `/1/2/3/`; the last row's path is
not the text `/4294967297/4294967298/4294967299/` that the base-10 rendering of the ids
gives. -/
theorem shortest_path_truncates_id :
    (bfsvtabQuery 4 (edgeDb wideEdges) exampleVtab bfsvtabOpen 1 (rootArgv 4294967297)).map
        (fun c => (bfsvtabColumn 3 exampleVtab c BFSVTAB_COL_ID,
          bfsvtabColumn 3 exampleVtab c BFSVTAB_COL_SHORTEST_PATH)) =
      [(.ok (.integer 4294967297), .ok (.text "/1/")),
       (.ok (.integer 4294967298), .ok (.text "/1/2/")),
       (.ok (.integer 4294967299), .ok (.text "/1/2/3/"))] ∧
    "/" ++ toString (4294967297 : Int) ++ "/" ++ toString (4294967298 : Int) ++ "/" ++
      toString (4294967299 : Int) ++ "/" ≠ "/1/2/3/" := by
  decide

/-- C8: for every emitted row, at distance `n`, the path column is produced with any
recursion bound above `n`; it is the text `/` followed by the ids of a chain, each rendered
and followed by `/`, where the chain starts at the root, ends at the row's id, makes `n`
steps each of which is an edge of the graph; and the text holds `n + 2` slashes. -/
theorem shortest_path_slash_count (fuel pathFuel : Nat) (db : sqlite3) (pVtab : bfsvtab_vtab)
    (pCur : bfsvtab_cursor) (idxNum : Nat) (argv : Nat → sqlite3_value) (stmt : sqlite3_stmt)
    (c : bfsvtab_cursor) (x : bfsvtab_node)
    (hst : (bfsvtabFilter db pVtab pCur idxNum argv).2.2.pStmt = some stmt)
    (hc : c ∈ bfsvtabQuery fuel db pVtab pCur idxNum argv) (hx : c.pCurrent = some x)
    (hfuel : x.distance < pathFuel) :
    ∃ (n : Nat) (chain : List Int) (s : String), x.distance = n ∧
      bfsvtabColumn pathFuel pVtab c BFSVTAB_COL_SHORTEST_PATH = .ok (.text s) ∧
      s = chain.foldl (fun t i => t ++ fmt_d i ++ "/") "/" ∧
      chain.length = n + 1 ∧ chain.head? = some (argv 0).int64 ∧
      chain.getLast? = some x.id ∧ chain.Chain' (Edge stmt) ∧
      s.data.count '/' = n + 2 := by
  rcases query_inv fuel db pVtab pCur idxNum argv with h0 | ⟨stmt', hs, -, -, Xf, Qf, visf,
    -, -, i3⟩
  · rw [h0] at hc; simp at hc
  · have : stmt' = stmt := by
      rw [hst] at hs; exact (Option.some.inj hs).symm
    subst this
    obtain ⟨r1, r2, hd⟩ := List.append_of_mem hc
    obtain ⟨cur', Q', hG⟩ := i3 r1 c r2 hd
    have hcx : cur' = x := by
      have := hG.1; rw [hx] at this; exact (Option.some.inj this).symm
    subst hcx
    have hinv := hG.2.2.2.2.2
    have hcurL : cur' ∈ (currentOf r1 ++ [cur']) ++ Q' := by simp
    obtain ⟨n, hn, -⟩ := hinv.walk cur' hcurL
    obtain ⟨chain, b1, b2, b3, b4, b5⟩ := build_spec hinv n cur' hcurL hn pathFuel
      (by rw [hn] at hfuel; exact_mod_cast hfuel) ""
    refine ⟨n, chain, _, hn, ?_, rfl, b2, b3, b4, b5, ?_⟩
    · have hne : chain.foldl (fun t i => t ++ fmt_d i ++ "/") "/" ≠ "" := by
        intro he
        have hcount := pathText_count chain "/"
        rw [he] at hcount
        have h1 : ("/" : String).data.count '/' = 1 := by decide
        have h0 : ("" : String).data.count '/' = 0 := by decide
        rw [h1, h0] at hcount
        omega
      simp only [bfsvtabColumn, BFSVTAB_COL_SHORTEST_PATH, BFSVTAB_COL_ID, BFSVTAB_COL_PARENT,
        BFSVTAB_COL_DISTANCE, hx, b1]
      simp [sqlite3_result_text, sqlite3_str_finish, hne]
    · rw [pathText_count, b2]
      have : ("/" : String).data.count '/' = 1 := by decide
      rw [this]; omega

theorem shortest_path_slash_count_witness :
    (bfsvtabFilter (edgeDb cycleEdges) exampleVtab bfsvtabOpen 1 (rootArgv 1)).2.2.pStmt =
      some (edgeStmt cycleEdges) ∧
    (bfsvtabNext (bfsvtabFilter (edgeDb cycleEdges) exampleVtab bfsvtabOpen 1
      (rootArgv 1)).2.2).2 ∈
      bfsvtabQuery 5 (edgeDb cycleEdges) exampleVtab bfsvtabOpen 1 (rootArgv 1) ∧
    (bfsvtabNext (bfsvtabFilter (edgeDb cycleEdges) exampleVtab bfsvtabOpen 1
      (rootArgv 1)).2.2).2.pCurrent = some { id := 2, parent := 1, distance := 1 } ∧
    ((1 : Int) < (2 : Nat)) ∧
    ∃ (n : Nat) (chain : List Int) (s : String), (1 : Int) = n ∧
      bfsvtabColumn 2 exampleVtab (bfsvtabNext (bfsvtabFilter (edgeDb cycleEdges) exampleVtab
        bfsvtabOpen 1 (rootArgv 1)).2.2).2 BFSVTAB_COL_SHORTEST_PATH = .ok (.text s) ∧
      s = chain.foldl (fun t i => t ++ fmt_d i ++ "/") "/" ∧
      chain.length = n + 1 ∧ chain.head? = some (rootArgv 1 0).int64 ∧
      chain.getLast? = some 2 ∧ chain.Chain' (Edge (edgeStmt cycleEdges)) ∧
      s.data.count '/' = n + 2 :=
  ⟨rfl, List.getElem?_mem (n := 1) rfl, rfl, by decide,
    shortest_path_slash_count 5 2 (edgeDb cycleEdges) exampleVtab bfsvtabOpen 1 (rootArgv 1)
      (edgeStmt cycleEdges)
      (bfsvtabNext (bfsvtabFilter (edgeDb cycleEdges) exampleVtab bfsvtabOpen 1
        (rootArgv 1)).2.2).2
      { id := 2, parent := 1, distance := 1 } rfl (List.getElem?_mem (n := 1) rfl) rfl
      (by decide)⟩

/-- C9 (the code at a failing input): on the chain `4294967297 → 4294967298 → 4294967299`
with root `4294967297` the rows have the ids, parents and root of 64 bits, yet the parent
column of the second and third row yields `1` and `2` and the root column yields `1` in every
row: the values cut to 32 bits.  The id column yields the full ids. -/
theorem parent_and_root_columns_truncate :
    currentOf (bfsvtabQuery 4 (edgeDb wideEdges) exampleVtab bfsvtabOpen 1
        (rootArgv 4294967297)) =
      [{ id := 4294967297, parent := 4294967297, distance := 0 },
       { id := 4294967298, parent := 4294967297, distance := 1 },
       { id := 4294967299, parent := 4294967298, distance := 2 }] ∧
    (bfsvtabQuery 4 (edgeDb wideEdges) exampleVtab bfsvtabOpen 1 (rootArgv 4294967297)).map
        (fun c => (c.root, bfsvtabColumn 0 exampleVtab c BFSVTAB_COL_ID,
          bfsvtabColumn 0 exampleVtab c BFSVTAB_COL_PARENT,
          bfsvtabColumn 0 exampleVtab c BFSVTAB_COL_ROOT)) =
      [(4294967297, .ok (.integer 4294967297), .ok .null, .ok (.integer 1)),
       (4294967297, .ok (.integer 4294967298), .ok (.integer 1), .ok (.integer 1)),
       (4294967297, .ok (.integer 4294967299), .ok (.integer 2), .ok (.integer 1))] := by
  decide

/-- C10: over a finite vertex set that holds the root and every integer neighbour value,
with a statement that steps without failure, the scan started by a successful root-bearing
`bfsvtabFilter` reaches end-of-file after finitely many `bfsvtabNext` calls, and it never
emits more rows than there are vertices; on the cycle `(1,2),(2,3),(3,1)` with root 1 the
scan ends after emitting exactly the rows 1, 2, 3. -/
theorem bfs_terminates (db : sqlite3) (pVtab : bfsvtab_vtab) (pCur : bfsvtab_cursor)
    (idxNum : Nat) (argv : Nat → sqlite3_value) (stmt : sqlite3_stmt) (V : Finset Int)
    (hbit : idxNum &&& 1 ≠ 0)
    (hrc : (bfsvtabFilter db pVtab pCur idxNum argv).1 = SQLITE_OK)
    (hst : (bfsvtabFilter db pVtab pCur idxNum argv).2.2.pStmt = some stmt)
    (hreset : ∀ id, stmt.reset id = SQLITE_OK)
    (hroot : (argv 0).int64 ∈ V)
    (hV : ∀ u v, Edge stmt u v → v ∈ V) :
    (∃ N, ∀ fuel, N ≤ fuel →
      ∃ cEnd, hostScanEnd fuel ((bfsvtabFilter db pVtab pCur idxNum argv).1,
          (bfsvtabFilter db pVtab pCur idxNum argv).2.2) = some (SQLITE_OK, cEnd) ∧
        bfsvtabEof cEnd = true) ∧
    (∀ fuel, (bfsvtabQuery fuel db pVtab pCur idxNum argv).length ≤ V.card) ∧
    ((∃ cEnd, hostScanEnd 4 ((bfsvtabFilter (edgeDb cycleEdges) exampleVtab bfsvtabOpen 1
          (rootArgv 1)).1,
        (bfsvtabFilter (edgeDb cycleEdges) exampleVtab bfsvtabOpen 1 (rootArgv 1)).2.2) =
          some (SQLITE_OK, cEnd) ∧ bfsvtabEof cEnd = true) ∧
      currentOf (bfsvtabQuery 4 (edgeDb cycleEdges) exampleVtab bfsvtabOpen 1 (rootArgv 1)) =
        [{ id := 1, parent := 1, distance := 0 }, { id := 2, parent := 1, distance := 1 },
          { id := 3, parent := 2, distance := 2 }]) := by
  obtain ⟨stmt', Q, hG⟩ := filter_good db pVtab pCur idxNum argv hbit hrc
  have hs : stmt' = stmt := by
    have := hG.2.1
    rw [hst] at this
    exact (Option.some.inj this).symm
  subst hs
  refine ⟨⟨V.card + 1, ?_⟩, ?_, ⟨_, rfl, by decide⟩, by decide⟩
  · intro fuel hfuel
    obtain ⟨cEnd, Xf, visf, e1, e2, -, -⟩ := scan_total stmt' (argv 0).int64 V.card hreset
      (fun X Q vis hi => hi.length_le _ hroot hV) fuel _ _ _ _ hG (by simpa using hfuel)
    rw [hrc]
    exact ⟨cEnd, e1, e2⟩
  · intro fuel
    rcases query_inv fuel db pVtab pCur idxNum argv with h0 | ⟨stmt2, hs2, -, -, Xf, Qf, visf,
      i1, i2, i3⟩
    · rw [h0]; simp
    · have hsome : ∀ c ∈ bfsvtabQuery fuel db pVtab pCur idxNum argv,
          ∃ x, c.pCurrent = some x := by
        intro c hc
        obtain ⟨r1, r2, hd⟩ := List.append_of_mem hc
        obtain ⟨cur', Q', hG'⟩ := i3 r1 c r2 hd
        exact ⟨cur', hG'.1⟩
      rw [← currentOf_length _ hsome]
      have hst2 : stmt2 = stmt' := by
        rw [hst] at hs2; exact (Option.some.inj hs2).symm
      subst hst2
      have h1 := i2.length_le
      have h2 := i1.length_le V hroot hV
      rw [List.length_append] at h2
      omega

theorem bfs_terminates_witness :
    (1 &&& 1 ≠ 0) ∧
    (bfsvtabFilter (edgeDb cycleEdges) exampleVtab bfsvtabOpen 1 (rootArgv 1)).1 = SQLITE_OK ∧
    (rootArgv 1 0).int64 ∈ ({1, 2, 3} : Finset Int) ∧
    (∃ N, ∀ fuel, N ≤ fuel →
      ∃ cEnd, hostScanEnd fuel
          ((bfsvtabFilter (edgeDb cycleEdges) exampleVtab bfsvtabOpen 1 (rootArgv 1)).1,
          (bfsvtabFilter (edgeDb cycleEdges) exampleVtab bfsvtabOpen 1 (rootArgv 1)).2.2) =
            some (SQLITE_OK, cEnd) ∧
        bfsvtabEof cEnd = true) ∧
    (∀ fuel, (bfsvtabQuery fuel (edgeDb cycleEdges) exampleVtab bfsvtabOpen 1
      (rootArgv 1)).length ≤ ({1, 2, 3} : Finset Int).card) :=
  ⟨by decide, by decide, by decide,
    (bfs_terminates (edgeDb cycleEdges) exampleVtab bfsvtabOpen 1 (rootArgv 1)
      (edgeStmt cycleEdges) {1, 2, 3} (by decide) (by decide) rfl (fun _ => rfl) (by decide)
      cycle_edges_in).1,
    (bfs_terminates (edgeDb cycleEdges) exampleVtab bfsvtabOpen 1 (rootArgv 1)
      (edgeStmt cycleEdges) {1, 2, 3} (by decide) (by decide) rfl (fun _ => rfl) (by decide)
      cycle_edges_in).2.1⟩

/-! ## Filter: plans without root, overrides -/

theorem next_frame (c : bfsvtab_cursor) :
    (bfsvtabNext c).2.zTableName = c.zTableName ∧
    (bfsvtabNext c).2.zFromColumn = c.zFromColumn ∧
    (bfsvtabNext c).2.zToColumn = c.zToColumn ∧
    (bfsvtabNext c).2.zOrderByColumn = c.zOrderByColumn ∧
    (bfsvtabNext c).2.pStmt = c.pStmt ∧
    (bfsvtabNext c).2.root = c.root := by
  unfold bfsvtabNext
  rcases queuePull c.pQueue with ⟨_ | cur, q⟩
  · exact ⟨rfl, rfl, rfl, rfl, rfl, rfl⟩
  · cases c.pStmt with
    | none => exact ⟨rfl, rfl, rfl, rfl, rfl, rfl⟩
    | some stmt => exact ⟨rfl, rfl, rfl, rfl, rfl, rfl⟩

theorem filter_root_eq (db : sqlite3) (pVtab : bfsvtab_vtab) (pCur : bfsvtab_cursor)
    (idxNum : Nat) (argv : Nat → sqlite3_value) (hbit : idxNum &&& 1 ≠ 0) :
    bfsvtabFilter db pVtab pCur idxNum argv =
      if (db.prepare (planSql pVtab idxNum argv)).1 ≠ 0 then
        ((db.prepare (planSql pVtab idxNum argv)).1,
          { pVtab with zErrMsg := some (fmt_s (some db.errmsg)) },
          { planCursor pVtab pCur idxNum argv with
            pStmt := (db.prepare (planSql pVtab idxNum argv)).2 })
      else
        ((bfsvtabNext (seedCursor (planCursor pVtab pCur idxNum argv)
            (db.prepare (planSql pVtab idxNum argv)).2 (argv 0).int64)).1, pVtab,
         (bfsvtabNext (seedCursor (planCursor pVtab pCur idxNum argv)
            (db.prepare (planSql pVtab idxNum argv)).2 (argv 0).int64)).2) := by
  unfold bfsvtabFilter
  rw [if_neg hbit]
  rfl

theorem filter_cursor_frame (db : sqlite3) (pVtab : bfsvtab_vtab) (pCur : bfsvtab_cursor)
    (idxNum : Nat) (argv : Nat → sqlite3_value) (hbit : idxNum &&& 1 ≠ 0) :
    (bfsvtabFilter db pVtab pCur idxNum argv).2.2.zTableName =
      (planCursor pVtab pCur idxNum argv).zTableName ∧
    (bfsvtabFilter db pVtab pCur idxNum argv).2.2.zFromColumn =
      (planCursor pVtab pCur idxNum argv).zFromColumn ∧
    (bfsvtabFilter db pVtab pCur idxNum argv).2.2.zToColumn =
      (planCursor pVtab pCur idxNum argv).zToColumn ∧
    (bfsvtabFilter db pVtab pCur idxNum argv).2.2.zOrderByColumn =
      (planCursor pVtab pCur idxNum argv).zOrderByColumn ∧
    (bfsvtabFilter db pVtab pCur idxNum argv).2.2.pStmt =
      (db.prepare (planSql pVtab idxNum argv)).2 ∧
    ((db.prepare (planSql pVtab idxNum argv)).1 = 0 →
      (bfsvtabFilter db pVtab pCur idxNum argv).2.2.root = (argv 0).int64) ∧
    (bfsvtabFilter db pVtab pCur idxNum argv).2.1.zTableName = pVtab.zTableName ∧
    (bfsvtabFilter db pVtab pCur idxNum argv).2.1.zFromColumn = pVtab.zFromColumn ∧
    (bfsvtabFilter db pVtab pCur idxNum argv).2.1.zToColumn = pVtab.zToColumn ∧
    (bfsvtabFilter db pVtab pCur idxNum argv).2.1.zOrderByColumn = pVtab.zOrderByColumn := by
  rw [filter_root_eq db pVtab pCur idxNum argv hbit]
  by_cases hp : (db.prepare (planSql pVtab idxNum argv)).1 ≠ 0
  · rw [if_pos hp]
    exact ⟨rfl, rfl, rfl, rfl, rfl, fun h => absurd h hp, rfl, rfl, rfl, rfl⟩
  · rw [if_neg hp]
    have hf := next_frame (seedCursor (planCursor pVtab pCur idxNum argv)
      (db.prepare (planSql pVtab idxNum argv)).2 (argv 0).int64)
    exact ⟨hf.1, hf.2.1, hf.2.2.1, hf.2.2.2.1, hf.2.2.2.2.1, fun _ => hf.2.2.2.2.2,
      rfl, rfl, rfl, rfl⟩

/-- C14: for a plan descriptor whose bit 0 is clear, `bfsvtabFilter` on any cursor returns
`SQLITE_OK` and leaves the cursor at end-of-file with an empty visited set and an empty
queue; the scan of the host reads no row. -/
theorem filter_without_root_is_empty (fuel : Nat) (db : sqlite3) (pVtab : bfsvtab_vtab)
    (pCur : bfsvtab_cursor) (idxNum : Nat) (argv : Nat → sqlite3_value)
    (hbit : idxNum &&& 1 = 0) :
    (bfsvtabFilter db pVtab pCur idxNum argv).1 = SQLITE_OK ∧
    bfsvtabEof (bfsvtabFilter db pVtab pCur idxNum argv).2.2 = true ∧
    (bfsvtabFilter db pVtab pCur idxNum argv).2.2.pCurrent = none ∧
    (bfsvtabFilter db pVtab pCur idxNum argv).2.2.pVisited = .null ∧
    (bfsvtabFilter db pVtab pCur idxNum argv).2.2.pQueue = { pFirst := [], pLast := none } ∧
    bfsvtabQuery fuel db pVtab pCur idxNum argv = [] := by
  have hf := filter_noroot db pVtab pCur idxNum argv hbit
  have he : bfsvtabEof (bfsvtabClearCursor pCur) = true := by
    simp [bfsvtabEof, bfsvtabClearCursor]
  refine ⟨by rw [hf], by rw [hf]; exact he, by rw [hf]; rfl, by rw [hf]; rfl,
    by rw [hf]; rfl, ?_⟩
  unfold bfsvtabQuery
  rw [hf]
  exact hostScan_eof _ _ _ he

theorem filter_without_root_is_empty_witness :
    (0 &&& 1 = 0) ∧
    (bfsvtabFilter (edgeDb cycleEdges) exampleVtab
      (bfsvtabFilter (edgeDb cycleEdges) exampleVtab bfsvtabOpen 1 (rootArgv 1)).2.2
      0 (rootArgv 1)).1 = SQLITE_OK ∧
    bfsvtabQuery 5 (edgeDb cycleEdges) exampleVtab
      (bfsvtabFilter (edgeDb cycleEdges) exampleVtab bfsvtabOpen 1 (rootArgv 1)).2.2
      0 (rootArgv 1) = [] :=
  ⟨by decide,
    (filter_without_root_is_empty 5 (edgeDb cycleEdges) exampleVtab
      (bfsvtabFilter (edgeDb cycleEdges) exampleVtab bfsvtabOpen 1 (rootArgv 1)).2.2
      0 (rootArgv 1) (by decide)).1,
    (filter_without_root_is_empty 5 (edgeDb cycleEdges) exampleVtab
      (bfsvtabFilter (edgeDb cycleEdges) exampleVtab bfsvtabOpen 1 (rootArgv 1)).2.2
      0 (rootArgv 1) (by decide)).2.2.2.2.2⟩

theorem filter_vtab_names (db : sqlite3) (pVtab : bfsvtab_vtab) (pCur : bfsvtab_cursor)
    (idxNum : Nat) (argv : Nat → sqlite3_value) :
    (bfsvtabFilter db pVtab pCur idxNum argv).2.1.zTableName = pVtab.zTableName ∧
    (bfsvtabFilter db pVtab pCur idxNum argv).2.1.zFromColumn = pVtab.zFromColumn ∧
    (bfsvtabFilter db pVtab pCur idxNum argv).2.1.zToColumn = pVtab.zToColumn ∧
    (bfsvtabFilter db pVtab pCur idxNum argv).2.1.zOrderByColumn = pVtab.zOrderByColumn := by
  by_cases hbit : idxNum &&& 1 = 0
  · rw [filter_noroot db pVtab pCur idxNum argv hbit]
    exact ⟨rfl, rfl, rfl, rfl⟩
  · exact (filter_cursor_frame db pVtab pCur idxNum argv hbit).2.2.2.2.2.2

theorem filter_no_override (db : sqlite3) (pVtab : bfsvtab_vtab) (pCur : bfsvtab_cursor)
    (idxNum : Nat) (argv : Nat → sqlite3_value)
    (h1 : idxNum &&& 0x00f00 = 0) (h2 : idxNum &&& 0x0f000 = 0)
    (h3 : idxNum &&& 0x0f0000 = 0) (h4 : idxNum &&& 0xf00000 = 0) :
    (bfsvtabFilter db pVtab pCur idxNum argv).2.2.zTableName = none ∧
    (bfsvtabFilter db pVtab pCur idxNum argv).2.2.zFromColumn = none ∧
    (bfsvtabFilter db pVtab pCur idxNum argv).2.2.zToColumn = none ∧
    (bfsvtabFilter db pVtab pCur idxNum argv).2.2.zOrderByColumn = none ∧
    (idxNum &&& 1 ≠ 0 →
      (bfsvtabFilter db pVtab pCur idxNum argv).2.2.pStmt =
        (db.prepare (bfsvtabFilterSql pVtab.zTableName pVtab.zFromColumn pVtab.zToColumn
          pVtab.zOrderByColumn)).2) := by
  by_cases hbit : idxNum &&& 1 = 0
  · rw [filter_noroot db pVtab pCur idxNum argv hbit]
    exact ⟨rfl, rfl, rfl, rfl, fun h => absurd hbit h⟩
  · obtain ⟨f1, f2, f3, f4, f5, -⟩ := filter_cursor_frame db pVtab pCur idxNum argv hbit
    refine ⟨?_, ?_, ?_, ?_, fun _ => ?_⟩
    · rw [f1]; simp [planCursor, h1]
    · rw [f2]; simp [planCursor, h2]
    · rw [f3]; simp [planCursor, h3]
    · rw [f4]; simp [planCursor, h4]
    · rw [f5]
      simp [planSql, planTableName, planFromColumn, planToColumn, planOrderByColumn, h1, h2,
        h3, h4]

/-- C15: whatever overrides a `bfsvtabFilter` call carries, the four binding names of the
virtual table are the same afterwards; and a following `bfsvtabFilter` on the same cursor
with a plan that has no override field leaves the cursor without binding names of its own,
prepares (when the root bit is set) the statement over the table-level binding, and the
tablename, fromcolumn, tocolumn and order_by_column columns report the table-level
binding. -/
theorem override_does_not_leak (pathFuel : Nat) (db1 db2 : sqlite3) (pVtab : bfsvtab_vtab)
    (pCur : bfsvtab_cursor) (idx1 idx2 : Nat) (argv1 argv2 : Nat → sqlite3_value)
    (h1 : idx2 &&& 0x00f00 = 0) (h2 : idx2 &&& 0x0f000 = 0)
    (h3 : idx2 &&& 0x0f0000 = 0) (h4 : idx2 &&& 0xf00000 = 0) :
    ((bfsvtabFilter db1 pVtab pCur idx1 argv1).2.1.zTableName = pVtab.zTableName ∧
      (bfsvtabFilter db1 pVtab pCur idx1 argv1).2.1.zFromColumn = pVtab.zFromColumn ∧
      (bfsvtabFilter db1 pVtab pCur idx1 argv1).2.1.zToColumn = pVtab.zToColumn ∧
      (bfsvtabFilter db1 pVtab pCur idx1 argv1).2.1.zOrderByColumn =
        pVtab.zOrderByColumn) ∧
    ((bfsvtabFilter db2 (bfsvtabFilter db1 pVtab pCur idx1 argv1).2.1
        (bfsvtabFilter db1 pVtab pCur idx1 argv1).2.2 idx2 argv2).2.2.zTableName = none ∧
      (bfsvtabFilter db2 (bfsvtabFilter db1 pVtab pCur idx1 argv1).2.1
        (bfsvtabFilter db1 pVtab pCur idx1 argv1).2.2 idx2 argv2).2.2.zFromColumn = none ∧
      (bfsvtabFilter db2 (bfsvtabFilter db1 pVtab pCur idx1 argv1).2.1
        (bfsvtabFilter db1 pVtab pCur idx1 argv1).2.2 idx2 argv2).2.2.zToColumn = none ∧
      (bfsvtabFilter db2 (bfsvtabFilter db1 pVtab pCur idx1 argv1).2.1
        (bfsvtabFilter db1 pVtab pCur idx1 argv1).2.2 idx2 argv2).2.2.zOrderByColumn =
          none) ∧
    (idx2 &&& 1 ≠ 0 →
      (bfsvtabFilter db2 (bfsvtabFilter db1 pVtab pCur idx1 argv1).2.1
        (bfsvtabFilter db1 pVtab pCur idx1 argv1).2.2 idx2 argv2).2.2.pStmt =
        (db2.prepare (bfsvtabFilterSql pVtab.zTableName pVtab.zFromColumn pVtab.zToColumn
          pVtab.zOrderByColumn)).2) ∧
    (bfsvtabColumn pathFuel
        (bfsvtabFilter db2 (bfsvtabFilter db1 pVtab pCur idx1 argv1).2.1
          (bfsvtabFilter db1 pVtab pCur idx1 argv1).2.2 idx2 argv2).2.1
        (bfsvtabFilter db2 (bfsvtabFilter db1 pVtab pCur idx1 argv1).2.1
          (bfsvtabFilter db1 pVtab pCur idx1 argv1).2.2 idx2 argv2).2.2
        BFSVTAB_COL_TABLENAME = .ok (sqlite3_result_text pVtab.zTableName) ∧
      bfsvtabColumn pathFuel
        (bfsvtabFilter db2 (bfsvtabFilter db1 pVtab pCur idx1 argv1).2.1
          (bfsvtabFilter db1 pVtab pCur idx1 argv1).2.2 idx2 argv2).2.1
        (bfsvtabFilter db2 (bfsvtabFilter db1 pVtab pCur idx1 argv1).2.1
          (bfsvtabFilter db1 pVtab pCur idx1 argv1).2.2 idx2 argv2).2.2
        BFSVTAB_COL_FROMCOLUMN = .ok (sqlite3_result_text pVtab.zFromColumn) ∧
      bfsvtabColumn pathFuel
        (bfsvtabFilter db2 (bfsvtabFilter db1 pVtab pCur idx1 argv1).2.1
          (bfsvtabFilter db1 pVtab pCur idx1 argv1).2.2 idx2 argv2).2.1
        (bfsvtabFilter db2 (bfsvtabFilter db1 pVtab pCur idx1 argv1).2.1
          (bfsvtabFilter db1 pVtab pCur idx1 argv1).2.2 idx2 argv2).2.2
        BFSVTAB_COL_TOCOLUMN = .ok (sqlite3_result_text pVtab.zToColumn) ∧
      bfsvtabColumn pathFuel
        (bfsvtabFilter db2 (bfsvtabFilter db1 pVtab pCur idx1 argv1).2.1
          (bfsvtabFilter db1 pVtab pCur idx1 argv1).2.2 idx2 argv2).2.1
        (bfsvtabFilter db2 (bfsvtabFilter db1 pVtab pCur idx1 argv1).2.1
          (bfsvtabFilter db1 pVtab pCur idx1 argv1).2.2 idx2 argv2).2.2
        BFSVTAB_COL_ORDER_BY_COLUMN = .ok (sqlite3_result_text pVtab.zOrderByColumn)) := by
  have n1 := filter_vtab_names db1 pVtab pCur idx1 argv1
  have n2 := filter_vtab_names db2 (bfsvtabFilter db1 pVtab pCur idx1 argv1).2.1
    (bfsvtabFilter db1 pVtab pCur idx1 argv1).2.2 idx2 argv2
  have o2 := filter_no_override db2 (bfsvtabFilter db1 pVtab pCur idx1 argv1).2.1
    (bfsvtabFilter db1 pVtab pCur idx1 argv1).2.2 idx2 argv2 h1 h2 h3 h4
  refine ⟨n1, ⟨o2.1, o2.2.1, o2.2.2.1, o2.2.2.2.1⟩, ?_, ?_, ?_, ?_, ?_⟩
  · intro hb
    rw [o2.2.2.2.2 hb, n1.1, n1.2.1, n1.2.2.1, n1.2.2.2]
  · simp [bfsvtabColumn, BFSVTAB_COL_TABLENAME, BFSVTAB_COL_ID, BFSVTAB_COL_PARENT,
      BFSVTAB_COL_DISTANCE, BFSVTAB_COL_SHORTEST_PATH, BFSVTAB_COL_ROOT, o2.1, n2.1, n1.1]
  · simp [bfsvtabColumn, BFSVTAB_COL_TABLENAME, BFSVTAB_COL_ID, BFSVTAB_COL_PARENT,
      BFSVTAB_COL_DISTANCE, BFSVTAB_COL_SHORTEST_PATH, BFSVTAB_COL_ROOT,
      BFSVTAB_COL_FROMCOLUMN, o2.2.1, n2.2.1, n1.2.1]
  · simp [bfsvtabColumn, BFSVTAB_COL_TABLENAME, BFSVTAB_COL_ID, BFSVTAB_COL_PARENT,
      BFSVTAB_COL_DISTANCE, BFSVTAB_COL_SHORTEST_PATH, BFSVTAB_COL_ROOT,
      BFSVTAB_COL_FROMCOLUMN, BFSVTAB_COL_TOCOLUMN, o2.2.2.1, n2.2.2.1, n1.2.2.1]
  · simp [bfsvtabColumn, BFSVTAB_COL_TABLENAME, BFSVTAB_COL_ID, BFSVTAB_COL_PARENT,
      BFSVTAB_COL_DISTANCE, BFSVTAB_COL_SHORTEST_PATH, BFSVTAB_COL_ROOT,
      BFSVTAB_COL_FROMCOLUMN, BFSVTAB_COL_TOCOLUMN, BFSVTAB_COL_ORDER_BY_COLUMN,
      o2.2.2.2.1, n2.2.2.2, n1.2.2.2]

theorem override_does_not_leak_witness :
    ((1 : Nat) &&& 0x00f00 = 0 ∧ (1 : Nat) &&& 0x0f000 = 0 ∧ (1 : Nat) &&& 0x0f0000 = 0 ∧
      (1 : Nat) &&& 0xf00000 = 0) ∧
    (bfsvtabFilter (edgeDb cycleEdges) exampleVtab bfsvtabOpen 257
      (overrideArgv 1 "other")).2.2.zTableName = some "other" ∧
    (bfsvtabFilter (edgeDb cycleEdges) exampleVtab bfsvtabOpen 257
      (overrideArgv 1 "other")).2.1.zTableName = some "edges" ∧
    bfsvtabColumn 10
      (bfsvtabFilter (edgeDb cycleEdges)
        (bfsvtabFilter (edgeDb cycleEdges) exampleVtab bfsvtabOpen 257
          (overrideArgv 1 "other")).2.1
        (bfsvtabFilter (edgeDb cycleEdges) exampleVtab bfsvtabOpen 257
          (overrideArgv 1 "other")).2.2 1 (rootArgv 1)).2.1
      (bfsvtabFilter (edgeDb cycleEdges)
        (bfsvtabFilter (edgeDb cycleEdges) exampleVtab bfsvtabOpen 257
          (overrideArgv 1 "other")).2.1
        (bfsvtabFilter (edgeDb cycleEdges) exampleVtab bfsvtabOpen 257
          (overrideArgv 1 "other")).2.2 1 (rootArgv 1)).2.2
      BFSVTAB_COL_TABLENAME = .ok (sqlite3_result_text (some "edges")) :=
  ⟨⟨by decide, by decide, by decide, by decide⟩, by decide,
    (override_does_not_leak 10 (edgeDb cycleEdges) (edgeDb cycleEdges) exampleVtab bfsvtabOpen
      257 1 (overrideArgv 1 "other") (rootArgv 1) (by decide) (by decide) (by decide)
      (by decide)).1.1,
    (override_does_not_leak 10 (edgeDb cycleEdges) (edgeDb cycleEdges) exampleVtab bfsvtabOpen
      257 1 (overrideArgv 1 "other") (rootArgv 1) (by decide) (by decide) (by decide)
      (by decide)).2.2.2.1⟩

/-! ## Insertion into the visited set -/

theorem insertAt_present (v p : Int) (t : bfsvtab_avl) (ht : t.Ordered) (hv : v ∈ t.ids) :
    bfsvtabAvlInsertAt v p t = (bfsvtabAvlSearch t v, t) ∧ (bfsvtabAvlSearch t v).isNode := by
  induction t with
  | null => simp [bfsvtab_avl.ids, bfsvtab_avl.entries] at hv
  | node id parent b a h i ihb iha =>
    obtain ⟨hb, ha, h1, h2⟩ := ordered_node.mp ht
    rw [ids_node] at hv
    simp only [List.mem_append, List.mem_cons] at hv
    rw [bfsvtabAvlInsertAt, bfsvtabAvlSearch]
    by_cases c1 : v < id
    · have hvb : v ∈ b.ids := by
        rcases hv with hv | hv | hv
        · exact hv
        · omega
        · have := h2 v hv; omega
      obtain ⟨e1, e2⟩ := ihb hb hvb
      have hne : v ≠ id := by omega
      simp only [c1, ↓reduceIte, e1, ne_eq, hne, not_false_eq_true]
      refine ⟨?_, e2⟩
      cases hs : bfsvtabAvlSearch b v with
      | null => rw [hs] at e2; exact absurd e2 (by simp [bfsvtab_avl.isNode])
      | node _ _ _ _ _ _ => rfl
    · by_cases c2 : v > id
      · have hva : v ∈ a.ids := by
          rcases hv with hv | hv | hv
          · have := h1 v hv; omega
          · omega
          · exact hv
        obtain ⟨e1, e2⟩ := iha ha hva
        have hne : v ≠ id := by omega
        simp only [c1, c2, ↓reduceIte, e1, ne_eq, hne, not_false_eq_true]
        refine ⟨?_, e2⟩
        cases hs : bfsvtabAvlSearch a v with
        | null => rw [hs] at e2; exact absurd e2 (by simp [bfsvtab_avl.isNode])
        | node _ _ _ _ _ _ => rfl
      · have he : v = id := by omega
        subst he
        simp [bfsvtab_avl.isNode]

theorem insert_present (v p : Int) (t : bfsvtab_avl) (ht : t.Ordered) (hv : v ∈ t.ids) :
    ((bfsvtabAvlInsert t (newAvlNode v p)).1 = bfsvtabAvlSearch t v ∧
      (bfsvtabAvlInsert t (newAvlNode v p)).2.1 = t) ∧ (bfsvtabAvlSearch t v).isNode := by
  cases t with
  | null => simp [bfsvtab_avl.ids, bfsvtab_avl.entries] at hv
  | node id parent b a h i =>
    have key := insertAt_present v p _ ht hv
    exact ⟨⟨congrArg Prod.fst key.1, congrArg Prod.snd key.1⟩, key.2⟩

theorem insert_ordered (v p : Int) (t : bfsvtab_avl) (ht : t.Ordered) :
    (bfsvtabAvlInsert t (newAvlNode v p)).2.1.Ordered := by
  by_cases hv : v ∈ t.ids
  · rw [(insert_present v p t ht hv).1.2]; exact ht
  · exact insert_fresh_ordered v p t ht hv

/-- The value returned and the tree afterwards depend on the id and the parent of the record
only. -/
theorem insert_tree_eq (t : bfsvtab_avl) (pNew : bfsvtab_avl_record) :
    (bfsvtabAvlInsert t pNew).1 = (bfsvtabAvlInsert t (newAvlNode pNew.id pNew.parent)).1 ∧
    (bfsvtabAvlInsert t pNew).2.1 =
      (bfsvtabAvlInsert t (newAvlNode pNew.id pNew.parent)).2.1 := by
  cases t <;> exact ⟨rfl, rfl⟩

/-- When `bfsvtabAvlInsert` returns an entry, the record handed in is as it was. -/
theorem insert_record_found (t : bfsvtab_avl) (pNew : bfsvtab_avl_record)
    (h : (bfsvtabAvlInsert t pNew).1.isNode) : (bfsvtabAvlInsert t pNew).2.2 = pNew := by
  cases t with
  | null => exact absurd h (by simp [bfsvtabAvlInsert, bfsvtab_avl.isNode])
  | node id parent b a hh i =>
    simp only [bfsvtabAvlInsert] at h ⊢
    cases hr : (bfsvtabAvlInsertAt pNew.id pNew.parent (.node id parent b a hh i)).1 with
    | null => rw [hr] at h; exact absurd h (by simp [bfsvtab_avl.isNode])
    | node _ _ _ _ _ _ => rfl

/-- When `bfsvtabAvlInsert` returns NULL, the record handed in is the entry of its id in
the tree afterwards. -/
theorem insert_record_linked (t : bfsvtab_avl) (pNew : bfsvtab_avl_record)
    (h : (bfsvtabAvlInsert t pNew).1 = .null) :
    (bfsvtabAvlInsert t pNew).2.2 = (bfsvtabAvlInsert t pNew).2.1.recordAt none pNew := by
  cases t with
  | null => rfl
  | node id parent b a hh i =>
    simp only [bfsvtabAvlInsert] at h ⊢
    rw [h]

/-- Where the search finds an entry, `recordAt` is that entry. -/
theorem recordAt_search (t : bfsvtab_avl) (r : bfsvtab_avl_record) :
    ∀ (up : Option Int) {i p : Int} {b a : bfsvtab_avl} {hh im : Int},
      bfsvtabAvlSearch t r.id = .node i p b a hh im →
      ∃ u, t.recordAt up r =
        { id := i, parent := p, pBefore := b, pAfter := a, pUp := u, height := hh,
          imbalance := im } := by
  induction t with
  | null => intro up i p b a hh im hs; simp [bfsvtabAvlSearch] at hs
  | node id parent tb ta h0 i0 ihb iha =>
    intro up i p b a hh im hs
    unfold bfsvtabAvlSearch at hs
    unfold bfsvtab_avl.recordAt
    by_cases c1 : r.id < id
    · have hne : r.id ≠ id := by omega
      simp only [ne_eq, hne, not_false_eq_true, ↓reduceIte, c1] at hs ⊢
      exact ihb (some id) hs
    · by_cases c2 : r.id > id
      · have hne : r.id ≠ id := by omega
        simp only [ne_eq, hne, not_false_eq_true, ↓reduceIte, c1, c2] at hs ⊢
        exact iha (some id) hs
      · have he : r.id = id := by omega
        simp only [ne_eq, he, not_true_eq_false, ↓reduceIte] at hs
        simp only [c1, c2, ↓reduceIte]
        injection hs with e1 e2 e3 e4 e5 e6
        subst e1 e2 e3 e4 e5 e6
        exact ⟨up, rfl⟩

theorem insertAll_ordered (l : List (Int × Int)) :
    ∀ t : bfsvtab_avl, t.Ordered → (bfsvtabAvlInsertAll t l).Ordered := by
  induction l with
  | nil => intro t ht; exact ht
  | cons e l ih =>
    intro t ht
    exact ih _ (insert_ordered e.1 e.2 t ht)

theorem avlStart_ordered (r : Option Int) : (avlStart r).Ordered := by
  cases r <;> simp [avlStart, bfsvtab_avl.Ordered, bfsvtab_avl.ids, bfsvtab_avl.entries]

/-- C16: on every tree built by `bfsvtabAvlInsert` calls (from the empty tree or from the
root entry of `bfsvtabFilter`) and for every new record `pNew`, whatever its link fields: a
call with an id that is present returns the existing entry (the node `bfsvtabAvlSearch`
finds, carrying that id), leaves the tree exactly as it was and leaves the record `*pNew`
exactly as it was; a call with a new id returns NULL and leaves a tree whose entries are
the new record and the previous entries, nothing else, and the record is then the entry of
its id in that tree, with the id and parent it came with. -/
theorem insert_if_absent (r : Option Int) (l : List (Int × Int)) (pNew : bfsvtab_avl_record) :
    (pNew.id ∈ (bfsvtabAvlInsertAll (avlStart r) l).ids →
      (bfsvtabAvlInsert (bfsvtabAvlInsertAll (avlStart r) l) pNew).1 =
        bfsvtabAvlSearch (bfsvtabAvlInsertAll (avlStart r) l) pNew.id ∧
      (∃ q b a h i, (bfsvtabAvlInsert (bfsvtabAvlInsertAll (avlStart r) l) pNew).1 =
        .node pNew.id q b a h i ∧ (pNew.id, q) ∈ (bfsvtabAvlInsertAll (avlStart r) l).entries) ∧
      (bfsvtabAvlInsert (bfsvtabAvlInsertAll (avlStart r) l) pNew).2.1 =
        bfsvtabAvlInsertAll (avlStart r) l ∧
      (bfsvtabAvlInsert (bfsvtabAvlInsertAll (avlStart r) l) pNew).2.2 = pNew) ∧
    (pNew.id ∉ (bfsvtabAvlInsertAll (avlStart r) l).ids →
      (bfsvtabAvlInsert (bfsvtabAvlInsertAll (avlStart r) l) pNew).1 = .null ∧
      (bfsvtabAvlInsert (bfsvtabAvlInsertAll (avlStart r) l) pNew).2.1.entries.Perm
        ((pNew.id, pNew.parent) :: (bfsvtabAvlInsertAll (avlStart r) l).entries) ∧
      ∃ b a u h i,
        (bfsvtabAvlInsert (bfsvtabAvlInsertAll (avlStart r) l) pNew).2.2 =
          { id := pNew.id, parent := pNew.parent, pBefore := b, pAfter := a, pUp := u,
            height := h, imbalance := i } ∧
        bfsvtabAvlSearch (bfsvtabAvlInsert (bfsvtabAvlInsertAll (avlStart r) l) pNew).2.1
          pNew.id = .node pNew.id pNew.parent b a h i) := by
  have ht := insertAll_ordered l _ (avlStart_ordered r)
  obtain ⟨t1, t2⟩ := insert_tree_eq (bfsvtabAvlInsertAll (avlStart r) l) pNew
  constructor
  · intro hv
    obtain ⟨⟨e1, e3⟩, e2⟩ := insert_present pNew.id pNew.parent _ ht hv
    have hret : (bfsvtabAvlInsert (bfsvtabAvlInsertAll (avlStart r) l) pNew).1 =
        bfsvtabAvlSearch (bfsvtabAvlInsertAll (avlStart r) l) pNew.id := t1.trans e1
    refine ⟨hret, ?_, t2.trans e3, ?_⟩
    · rw [hret]
      cases hs : bfsvtabAvlSearch (bfsvtabAvlInsertAll (avlStart r) l) pNew.id with
      | null => rw [hs] at e2; exact absurd e2 (by simp [bfsvtab_avl.isNode])
      | node i q b a h im =>
        obtain ⟨rfl, hq⟩ := search_node _ pNew.id hs
        exact ⟨q, b, a, h, im, rfl, hq⟩
    · apply insert_record_found
      rw [hret]
      exact e2
  · intro hv
    have hnull : (bfsvtabAvlInsert (bfsvtabAvlInsertAll (avlStart r) l) pNew).1 = .null :=
      t1.trans (insert_fresh pNew.id pNew.parent _ ht hv).1
    have hperm := insert_fresh_perm pNew.id pNew.parent _ ht hv
    have hord := insert_fresh_ordered pNew.id pNew.parent _ ht hv
    rw [← t2] at hperm hord
    refine ⟨hnull, hperm.trans (List.perm_append_singleton _ _), ?_⟩
    have hm : (pNew.id, pNew.parent) ∈
        (bfsvtabAvlInsert (bfsvtabAvlInsertAll (avlStart r) l) pNew).2.1.entries :=
      hperm.symm.subset (by simp)
    obtain ⟨b, a, hh, im, hs⟩ := search_of_mem _ hord hm
    obtain ⟨u, hu⟩ := recordAt_search _ pNew none hs
    exact ⟨b, a, u, hh, im, (insert_record_linked _ pNew hnull).trans hu, hs⟩

/-- Two calls of `bfsvtabAvlInsert` on the tree of the root entry 1 and the record 2.  A
record with id 2 and link fields of its own: the call returns the entry `(2, 1)`, the tree
and the record are as before.  The record `newAvlNode 3 2`: the call returns NULL, rotates at
the root, and the record has become the leaf 3 below entry 2. -/
theorem insert_if_absent_witness :
    bfsvtabAvlInsertAll (avlStart (some 1)) [(2, 1)] =
      .node 1 1 .null (.node 2 1 .null .null 1 0) 2 (-1) ∧
    ((bfsvtabAvlInsert (bfsvtabAvlInsertAll (avlStart (some 1)) [(2, 1)])
        { id := 2, parent := 7, pBefore := .node 9 9 .null .null 1 0, pAfter := .null,
          pUp := some 5, height := 3, imbalance := 1 }).1 = .node 2 1 .null .null 1 0 ∧
      (bfsvtabAvlInsert (bfsvtabAvlInsertAll (avlStart (some 1)) [(2, 1)])
        { id := 2, parent := 7, pBefore := .node 9 9 .null .null 1 0, pAfter := .null,
          pUp := some 5, height := 3, imbalance := 1 }).2.1 =
        bfsvtabAvlInsertAll (avlStart (some 1)) [(2, 1)] ∧
      (bfsvtabAvlInsert (bfsvtabAvlInsertAll (avlStart (some 1)) [(2, 1)])
        { id := 2, parent := 7, pBefore := .node 9 9 .null .null 1 0, pAfter := .null,
          pUp := some 5, height := 3, imbalance := 1 }).2.2 =
        { id := 2, parent := 7, pBefore := .node 9 9 .null .null 1 0, pAfter := .null,
          pUp := some 5, height := 3, imbalance := 1 }) ∧
    ((bfsvtabAvlInsert (bfsvtabAvlInsertAll (avlStart (some 1)) [(2, 1)])
        (newAvlNode 3 2)).1 = .null ∧
      (bfsvtabAvlInsert (bfsvtabAvlInsertAll (avlStart (some 1)) [(2, 1)])
        (newAvlNode 3 2)).2.1 =
        .node 2 1 (.node 1 1 .null .null 1 0) (.node 3 2 .null .null 1 0) 2 0 ∧
      (bfsvtabAvlInsert (bfsvtabAvlInsertAll (avlStart (some 1)) [(2, 1)])
        (newAvlNode 3 2)).2.2 =
        { id := 3, parent := 2, pBefore := .null, pAfter := .null, pUp := some 2,
          height := 1, imbalance := 0 }) :=
  ⟨rfl,
    ⟨rfl,
      ((insert_if_absent (some 1) [(2, 1)]
        { id := 2, parent := 7, pBefore := .node 9 9 .null .null 1 0, pAfter := .null,
          pUp := some 5, height := 3, imbalance := 1 }).1 (by decide)).2.2.1,
      ((insert_if_absent (some 1) [(2, 1)]
        { id := 2, parent := 7, pBefore := .node 9 9 .null .null 1 0, pAfter := .null,
          pUp := some 5, height := 3, imbalance := 1 }).1 (by decide)).2.2.2⟩,
    ((insert_if_absent (some 1) [(2, 1)] (newAvlNode 3 2)).2 (by decide)).1, rfl, rfl⟩

/-! ## The balance invariant of the visited set -/

theorem heightOr0_node (id parent : Int) (b a : bfsvtab_avl) (h i : Int) :
    (bfsvtab_avl.node id parent b a h i).heightOr0 = h := rfl

theorem heightOr0_null : bfsvtab_avl.null.heightOr0 = 0 := rfl

theorem balanced_nonneg (t : bfsvtab_avl) (h : t.Balanced) : 0 ≤ t.heightOr0 := by
  induction t with
  | null => simp [bfsvtab_avl.heightOr0]
  | node id parent b a hh i ihb _ =>
    have := ihb h.1
    have := h.2.2.1
    simp only [bfsvtab_avl.heightOr0]
    omega

/-- Under the balance invariant the stored height is the number of levels. -/
theorem balanced_depth (t : bfsvtab_avl) (h : t.Balanced) : t.heightOr0 = t.depth := by
  induction t with
  | null => rfl
  | node id parent b a hh i ihb iha =>
    have e1 := ihb h.1
    have e2 := iha h.2.1
    have := h.2.2.1
    simp only [bfsvtab_avl.heightOr0, bfsvtab_avl.depth] at *
    omega

set_option maxHeartbeats 1600000 in
/-- One turn of the balancing loop at a node whose children are balanced and differ in height
by at most two leaves a balanced tree, as high as the higher child or one more; one more when
the children differ by at most one. -/
theorem balanceStep_balanced (id parent : Int) (b a : bfsvtab_avl) (h i : Int)
    (hb : b.Balanced) (ha : a.Balanced)
    (hd1 : -2 ≤ b.heightOr0 - a.heightOr0) (hd2 : b.heightOr0 - a.heightOr0 ≤ 2) :
    (bfsvtabAvlBalanceStep (.node id parent b a h i)).Balanced ∧
    ((bfsvtabAvlBalanceStep (.node id parent b a h i)).heightOr0 =
        max b.heightOr0 a.heightOr0 ∨
      (bfsvtabAvlBalanceStep (.node id parent b a h i)).heightOr0 =
        1 + max b.heightOr0 a.heightOr0) ∧
    (-1 ≤ b.heightOr0 - a.heightOr0 → b.heightOr0 - a.heightOr0 ≤ 1 →
      (bfsvtabAvlBalanceStep (.node id parent b a h i)).heightOr0 =
        1 + max b.heightOr0 a.heightOr0) := by
  have h1 := balanced_nonneg b hb
  have h2 := balanced_nonneg a ha
  unfold bfsvtabAvlBalanceStep
  simp only [bfsvtabAvlRecomputeHeight]
  by_cases c1 : b.heightOr0 - a.heightOr0 ≥ 2
  · simp only [c1, ↓reduceIte]
    cases b with
    | null => simp only [heightOr0_null] at c1; omega
    | node idB parB x y hB iB =>
      obtain ⟨bx, by_, e1, e2, e3, e4⟩ := hb
      have hx := balanced_nonneg x bx
      have hy := balanced_nonneg y by_
      simp only [heightOr0_node] at c1 hd1 hd2 h1
      simp only [bfsvtab_avl.imbalanceOf]
      by_cases c3 : iB < 0
      · simp only [c3, ↓reduceIte]
        cases y with
        | null => simp only [heightOr0_null, heightOr0_node] at *; omega
        | node idY parY y1 y2 hY iY =>
          obtain ⟨b1, b2, f1, f2, f3, f4⟩ := by_
          have hy1 := balanced_nonneg y1 b1
          have hy2 := balanced_nonneg y2 b2
          simp only [heightOr0_node] at e1 e2 hy
          simp only [bfsvtabAvlRotateAfter, bfsvtabAvlRecomputeHeight, bfsvtabAvlRotateBefore,
            heightOr0_node, bfsvtab_avl.Balanced]
          refine ⟨⟨⟨bx, b1, ?_, ?_, ?_, ?_⟩, ⟨b2, ha, ?_, ?_, ?_, ?_⟩, ?_, ?_, ?_, ?_⟩, ?_, ?_⟩
          all_goals ((try split_ifs) <;> (first | trivial | omega))
      · simp only [c3, ↓reduceIte]
        simp only [bfsvtabAvlRecomputeHeight, bfsvtabAvlRotateBefore,
            heightOr0_node, bfsvtab_avl.Balanced]
        refine ⟨⟨bx, ⟨by_, ha, ?_, ?_, ?_, ?_⟩, ?_, ?_, ?_, ?_⟩, ?_, ?_⟩
        all_goals ((try split_ifs) <;> (first | trivial | omega))
  · by_cases c2 : b.heightOr0 - a.heightOr0 ≤ -2
    · simp only [c1, c2, ↓reduceIte]
      cases a with
      | null => simp only [heightOr0_null] at c2; omega
      | node idA parA y z hA iA =>
        obtain ⟨by_, bz, e1, e2, e3, e4⟩ := ha
        have hy := balanced_nonneg y by_
        have hz := balanced_nonneg z bz
        simp only [heightOr0_node] at c1 c2 hd1 hd2 h2
        simp only [bfsvtab_avl.imbalanceOf]
        by_cases c3 : iA > 0
        · simp only [c3, ↓reduceIte]
          cases y with
          | null => simp only [heightOr0_null, heightOr0_node] at *; omega
          | node idY parY y1 y2 hY iY =>
            obtain ⟨b1, b2, f1, f2, f3, f4⟩ := by_
            have hy1 := balanced_nonneg y1 b1
            have hy2 := balanced_nonneg y2 b2
            simp only [heightOr0_node] at e1 e2 hy
            simp only [bfsvtabAvlRotateAfter, bfsvtabAvlRecomputeHeight, bfsvtabAvlRotateBefore,
              heightOr0_node, bfsvtab_avl.Balanced]
            refine ⟨⟨⟨hb, b1, ?_, ?_, ?_, ?_⟩, ⟨b2, bz, ?_, ?_, ?_, ?_⟩, ?_, ?_, ?_, ?_⟩, ?_, ?_⟩
            all_goals ((try split_ifs) <;> (first | trivial | omega))
        · simp only [c3, ↓reduceIte]
          simp only [bfsvtabAvlRecomputeHeight, bfsvtabAvlRotateAfter,
              heightOr0_node, bfsvtab_avl.Balanced]
          refine ⟨⟨⟨hb, by_, ?_, ?_, ?_, ?_⟩, bz, ?_, ?_, ?_, ?_⟩, ?_, ?_⟩
          all_goals ((try split_ifs) <;> (first | trivial | omega))
    · simp only [c1, c2, ↓reduceIte]
      simp only [heightOr0_node, bfsvtab_avl.Balanced]
      refine ⟨⟨hb, ha, ?_, ?_, ?_, ?_⟩, ?_, ?_⟩
      all_goals ((try split_ifs) <;> (first | trivial | omega))

theorem insertAt_balanced (v p : Int) (t : bfsvtab_avl) (ht : t.Balanced) :
    (bfsvtabAvlInsertAt v p t).2.Balanced ∧
    ((bfsvtabAvlInsertAt v p t).2.heightOr0 = t.heightOr0 ∨
      (bfsvtabAvlInsertAt v p t).2.heightOr0 = t.heightOr0 + 1) := by
  induction t with
  | null =>
    simp [bfsvtabAvlInsertAt, bfsvtab_avl.Balanced, heightOr0_null, heightOr0_node]
  | node id parent b a h i ihb iha =>
    obtain ⟨hb, ha, e1, e2, e3, e4⟩ := ht
    have ihb' := ihb hb
    have iha' := iha ha
    rw [bfsvtabAvlInsertAt]
    simp only [heightOr0_node]
    by_cases c1 : v < id
    · simp only [c1, ↓reduceIte]
      rcases hr : bfsvtabAvlInsertAt v p b with ⟨r1, r2⟩
      rw [hr] at ihb'
      simp only at ihb'
      cases r1 with
      | null =>
        have key := balanceStep_balanced id parent r2 a h i ihb'.1 ha (by omega) (by omega)
        refine ⟨key.1, ?_⟩
        simp only
        by_cases c : r2.heightOr0 - a.heightOr0 ≤ 1
        · have := key.2.2 (by omega) c
          omega
        · have := key.2.1
          omega
      | node _ _ _ _ _ _ => exact ⟨⟨hb, ha, e1, e2, e3, e4⟩, Or.inl rfl⟩
    · by_cases c2 : v > id
      · simp only [c1, c2, ↓reduceIte]
        rcases hr : bfsvtabAvlInsertAt v p a with ⟨r1, r2⟩
        rw [hr] at iha'
        simp only at iha'
        cases r1 with
        | null =>
          have key := balanceStep_balanced id parent b r2 h i hb iha'.1 (by omega) (by omega)
          refine ⟨key.1, ?_⟩
          simp only
          by_cases c : -1 ≤ b.heightOr0 - r2.heightOr0
          · have := key.2.2 c (by omega)
            omega
          · have := key.2.1
            omega
        | node _ _ _ _ _ _ => exact ⟨⟨hb, ha, e1, e2, e3, e4⟩, Or.inl rfl⟩
      · simp only [c1, c2, ↓reduceIte]
        exact ⟨⟨hb, ha, e1, e2, e3, e4⟩, Or.inl rfl⟩

/-- An insertion `bfsvtabAvlInsert` into a balanced tree leaves a balanced tree. -/
theorem insert_balanced (v p : Int) (t : bfsvtab_avl) (ht : t.Balanced) :
    (bfsvtabAvlInsert t (newAvlNode v p)).2.1.Balanced := by
  cases t with
  | null =>
    exact (balanceStep_balanced v p .null .null 1 0 trivial trivial (by decide) (by decide)).1
  | node id parent b a h i => exact (insertAt_balanced v p _ ht).1

theorem insertAll_balanced (l : List (Int × Int)) (t : bfsvtab_avl) (ht : t.Balanced) :
    (bfsvtabAvlInsertAll t l).Balanced := by
  induction l generalizing t with
  | nil => exact ht
  | cons e l ih => exact ih _ (insert_balanced e.1 e.2 t ht)

/-- The first insertion of another id below the entry that `bfsvtabFilter` installs for the
root (height field 0) leaves a balanced tree. -/
theorem insert_seed_balanced (r v p : Int) (hv : v ≠ r) :
    (bfsvtabAvlInsert (avlStart (some r)) (newAvlNode v p)).2.1.Balanced := by
  have leaf : (bfsvtab_avl.node v p .null .null 1 0).Balanced := by
    simp [bfsvtab_avl.Balanced, heightOr0_null]
  simp only [avlStart, bfsvtabAvlInsert, newAvlNode]
  rw [bfsvtabAvlInsertAt]
  by_cases c1 : v < r
  · simp only [c1, ↓reduceIte, bfsvtabAvlInsertAt]
    exact (balanceStep_balanced r r _ .null 0 0 leaf trivial
      (by simp [heightOr0_node, heightOr0_null]) (by simp [heightOr0_node, heightOr0_null])).1
  · have c2 : v > r := by omega
    simp only [c1, c2, ↓reduceIte, bfsvtabAvlInsertAt]
    exact (balanceStep_balanced r r .null _ 0 0 trivial leaf
      (by simp [heightOr0_node, heightOr0_null]) (by simp [heightOr0_node, heightOr0_null])).1

/-- An insertion of the id of the root into the entry that `bfsvtabFilter` installs finds that
entry and changes nothing. -/
theorem insert_seed_same (r p : Int) :
    (bfsvtabAvlInsert (avlStart (some r)) (newAvlNode r p)).2.1 = avlStart (some r) := by
  simp [avlStart, bfsvtabAvlInsert, bfsvtabAvlInsertAt, newAvlNode]

/-- A tree built from the entry that `bfsvtabFilter` installs is still that entry, or it
satisfies the balance invariant. -/
theorem insertAll_seed (r : Int) (l : List (Int × Int)) :
    bfsvtabAvlInsertAll (avlStart (some r)) l = avlStart (some r) ∨
      (bfsvtabAvlInsertAll (avlStart (some r)) l).Balanced := by
  induction l with
  | nil => exact Or.inl rfl
  | cons e l ih =>
    simp only [bfsvtabAvlInsertAll, List.foldl_cons] at ih ⊢
    by_cases c : e.1 = r
    · rw [c, insert_seed_same]
      exact ih
    · exact Or.inr (insertAll_balanced l _ (insert_seed_balanced r e.1 e.2 c))

/-- The loop body of `bfsvtabNext`, on a tree built from the empty tree or from the entry
that `bfsvtabFilter` installs, leaves the tree as it is or makes one insertion, after which
the balance invariant holds. -/
theorem nextRow_balanced (r : Option Int) (l : List (Int × Int)) (pCurrent : bfsvtab_node)
    (q : bfsvtab_queue) (v : sqlite3_value) :
    (bfsvtabNextRow pCurrent (bfsvtabAvlInsertAll (avlStart r) l, q) v).1 =
        bfsvtabAvlInsertAll (avlStart r) l ∨
      (bfsvtabNextRow pCurrent (bfsvtabAvlInsertAll (avlStart r) l, q) v).1.Balanced := by
  unfold bfsvtabNextRow
  by_cases ht : v.type = SQLITE_INTEGER
  · simp only [ht, ↓reduceIte]
    cases hs : bfsvtabAvlSearch (bfsvtabAvlInsertAll (avlStart r) l) v.int64 with
    | node _ _ _ _ _ _ => exact Or.inl rfl
    | null =>
      refine Or.inr ?_
      simp only
      cases r with
      | none => exact insert_balanced _ _ _ (insertAll_balanced l .null trivial)
      | some r0 =>
        rcases insertAll_seed r0 l with hseed | hbal
        · rw [hseed] at hs ⊢
          have hne : v.int64 ≠ r0 := by
            intro he
            simp [avlStart, bfsvtabAvlSearch, he] at hs
          exact insert_seed_balanced r0 _ _ hne
        · exact insert_balanced _ _ _ hbal
  · simp [ht]

/-- C20: after every `bfsvtabAvlInsert` on a tree built by `bfsvtabAvlInsert` calls from the
empty tree, and after every `bfsvtabAvlInsert` of a record whose id the search does not find
(the only calls there are: `bfsvtabNext` inserts behind `bfsvtabAvlSearch`) on a tree built
from the zero-initialised root entry that `bfsvtabFilter` installs (height field 0), the
tree satisfies the balance invariant: at every node the stored height is 1 + the larger
stored height of the children (0 for an absent child), the stored imbalance is the height of
`pBefore` minus the height of `pAfter`, and that imbalance is -1, 0 or 1.  The stored height
of the tree is then its number of levels. -/
theorem insert_keeps_balance (r : Option Int) (l : List (Int × Int))
    (pNew : bfsvtab_avl_record)
    (hnew : r = none ∨
      bfsvtabAvlSearch (bfsvtabAvlInsertAll (avlStart r) l) pNew.id = .null) :
    (bfsvtabAvlInsert (bfsvtabAvlInsertAll (avlStart r) l) pNew).2.1.Balanced ∧
    (bfsvtabAvlInsert (bfsvtabAvlInsertAll (avlStart r) l) pNew).2.1.heightOr0 =
      (bfsvtabAvlInsert (bfsvtabAvlInsertAll (avlStart r) l) pNew).2.1.depth := by
  have key : (bfsvtabAvlInsert (bfsvtabAvlInsertAll (avlStart r) l) pNew).2.1.Balanced := by
    rw [(insert_tree_eq _ pNew).2]
    cases r with
    | none => exact insert_balanced _ _ _ (insertAll_balanced l .null trivial)
    | some r0 =>
      rcases hnew with hr | hs
      · cases hr
      · rcases insertAll_seed r0 l with hseed | hbal
        · rw [hseed] at hs ⊢
          have hne : pNew.id ≠ r0 := by
            intro he
            simp [avlStart, bfsvtabAvlSearch, he] at hs
          exact insert_seed_balanced r0 _ _ hne
        · exact insert_balanced _ _ _ hbal
  exact ⟨key, balanced_depth _ key⟩

/-- The insertion of the record 3 into the tree of the root entry 1 (height field 0) and
the record 2: the search does not find 3, the insertion rotates at the root and leaves
entry 2 on top of the entries 1 and 3, all with the heights of the invariant. -/
theorem insert_keeps_balance_witness :
    bfsvtabAvlSearch (bfsvtabAvlInsertAll (avlStart (some 1)) [(2, 1)]) 3 = .null ∧
    (bfsvtabAvlInsert (bfsvtabAvlInsertAll (avlStart (some 1)) [(2, 1)])
      (newAvlNode 3 1)).2.1 =
      .node 2 1 (.node 1 1 .null .null 1 0) (.node 3 1 .null .null 1 0) 2 0 ∧
    (bfsvtabAvlInsert (bfsvtabAvlInsertAll (avlStart (some 1)) [(2, 1)])
      (newAvlNode 3 1)).2.1.Balanced ∧
    (bfsvtabAvlInsert (bfsvtabAvlInsertAll (avlStart (some 1)) [(2, 1)])
      (newAvlNode 3 1)).2.1.heightOr0 =
      (bfsvtabAvlInsert (bfsvtabAvlInsertAll (avlStart (some 1)) [(2, 1)])
        (newAvlNode 3 1)).2.1.depth :=
  ⟨rfl, rfl, insert_keeps_balance (some 1) [(2, 1)] (newAvlNode 3 1) (Or.inr rfl)⟩

/-! ## The queue is first-in first-out -/

theorem queuePull_empty (q : bfsvtab_queue) (hq : q.pFirst = []) :
    queuePull q = (none, q) := by
  unfold queuePull
  rw [hq]

theorem queuePull_fifo (q : bfsvtab_queue) (hq : QWf q) :
    (queuePull q).1 = q.pFirst.head? ∧ (queuePull q).2.pFirst = q.pFirst.tail ∧
      QWf (queuePull q).2 := by
  cases hf : q.pFirst with
  | nil =>
    rw [queuePull_empty q hf]
    exact ⟨by simp [hf], by simp [hf], hq⟩
  | cons p rest =>
    obtain ⟨h1, h2, h3⟩ := queuePull_wf q hq p rest hf
    exact ⟨by simp [h1], by simp [h2], h3⟩

theorem runQueue_refines (ops : List QueueOp) :
    ∀ q : bfsvtab_queue, QWf q →
      (runQueue ops q).1.pFirst = (runFifo ops q.pFirst).1 ∧
      (runQueue ops q).2 = (runFifo ops q.pFirst).2 ∧ QWf (runQueue ops q).1 := by
  induction ops with
  | nil => intro q hq; exact ⟨rfl, rfl, hq⟩
  | cons op ops ih =>
    intro q hq
    cases op with
    | push n =>
      obtain ⟨h1, h2⟩ := queuePush_wf q hq n
      obtain ⟨i1, i2, i3⟩ := ih (queuePush q n) h2
      rw [h1] at i1 i2
      exact ⟨i1, i2, i3⟩
    | pull =>
      obtain ⟨h1, h2, h3⟩ := queuePull_fifo q hq
      obtain ⟨i1, i2, i3⟩ := ih (queuePull q).2 h3
      rw [h2] at i1 i2
      simp only [runQueue, runFifo]
      exact ⟨i1, by rw [h1, i2], i3⟩

theorem runFifo_order (ops : List QueueOp) :
    ∀ l : List bfsvtab_node,
      ((runFifo ops l).2.filterMap id) ++ (runFifo ops l).1 = l ++ pushedBy ops := by
  induction ops with
  | nil => intro l; simp [runFifo, pushedBy]
  | cons op ops ih =>
    intro l
    cases op with
    | push n =>
      simp only [runFifo, pushedBy]
      rw [ih]; simp
    | pull =>
      simp only [runFifo, pushedBy]
      cases l with
      | nil => simpa using ih []
      | cons a l => simpa using ih l

/-- C17: started on the empty queue, any sequence of `queuePush` and `queuePull` calls behaves
as the same calls on a first-in first-out list: the pulls return what the list returns, the
chain of `pFirst` is the list, so the records pulled, followed by those still queued, are the
records pushed, in the order pushed; `pLast` is the last record of the chain, so the head is
none iff the tail is none; and a pull on an emptied queue returns none and leaves it as it
is, empty. -/
theorem queue_is_fifo (ops : List QueueOp) :
    (runQueue ops { pFirst := [], pLast := none }).1.pFirst = (runFifo ops []).1 ∧
    (runQueue ops { pFirst := [], pLast := none }).2 = (runFifo ops []).2 ∧
    ((runQueue ops { pFirst := [], pLast := none }).2.filterMap id) ++
      (runQueue ops { pFirst := [], pLast := none }).1.pFirst = pushedBy ops ∧
    (runQueue ops { pFirst := [], pLast := none }).1.pLast =
      (runQueue ops { pFirst := [], pLast := none }).1.pFirst.getLast? ∧
    ((runQueue ops { pFirst := [], pLast := none }).1.pFirst.head? = none ↔
      (runQueue ops { pFirst := [], pLast := none }).1.pLast = none) ∧
    ((runQueue ops { pFirst := [], pLast := none }).1.pFirst = [] →
      queuePull (runQueue ops { pFirst := [], pLast := none }).1 =
        (none, { pFirst := [], pLast := none })) := by
  obtain ⟨h1, h2, h3⟩ := runQueue_refines ops { pFirst := [], pLast := none } rfl
  have h4 := runFifo_order ops []
  refine ⟨h1, h2, ?_, h3, ?_, ?_⟩
  · rw [h1, h2]; simpa using h4
  · unfold QWf at h3
    rw [h3]
    cases (runQueue ops { pFirst := [], pLast := none }).1.pFirst with
    | nil => simp
    | cons a l => simp [List.getLast?_eq_none_iff]
  · intro he
    rw [queuePull_empty _ he]
    unfold QWf at h3
    rw [he] at h3
    cases hq : (runQueue ops { pFirst := [], pLast := none }).1 with
    | mk f l =>
      rw [hq] at he h3
      simp only at he h3
      rw [he, h3]
      rfl

/-! ## Dequoting -/

theorem cstr_of_no_nul (l : List Char) (h : NUL ∉ l) : cstr l = l := by
  unfold cstr
  rw [List.takeWhile_eq_self_iff]
  intro x hx
  simp only [ne_eq, decide_not, Bool.not_eq_eq_eq_not, Bool.not_true, decide_eq_false_iff_not]
  intro he
  exact h (he ▸ hx)

theorem cstr_append_nul (l : List Char) (h : NUL ∉ l) : cstr (l ++ [NUL]) = l := by
  unfold cstr
  induction l with
  | nil => simp [List.takeWhile]
  | cons a l ih =>
    have ha : a ≠ NUL := fun he => h (he ▸ List.mem_cons_self _ _)
    have hl : NUL ∉ l := fun hm => h (List.mem_cons_of_mem _ hm)
    have ih' := ih hl
    simp only [List.cons_append, List.takeWhile, ne_eq, ha, not_false_eq_true, decide_True]
    exact congrArg (a :: ·) ih'

theorem dequoteLoop_cons_ne (q x : Char) (l : List Char) (h : x ≠ q) :
    bfsvtabDequoteLoop q (x :: l) = x :: bfsvtabDequoteLoop q l := by
  cases l with
  | nil => simp [bfsvtabDequoteLoop, h]
  | cons a l => simp [bfsvtabDequoteLoop, h]

theorem dequoteLoop_doubled (q : Char) (s : List Char) :
    bfsvtabDequoteLoop q (doubled q s ++ [q]) = s ++ [NUL] := by
  induction s with
  | nil => simp [doubled, bfsvtabDequoteLoop]
  | cons x s ih =>
    have hd : doubled q (x :: s) = (if x = q then [x, x] else [x]) ++ doubled q s := by
      simp [doubled]
    rw [hd]
    by_cases hx : x = q
    · subst hx
      simp only [↓reduceIte, List.cons_append, List.nil_append]
      rw [bfsvtabDequoteLoop]
      simp only [↓reduceIte, List.cons.injEq, true_and]
      exact ih
    · simp only [hx, ↓reduceIte, List.cons_append, List.nil_append]
      rw [dequoteLoop_cons_ne q x _ hx, ih]

theorem nul_not_mem_doubled (q : Char) (s : List Char) (h : NUL ∉ s) : NUL ∉ doubled q s := by
  intro hm
  unfold doubled at hm
  rw [List.mem_flatMap] at hm
  obtain ⟨c, hc, hm⟩ := hm
  split_ifs at hm <;> simp at hm <;> exact h (hm ▸ hc)

theorem dequote_quoted (o c : Char) (s : List Char) (hs : NUL ∉ s)
    (ho : ¬ (o ≠ Char.ofNat 91 ∧ o ≠ Char.ofNat 39 ∧ o ≠ Char.ofNat 34 ∧ o ≠ Char.ofNat 96))
    (hc : (if o = Char.ofNat 91 then Char.ofNat 93 else o) = c)
    (ho0 : o ≠ NUL) (hc0 : c ≠ NUL) :
    bfsvtabDequote (String.mk (o :: (doubled c s ++ [c]))) = some (String.mk s) := by
  have hnn : NUL ∉ o :: (doubled c s ++ [c]) := by
    intro hm
    rcases List.mem_cons.mp hm with hm | hm
    · exact ho0 hm.symm
    · rcases List.mem_append.mp hm with hm | hm
      · exact nul_not_mem_doubled c s hs hm
      · exact hc0 (List.mem_singleton.mp hm).symm
  have hb : bfsvtabDequoteBytes (o :: (doubled c s ++ [c])) = s ++ [NUL] := by
    unfold bfsvtabDequoteBytes
    rw [cstr_of_no_nul _ hnn]
    simp only [ho, ↓reduceIte, hc]
    exact dequoteLoop_doubled c s
  unfold bfsvtabDequote
  simp only [hb, List.mem_append, List.mem_singleton, or_true, ↓reduceIte,
    cstr_append_nul s hs]

theorem dequote_unquoted (t : List Char) (ht : NUL ∉ t)
    (hq : ∀ q ∈ t.head?, q ≠ Char.ofNat 91 ∧ q ≠ Char.ofNat 39 ∧ q ≠ Char.ofNat 34 ∧
      q ≠ Char.ofNat 96) :
    bfsvtabDequote (String.mk t) = some (String.mk t) := by
  have hb : bfsvtabDequoteBytes t = t ++ [NUL] := by
    unfold bfsvtabDequoteBytes
    rw [cstr_of_no_nul _ ht]
    cases t with
    | nil => rfl
    | cons q rest =>
      have := hq q (by simp)
      simp only [this, ne_eq, not_false_eq_true, and_self, ↓reduceIte]
  unfold bfsvtabDequote
  simp only [hb, List.mem_append, List.mem_singleton, or_true, ↓reduceIte,
    cstr_append_nul t ht]

/-- C18: for a string `s` (a C string: no NUL inside), `bfsvtabDequote` applied to `s` with
every closing quote character doubled and wrapped in `"..."`, `'...'`, backquotes or `[...]`
returns `s`; applied to an input whose first character is none of the four opening quote
characters it returns the input; so `"abc"` becomes `abc` and `[pqr]` becomes `pqr`. -/
theorem dequote_roundtrip (s : String) (hs : NUL ∉ s.data) :
    bfsvtabDequote (String.mk (Char.ofNat 34 :: (doubled (Char.ofNat 34) s.data ++
      [Char.ofNat 34]))) = some s ∧
    bfsvtabDequote (String.mk (Char.ofNat 39 :: (doubled (Char.ofNat 39) s.data ++
      [Char.ofNat 39]))) = some s ∧
    bfsvtabDequote (String.mk (Char.ofNat 96 :: (doubled (Char.ofNat 96) s.data ++
      [Char.ofNat 96]))) = some s ∧
    bfsvtabDequote (String.mk (Char.ofNat 91 :: (doubled (Char.ofNat 93) s.data ++
      [Char.ofNat 93]))) = some s ∧
    ((∀ q ∈ s.data.head?, q ≠ Char.ofNat 91 ∧ q ≠ Char.ofNat 39 ∧ q ≠ Char.ofNat 34 ∧
      q ≠ Char.ofNat 96) → bfsvtabDequote s = some s) ∧
    bfsvtabDequote "\"abc\"" = some "abc" ∧ bfsvtabDequote "[pqr]" = some "pqr" ∧
    bfsvtabDequote "'xyz'" = some "xyz" ∧ bfsvtabDequote "`mno`" = some "mno" :=
  ⟨dequote_quoted _ _ s.data hs (by decide) (by decide) (by decide) (by decide),
    dequote_quoted _ _ s.data hs (by decide) (by decide) (by decide) (by decide),
    dequote_quoted _ _ s.data hs (by decide) (by decide) (by decide) (by decide),
    dequote_quoted _ _ s.data hs (by decide) (by decide) (by decide) (by decide),
    fun hq => dequote_unquoted s.data hs hq,
    by decide, by decide, by decide, by decide⟩

theorem dequote_roundtrip_witness :
    NUL ∉ ("a\"b]c" : String).data ∧
    bfsvtabDequote "\"a\"\"b]c\"" = some "a\"b]c" ∧
    bfsvtabDequote "[a\"b]]c]" = some "a\"b]c" :=
  ⟨by decide, (dequote_roundtrip "a\"b]c" (by decide)).1,
    (dequote_roundtrip "a\"b]c" (by decide)).2.2.2.1⟩

/-! ## The text of the neighbour statement -/

theorem fmt_w_some (s : String) :
    "\"" ++ fmt_w (some s) ++ "\"" = quotedIdentifier s := rfl

theorem filterSql_text (T F G : String) (O : Option String) :
    bfsvtabFilterSql (some T) (some F) (some G) O =
      "SELECT " ++ quotedIdentifier T ++ "." ++ quotedIdentifier G ++ " FROM " ++
        quotedIdentifier T ++ " WHERE " ++ quotedIdentifier T ++ "." ++ quotedIdentifier F ++
        "=?1" ++
        O.elim "" (fun o => " ORDER BY " ++ quotedIdentifier T ++ "." ++ quotedIdentifier o) := by
  have e1 : "SELECT \"" = "SELECT " ++ "\"" := by decide
  have e2 : "\".\"" = "\"" ++ ("." ++ "\"") := by decide
  have e3 : "\" FROM \"" = "\"" ++ (" FROM " ++ "\"") := by decide
  have e4 : "\" WHERE \"" = "\"" ++ (" WHERE " ++ "\"") := by decide
  have e5 : "\"=?1" = "\"" ++ "=?1" := by decide
  have e6 : "\"=?1 ORDER BY \"" = "\"" ++ ("=?1" ++ (" ORDER BY " ++ "\"")) := by decide
  cases O with
  | none =>
    simp only [bfsvtabFilterSql, ← fmt_w_some, e1, e2, e3, e4, e5, String.append_assoc,
      String.append_empty, Option.elim]
  | some o =>
    simp only [bfsvtabFilterSql, ← fmt_w_some, e1, e2, e3, e4, e6, String.append_assoc,
      Option.elim]

/-- C19: for a root-bearing plan whose effective binding is the table `T`, from-column `F`,
to-column `G` and optional ordering column `O` (any strings), the text `bfsvtabFilter`
prepares is `SELECT "T"."G" FROM "T" WHERE "T"."F"=?1`, followed by ` ORDER BY "T"."O"`
exactly when an ordering column is set, every identifier wrapped in double quotes with the
double quotes inside it doubled: the statement installed in the cursor is what the host
prepares from that text, and a failure of that preparation is the status returned. -/
theorem neighbour_query_text (db : sqlite3) (pVtab : bfsvtab_vtab) (pCur : bfsvtab_cursor)
    (idxNum : Nat) (argv : Nat → sqlite3_value) (T F G : String) (O : Option String)
    (hbit : idxNum &&& 1 ≠ 0)
    (hT : planTableName pVtab idxNum argv = some T)
    (hF : planFromColumn pVtab idxNum argv = some F)
    (hG : planToColumn pVtab idxNum argv = some G)
    (hO : planOrderByColumn pVtab idxNum argv = O) :
    ∃ zSql : String,
      zSql = "SELECT " ++ quotedIdentifier T ++ "." ++ quotedIdentifier G ++ " FROM " ++
        quotedIdentifier T ++ " WHERE " ++ quotedIdentifier T ++ "." ++ quotedIdentifier F ++
        "=?1" ++
        O.elim "" (fun o =>
          " ORDER BY " ++ quotedIdentifier T ++ "." ++ quotedIdentifier o) ∧
      (bfsvtabFilter db pVtab pCur idxNum argv).2.2.pStmt = (db.prepare zSql).2 ∧
      ((db.prepare zSql).1 ≠ 0 →
        (bfsvtabFilter db pVtab pCur idxNum argv).1 = (db.prepare zSql).1 ∧
        (bfsvtabFilter db pVtab pCur idxNum argv).2.1.zErrMsg = some db.errmsg) := by
  have hsql := filterSql_text T F G O
  rw [← hT, ← hF, ← hG, ← hO] at hsql
  change planSql pVtab idxNum argv = _ at hsql
  rw [hO] at hsql
  refine ⟨_, rfl, ?_, ?_⟩
  · rw [← hsql]
    exact (filter_cursor_frame db pVtab pCur idxNum argv hbit).2.2.2.2.1
  · rw [← hsql]
    intro hp
    rw [filter_root_eq db pVtab pCur idxNum argv hbit, if_pos hp]
    exact ⟨rfl, rfl⟩

theorem neighbour_query_text_witness :
    ((257 : Nat) &&& 1 ≠ 0) ∧
    planTableName exampleVtab 257 (overrideArgv 1 "my\"t") = some "my\"t" ∧
    planFromColumn exampleVtab 257 (overrideArgv 1 "my\"t") = some "a" ∧
    planToColumn exampleVtab 257 (overrideArgv 1 "my\"t") = some "b" ∧
    planOrderByColumn exampleVtab 257 (overrideArgv 1 "my\"t") = none ∧
    "SELECT " ++ quotedIdentifier "my\"t" ++ "." ++ quotedIdentifier "b" ++ " FROM " ++
        quotedIdentifier "my\"t" ++ " WHERE " ++ quotedIdentifier "my\"t" ++ "." ++
        quotedIdentifier "a" ++ "=?1" ++ "" =
      "SELECT \"my\"\"t\".\"b\" FROM \"my\"\"t\" WHERE \"my\"\"t\".\"a\"=?1" ∧
    ∃ zSql : String,
      zSql = "SELECT " ++ quotedIdentifier "my\"t" ++ "." ++ quotedIdentifier "b" ++ " FROM " ++
        quotedIdentifier "my\"t" ++ " WHERE " ++ quotedIdentifier "my\"t" ++ "." ++
        quotedIdentifier "a" ++ "=?1" ++ "" ∧
      (bfsvtabFilter (edgeDb cycleEdges) exampleVtab bfsvtabOpen 257
        (overrideArgv 1 "my\"t")).2.2.pStmt = ((edgeDb cycleEdges).prepare zSql).2 :=
  ⟨by decide, rfl, rfl, rfl, rfl, by decide,
    (neighbour_query_text (edgeDb cycleEdges) exampleVtab bfsvtabOpen 257
      (overrideArgv 1 "my\"t") "my\"t" "a" "b" none (by decide) rfl rfl rfl rfl).imp
      fun _ h => ⟨h.1, h.2.1⟩⟩

/-! ## The fields of the plan descriptor -/

theorem shiftRight_lor (a b k : Nat) : (a ||| b) >>> k = (a >>> k) ||| (b >>> k) := by
  apply Nat.eq_of_testBit_eq
  intro i
  simp [Nat.testBit_shiftRight]

theorem planField_lor (k x y : Nat) :
    planField k (x ||| y) = planField k x ||| planField k y := by
  unfold planField
  rw [shiftRight_lor, Nat.and_distrib_right]

theorem mask_eq_field (x k : Nat) : x &&& (15 <<< k) = planField k x <<< k := by
  unfold planField
  apply Nat.eq_of_testBit_eq
  intro i
  simp only [Nat.testBit_and, Nat.testBit_shiftLeft, Nat.testBit_shiftRight]
  by_cases h : i ≥ k
  · have : k + (i - k) = i := by omega
    simp [h, this]
  · simp [h]

theorem mask_zero_iff (x k : Nat) : x &&& (15 <<< k) = 0 ↔ planField k x = 0 := by
  rw [mask_eq_field, Nat.shiftLeft_eq]
  constructor
  · intro h
    rcases Nat.mul_eq_zero.mp h with h | h
    · exact h
    · exact absurd h (by positivity)
  · intro h; rw [h]; simp

theorem planField_lt (k x : Nat) : planField k x < 16 := by
  unfold planField
  have : x >>> k &&& 15 = (x >>> k) % 2 ^ 4 := Nat.and_pow_two_sub_one_eq_mod _ 4
  rw [this]
  exact Nat.mod_lt _ (by norm_num)

theorem planField_shl_table :
    ∀ v < 16, ∀ a ∈ [4, 8, 12, 16, 20], ∀ b ∈ [4, 8, 12, 16, 20],
      planField b (v <<< a) = if a = b then v else 0 := by
  decide

theorem planField_const_table :
    ∀ b ∈ [4, 8, 12, 16, 20], planField b 1 = 0 ∧ planField b 2 = 0 ∧ planField b 0 = 0 := by
  decide

theorem PlanKind.col_injective (j k : PlanKind) (h : j.col = k.col) : j = k := by
  cases j <;> cases k <;> first | rfl | (exact absurd h (by decide))

theorem PlanKind.col_ne_root (k : PlanKind) : k.col ≠ BFSVTAB_COL_ROOT := by
  cases k <;> decide

theorem PlanKind.shift_mem (k : PlanKind) : k.shift ∈ [4, 8, 12, 16, 20] := by
  cases k <;> simp [PlanKind.shift]

theorem PlanKind.mem_all (k : PlanKind) : k ∈ PlanKind.all := by
  cases k <;> simp [PlanKind.all]

/-! ## The loop of the query planner -/

/-- One turn of the loop, case by case: an unusable constraint changes nothing; a usable
`root = ?` term, when bit 0 is clear, sets bit 0 and takes argument 1; a usable term of a
predicate whose field is still zero is chosen for it; anything else changes nothing. -/
theorem bestIndexStep_cases (iPlan idx : Nat) (c : sqlite3_index_constraint)
    (u : sqlite3_index_constraint_usage) :
    (c.usable = 0 ∧ bestIndexStep iPlan idx c u = { iPlan := iPlan, idx := idx, usage := u }) ∨
    (rootTerm c ∧ iPlan &&& 1 = 0 ∧
      bestIndexStep iPlan idx c u =
        { iPlan := iPlan ||| 1, idx := idx, usage := { argvIndex := 1, omit_ := 1 } }) ∨
    (∃ k, planTerm k c ∧ iPlan &&& (15 <<< k.shift) = 0 ∧
      bestIndexStep iPlan idx c u = chooseTerm k iPlan idx c u) ∨
    (c.usable ≠ 0 ∧ ¬ (rootTerm c ∧ iPlan &&& 1 = 0) ∧
      (∀ k, ¬ (planTerm k c ∧ iPlan &&& (15 <<< k.shift) = 0)) ∧
      bestIndexStep iPlan idx c u = { iPlan := iPlan, idx := idx, usage := u }) := by
  by_cases hu : c.usable = 0
  · left
    exact ⟨hu, by simp [bestIndexStep, hu]⟩
  right
  by_cases hr : rootTerm c ∧ iPlan &&& 1 = 0
  · left
    obtain ⟨⟨-, hc, ho⟩, hb⟩ := hr
    refine ⟨⟨hu, hc, ho⟩, hb, ?_⟩
    simp [bestIndexStep, hu, bestIndexRoot, bestIndexDistance, bestIndexOverride, hc, ho, hb,
      BFSVTAB_COL_ROOT, BFSVTAB_COL_DISTANCE, BFSVTAB_COL_TABLENAME, BFSVTAB_COL_FROMCOLUMN,
      BFSVTAB_COL_TOCOLUMN, BFSVTAB_COL_ORDER_BY_COLUMN]
  right
  by_cases hk : ∃ k, planTerm k c ∧ iPlan &&& (15 <<< k.shift) = 0
  · left
    obtain ⟨k, ⟨-, hc, hop⟩, hm⟩ := hk
    refine ⟨k, ⟨hu, hc, hop⟩, hm, ?_⟩
    have hnr : ¬ (iPlan &&& 1 = 0 ∧ c.iColumn = (BFSVTAB_COL_ROOT : Nat) ∧
        c.op = SQLITE_INDEX_CONSTRAINT_EQ) := by
      rintro ⟨h1, h2, -⟩
      rw [hc] at h2
      exact PlanKind.col_ne_root k (by exact_mod_cast h2)
    cases k
    all_goals
      simp only [PlanKind.col, PlanKind.shift] at hc hm
      simp only [reduceCtorEq, false_and, or_false, true_and] at hop
      simp [bestIndexStep, hu, bestIndexRoot, bestIndexDistance, bestIndexOverride, hc, hop, hm,
        hnr, chooseTerm, PlanKind.shift,
        BFSVTAB_COL_ROOT, BFSVTAB_COL_DISTANCE, BFSVTAB_COL_TABLENAME, BFSVTAB_COL_FROMCOLUMN,
        BFSVTAB_COL_TOCOLUMN, BFSVTAB_COL_ORDER_BY_COLUMN, SQLITE_INDEX_CONSTRAINT_EQ,
        SQLITE_INDEX_CONSTRAINT_LT, SQLITE_INDEX_CONSTRAINT_LE] at hm ⊢
    intro h16 h8
    rcases hop with h | h | h
    · exact h
    · exact absurd h h16
    · exact absurd h h8
  right
  refine ⟨hu, hr, fun k hk' => hk ⟨k, hk'⟩, ?_⟩
  have hR : ¬ (iPlan &&& 1 = 0 ∧ c.iColumn = (BFSVTAB_COL_ROOT : Nat) ∧
      c.op = SQLITE_INDEX_CONSTRAINT_EQ) := fun h => hr ⟨⟨hu, h.2.1, h.2.2⟩, h.1⟩
  have hD : ¬ (iPlan &&& 0x0000f0 = 0 ∧ c.iColumn = (BFSVTAB_COL_DISTANCE : Nat) ∧
      (c.op = SQLITE_INDEX_CONSTRAINT_LT ∨ c.op = SQLITE_INDEX_CONSTRAINT_LE ∨
        c.op = SQLITE_INDEX_CONSTRAINT_EQ)) := fun h =>
    hk ⟨.distance, ⟨hu, h.2.1, by
      rcases h.2.2 with h1 | h1 | h1
      · exact Or.inr ⟨rfl, Or.inl h1⟩
      · exact Or.inr ⟨rfl, Or.inr h1⟩
      · exact Or.inl h1⟩, h.1⟩
  have hO : ∀ k : PlanKind, ¬ (iPlan &&& (15 <<< k.shift) = 0 ∧ c.iColumn = (k.col : Nat) ∧
      c.op = SQLITE_INDEX_CONSTRAINT_EQ) := fun k h =>
    hk ⟨k, ⟨hu, h.2.1, Or.inl h.2.2⟩, h.1⟩
  have h1 := hO .tablename
  have h2 := hO .fromcolumn
  have h3 := hO .tocolumn
  have h4 := hO .order_by_column
  simp only [PlanKind.shift, PlanKind.col] at h1 h2 h3 h4
  have e1 : (15 <<< 8 : Nat) = 0x000f00 := by decide
  have e2 : (15 <<< 12 : Nat) = 0x00f000 := by decide
  have e3 : (15 <<< 16 : Nat) = 0x0f0000 := by decide
  have e4 : (15 <<< 20 : Nat) = 0xf00000 := by decide
  rw [e1] at h1
  rw [e2] at h2
  rw [e3] at h3
  rw [e4] at h4
  unfold bestIndexStep
  rw [if_neg hu]
  have s1 : bestIndexRoot c { iPlan := iPlan, idx := idx, usage := u } =
      { iPlan := iPlan, idx := idx, usage := u } := by
    unfold bestIndexRoot
    exact if_neg hR
  have s2 : bestIndexDistance c { iPlan := iPlan, idx := idx, usage := u } =
      { iPlan := iPlan, idx := idx, usage := u } := by
    unfold bestIndexDistance
    exact if_neg hD
  rw [s1, s2]
  have s3 : bestIndexOverride 0x000f00 8 BFSVTAB_COL_TABLENAME c
      { iPlan := iPlan, idx := idx, usage := u } = { iPlan := iPlan, idx := idx, usage := u } := by
    unfold bestIndexOverride
    exact if_neg h1
  have s4 : bestIndexOverride 0x00f000 12 BFSVTAB_COL_FROMCOLUMN c
      { iPlan := iPlan, idx := idx, usage := u } = { iPlan := iPlan, idx := idx, usage := u } := by
    unfold bestIndexOverride
    exact if_neg h2
  have s5 : bestIndexOverride 0x0f0000 16 BFSVTAB_COL_TOCOLUMN c
      { iPlan := iPlan, idx := idx, usage := u } = { iPlan := iPlan, idx := idx, usage := u } := by
    unfold bestIndexOverride
    exact if_neg h3
  have s6 : bestIndexOverride 0xf00000 20 BFSVTAB_COL_ORDER_BY_COLUMN c
      { iPlan := iPlan, idx := idx, usage := u } = { iPlan := iPlan, idx := idx, usage := u } := by
    unfold bestIndexOverride
    exact if_neg h4
  rw [s3, s4, s5, s6]

theorem shl_low_table :
    ∀ v < 16, ∀ a ∈ [4, 8, 12, 16, 20],
      (v <<< a) &&& 1 = 0 ∧ (v <<< a) &&& 2 = 0 ∧ (v <<< a) &&& 12 = 0 ∧
        (v <<< a) >>> 24 = 0 := by
  decide

theorem fieldCount_le (x : Nat) : fieldCount x ≤ 5 := by
  unfold fieldCount
  split_ifs <;> omega

theorem PlanWf.idx_lt (x idx : Nat) (h : PlanWf x idx) : 1 ≤ idx ∧ idx < 16 := by
  have := fieldCount_le x
  have := h.1
  omega

theorem planWf_init : PlanWf 0 1 := by
  refine ⟨by decide, fun _ => by decide, by decide, by decide⟩

/-- Setting bit 0 touches no field and not bit 1. -/
theorem root_bits (x : Nat) :
    (∀ k : PlanKind, planField k.shift (x ||| 1) = planField k.shift x) ∧
    (x ||| 1) &&& 1 ≠ 0 ∧ (x ||| 1) &&& 2 = x &&& 2 ∧ (x ||| 1) &&& 12 = x &&& 12 ∧
    (x ||| 1) >>> 24 = x >>> 24 := by
  refine ⟨fun k => ?_, ?_, ?_, ?_, ?_⟩
  · rw [planField_lor, (planField_const_table k.shift k.shift_mem).1, Nat.or_zero]
  · rw [Nat.and_distrib_right]
    have : (1 : Nat) &&& 1 = 1 := by decide
    rw [this]
    intro h
    have := congrArg (fun n => n.testBit 0) h
    simp at this
  · rw [Nat.and_distrib_right]
    have : (1 : Nat) &&& 2 = 0 := by decide
    rw [this, Nat.or_zero]
  · rw [Nat.and_distrib_right]
    have : (1 : Nat) &&& 12 = 0 := by decide
    rw [this, Nat.or_zero]
  · rw [shiftRight_lor]
    have : (1 : Nat) >>> 24 = 0 := by decide
    rw [this, Nat.or_zero]

theorem fieldCount_congr (x y : Nat)
    (h : ∀ k : PlanKind, planField k.shift y = planField k.shift x) :
    fieldCount y = fieldCount x := by
  have h1 := h .distance
  have h2 := h .tablename
  have h3 := h .fromcolumn
  have h4 := h .tocolumn
  have h5 := h .order_by_column
  simp only [PlanKind.shift] at h1 h2 h3 h4 h5
  unfold fieldCount
  rw [h1, h2, h3, h4, h5]

theorem fieldCount_succ (x y : Nat) (k : PlanKind) (hk : planField k.shift x = 0)
    (hk' : planField k.shift y ≠ 0)
    (h : ∀ j : PlanKind, j ≠ k → planField j.shift y = planField j.shift x) :
    fieldCount y = fieldCount x + 1 := by
  have h1 := h .distance
  have h2 := h .tablename
  have h3 := h .fromcolumn
  have h4 := h .tocolumn
  have h5 := h .order_by_column
  unfold fieldCount
  cases k <;> simp only [PlanKind.shift, ne_eq, reduceCtorEq, not_false_eq_true, forall_const,
    not_true_eq_false, false_implies] at h1 h2 h3 h4 h5 hk hk' <;>
    simp [*] <;> omega

theorem planWf_root (x idx : Nat) (h : PlanWf x idx) : PlanWf (x ||| 1) idx := by
  obtain ⟨r1, r2, r3, r4, r5⟩ := root_bits x
  refine ⟨?_, ?_, ?_, ?_⟩
  · rw [fieldCount_congr x _ r1]; exact h.1
  · intro h4
    rw [r3]
    have := r1 .distance
    simp only [PlanKind.shift] at this
    rw [this] at h4
    exact h.2.1 h4
  · rw [r4]; exact h.2.2.1
  · rw [r5]; exact h.2.2.2

theorem PlanKind.shift_injective (j k : PlanKind) (h : j.shift = k.shift) : j = k := by
  cases j <;> cases k <;> first | rfl | (exact absurd h (by decide))

/-- Choosing a term for predicate `k` writes the counter into the field of `k` and touches no
other field; bit 0 is untouched, and bit 1 is set exactly for a strict distance bound. -/
theorem choose_bits (k : PlanKind) (x idx : Nat) (c : sqlite3_index_constraint)
    (u : sqlite3_index_constraint_usage) (hidx : idx < 16) :
    (∀ j : PlanKind, planField j.shift (chooseTerm k x idx c u).iPlan =
        if j = k then planField k.shift x ||| idx else planField j.shift x) ∧
    (chooseTerm k x idx c u).iPlan &&& 1 = x &&& 1 ∧
    (chooseTerm k x idx c u).iPlan &&& 2 =
      (x &&& 2) ||| (if k = .distance ∧ c.op = SQLITE_INDEX_CONSTRAINT_LT then 2 else 0) ∧
    (chooseTerm k x idx c u).iPlan &&& 12 = x &&& 12 ∧
    (chooseTerm k x idx c u).iPlan >>> 24 = x >>> 24 := by
  have L := shl_low_table idx hidx k.shift k.shift_mem
  have F : ∀ j : PlanKind, planField j.shift (x ||| (idx <<< k.shift)) =
      if j = k then planField k.shift x ||| idx else planField j.shift x := by
    intro j
    rw [planField_lor, planField_shl_table idx hidx k.shift k.shift_mem j.shift j.shift_mem]
    by_cases hjk : j = k
    · subst hjk
      simp
    · have : k.shift ≠ j.shift := fun h => hjk (PlanKind.shift_injective _ _ h.symm)
      simp [hjk, this]
  have e1 : (2 : Nat) &&& 1 = 0 := by decide
  have e2 : (2 : Nat) &&& 2 = 2 := by decide
  have e3 : (2 : Nat) &&& 12 = 0 := by decide
  have e4 : (2 : Nat) >>> 24 = 0 := by decide
  unfold chooseTerm
  by_cases hlt : k = .distance ∧ c.op = SQLITE_INDEX_CONSTRAINT_LT
  · simp only [hlt, and_self, ↓reduceIte]
    obtain ⟨hk, -⟩ := hlt
    subst hk
    refine ⟨fun j => ?_, ?_, ?_, ?_, ?_⟩
    · rw [planField_lor, (planField_const_table j.shift j.shift_mem).2.1, Nat.or_zero]
      exact F j
    · rw [Nat.and_distrib_right, Nat.and_distrib_right, L.1, e1, Nat.or_zero, Nat.or_zero]
    · rw [Nat.and_distrib_right, Nat.and_distrib_right, L.2.1, e2, Nat.or_zero]
    · rw [Nat.and_distrib_right, Nat.and_distrib_right, L.2.2.1, e3, Nat.or_zero, Nat.or_zero]
    · rw [shiftRight_lor, shiftRight_lor, L.2.2.2, e4, Nat.or_zero, Nat.or_zero]
  · simp only [hlt, ↓reduceIte]
    refine ⟨F, ?_, ?_, ?_, ?_⟩
    · rw [Nat.and_distrib_right, L.1, Nat.or_zero]
    · rw [Nat.and_distrib_right, L.2.1]
    · rw [Nat.and_distrib_right, L.2.2.1, Nat.or_zero]
    · rw [shiftRight_lor, L.2.2.2, Nat.or_zero]

theorem planWf_choose (k : PlanKind) (x idx : Nat) (c : sqlite3_index_constraint)
    (u : sqlite3_index_constraint_usage) (h : PlanWf x idx) (hk : planField k.shift x = 0) :
    PlanWf (chooseTerm k x idx c u).iPlan (idx + 1) ∧
    planField k.shift (chooseTerm k x idx c u).iPlan = idx := by
  obtain ⟨i1, i2⟩ := h.idx_lt
  obtain ⟨b1, b2, b3, b4, b5⟩ := choose_bits k x idx c u i2
  have hkk : planField k.shift (chooseTerm k x idx c u).iPlan = idx := by
    rw [b1 k, if_pos rfl, hk, Nat.zero_or]
  refine ⟨⟨?_, ?_, ?_, ?_⟩, hkk⟩
  · rw [fieldCount_succ x _ k hk (by rw [hkk]; omega) (fun j hj => by rw [b1 j, if_neg hj])]
    have := h.1
    omega
  · intro h4
    by_cases hd : k = .distance
    · subst hd
      simp only [PlanKind.shift] at hkk
      omega
    · have := b1 .distance
      rw [if_neg (fun e => hd e.symm)] at this
      simp only [PlanKind.shift] at this
      rw [this] at h4
      rw [b3, h.2.1 h4]
      simp [hd]
  · rw [b4]; exact h.2.2.1
  · rw [b5]; exact h.2.2.2

theorem rootTerm_not_planTerm (k : PlanKind) (c : sqlite3_index_constraint)
    (hr : rootTerm c) : ¬ planTerm k c := by
  intro hk
  have := hr.2.1
  rw [hk.2.1] at this
  exact PlanKind.col_ne_root k (by exact_mod_cast this)

theorem planTerm_unique (j k : PlanKind) (c : sqlite3_index_constraint)
    (hj : planTerm j c) (hk : planTerm k c) : j = k := by
  have := hj.2.1
  rw [hk.2.1] at this
  exact (PlanKind.col_injective _ _ (by exact_mod_cast this)).symm

theorem chooseTerm_argvIndex (k : PlanKind) (x idx : Nat) (c : sqlite3_index_constraint)
    (u : sqlite3_index_constraint_usage) :
    (chooseTerm k x idx c u).usage.argvIndex = (idx : Int) + 1 ∧
    (chooseTerm k x idx c u).idx = idx + 1 := by
  unfold chooseTerm
  by_cases h : k = .distance <;> simp [h]

theorem bestIndexStep_spec (x idx : Nat) (c : sqlite3_index_constraint)
    (u : sqlite3_index_constraint_usage) (hwf : PlanWf x idx) :
    StepSpec x idx c u (bestIndexStep x idx c u) := by
  have same : (¬ rootTerm c ∨ x &&& 1 ≠ 0) →
      (∀ k : PlanKind, planTerm k c → planField k.shift x ≠ 0) →
      StepSpec x idx c u { iPlan := x, idx := idx, usage := u } := by
    intro h1 h2
    refine ⟨hwf, le_rfl, ?_, fun k => ?_, fun _ _ => rfl, fun _ => rfl,
      Or.inl ⟨rfl, rfl, rfl⟩, fun _ h0 h1 => absurd h0 h1, fun h0 h1 => absurd h0 h1⟩
    · constructor
      · exact fun h => Or.inl h
      · rintro (h | h)
        · exact h
        · rcases h1 with h1 | h1
          · exact absurd h h1
          · exact h1
    · constructor
      · exact fun h => Or.inl h
      · rintro (h | h)
        · exact h
        · exact h2 k h
  rcases bestIndexStep_cases x idx c u with ⟨h0, hs⟩ | ⟨hr, hb, hs⟩ | ⟨k, hk, hm, hs⟩ |
    ⟨_, hnr, hnk, hs⟩
  · rw [hs]
    exact same (Or.inl fun h => h.1 h0) fun k h => absurd h0 h.1
  · rw [hs]
    obtain ⟨r1, r2, r3, r4, r5⟩ := root_bits x
    refine ⟨planWf_root x idx hwf, le_rfl, ?_, fun k => ?_, fun k _ => r1 k, fun _ => r3,
      Or.inr (Or.inl ⟨hr, rfl, hb, rfl⟩), fun k h0 h1 => absurd ((r1 k).trans h0) h1,
      fun _ _ => ⟨hr, rfl⟩⟩
    · exact ⟨fun _ => Or.inr hr, fun _ => r2⟩
    · simp only
      rw [r1 k]
      constructor
      · exact fun h => Or.inl h
      · rintro (h | h)
        · exact h
        · exact absurd h (rootTerm_not_planTerm k c hr)
  · rw [hs]
    have hk0 : planField k.shift x = 0 := (mask_zero_iff x k.shift).1 hm
    obtain ⟨i1, i2⟩ := hwf.idx_lt
    obtain ⟨b1, b2, b3, b4, b5⟩ := choose_bits k x idx c u i2
    obtain ⟨w1, w2⟩ := planWf_choose k x idx c u hwf hk0
    obtain ⟨a1, a2⟩ := chooseTerm_argvIndex k x idx c u
    refine ⟨by rw [a2]; exact w1, by rw [a2]; omega, ?_, fun j => ?_, fun j hj => ?_,
      fun h4 => ?_, Or.inr (Or.inr ⟨k, hk, hk0, w2, a1, a2, b2, fun hd => ?_⟩),
      fun j h0 h1 => ?_, fun h0 h1 => absurd (b2.trans h0) h1⟩
    · rw [b2]
      constructor
      · exact fun h => Or.inl h
      · rintro (h | h)
        · exact h
        · exact absurd hk (rootTerm_not_planTerm k c h)
    · by_cases hjk : j = k
      · subst hjk
        rw [w2]
        exact ⟨fun _ => Or.inr hk, fun _ => by omega⟩
      · rw [b1 j, if_neg hjk]
        constructor
        · exact fun h => Or.inl h
        · rintro (h | h)
          · exact h
          · exact absurd (planTerm_unique j k c h hk) hjk
    · have hjk : j ≠ k := fun e => hj (e ▸ hk0)
      rw [b1 j, if_neg hjk]
    · have hd : k ≠ .distance := fun e => by
        subst e
        exact h4 hk0
      rw [b3]
      simp [hd]
    · subst hd
      have hx2 : x &&& 2 = 0 := hwf.2.1 hk0
      rw [b3, hx2]
      by_cases hlt : c.op = SQLITE_INDEX_CONSTRAINT_LT <;> simp [hlt]
    · by_cases hjk : j = k
      · subst hjk
        rw [w2]
        exact ⟨hk, a1⟩
      · rw [b1 j, if_neg hjk] at h1
        exact absurd h0 h1
  · rw [hs]
    refine same ?_ fun k h => ?_
    · by_cases hr : rootTerm c
      · exact Or.inr fun hb => hnr ⟨hr, hb⟩
      · exact Or.inl hr
    · intro h0
      exact hnk k ⟨h, (mask_zero_iff x k.shift).2 h0⟩

theorem bestIndexLoop_cons (x idx : Nat) (c : sqlite3_index_constraint)
    (cs : List sqlite3_index_constraint) (u : sqlite3_index_constraint_usage)
    (us : List sqlite3_index_constraint_usage) :
    bestIndexLoop x idx (c :: cs) (u :: us) =
      ((bestIndexLoop (bestIndexStep x idx c u).iPlan (bestIndexStep x idx c u).idx cs us).1,
        (bestIndexLoop (bestIndexStep x idx c u).iPlan (bestIndexStep x idx c u).idx cs us).2.1,
        (bestIndexStep x idx c u).usage ::
          (bestIndexLoop (bestIndexStep x idx c u).iPlan (bestIndexStep x idx c u).idx
            cs us).2.2) := by
  rw [bestIndexLoop]

theorem loopSpec_cons (x idx : Nat) (c : sqlite3_index_constraint)
    (cs : List sqlite3_index_constraint) (u : sqlite3_index_constraint_usage)
    (us : List sqlite3_index_constraint_usage) (s : bestIndexAcc)
    (r : Nat × Nat × List sqlite3_index_constraint_usage)
    (hwf : PlanWf x idx) (hs : StepSpec x idx c u s) (hr : LoopSpec s.iPlan s.idx cs us r) :
    LoopSpec x idx (c :: cs) (u :: us) (r.1, r.2.1, s.usage :: r.2.2) := by
  have hb0 : x &&& 1 ≠ 0 → s.iPlan &&& 1 ≠ 0 := fun h => hs.bit0.2 (Or.inl h)
  refine ⟨hr.wf, le_trans hs.le hr.le, by simp [hr.len], ?_, fun k => ?_, fun k hk => ?_,
    fun h4 => ?_, ?_, ?_, fun k h0 h1 => ?_, fun h0 h1 => ?_⟩
  · simp only [List.mem_cons, exists_eq_or_imp]
    rw [hr.bit0, hs.bit0, or_assoc]
  · simp only [List.mem_cons, exists_eq_or_imp]
    rw [hr.field k, hs.field k, or_assoc]
  · have e := hs.keep k hk
    simp only
    rw [hr.keep k (by rw [e]; exact hk), e]
  · have e := hs.keep .distance h4
    simp only [PlanKind.shift] at e
    simp only
    rw [hr.keep1 (by rw [e]; exact h4), hs.keep1 h4]
  · intro hzero cu hcu hne
    have hu0 : u.argvIndex = 0 := hzero u (List.mem_cons_self _ _)
    have hz : ∀ v ∈ us, v.argvIndex = 0 := fun v hv => hzero v (List.mem_cons_of_mem _ hv)
    simp only [List.zip_cons_cons, List.mem_cons] at hcu
    rcases hcu with rfl | hcu
    · simp only at hne ⊢
      rcases hs.usage with ⟨h0, -⟩ | ⟨h1, h2, h3, -⟩ | ⟨k, h1, h2, h3, h4, h5, h6, h7⟩
      · rw [h0] at hne
        exact absurd hu0 hne
      · exact Or.inl ⟨h1, h2, h3⟩
      · have hk : planField k.shift s.iPlan ≠ 0 := by
          have := hwf.idx_lt
          omega
        refine Or.inr ⟨k, h1, h2, ?_, fun hd => ?_⟩
        · rw [hr.keep k hk, h3, h4]
        · subst hd
          rw [hr.keep1 hk]
          exact h7 rfl
    · rcases hr.chosen hz cu hcu hne with ⟨h1, h2, h3⟩ | ⟨k, h1, h2, h3, h4⟩
      · refine Or.inl ⟨h1, h2, ?_⟩
        by_contra hx
        exact hb0 hx h3
      · refine Or.inr ⟨k, h1, ?_, h3, h4⟩
        by_contra hx
        exact (hs.field k).2 (Or.inl hx) h2
  · intro hzero
    have hu0 : u.argvIndex = 0 := hzero u (List.mem_cons_self _ _)
    have hp := hr.perm fun v hv => hzero v (List.mem_cons_of_mem _ hv)
    simp only [List.map_cons]
    rcases hs.usage with ⟨h0, h1, h2⟩ | ⟨h1, h2, h3, h4⟩ | ⟨k, h1, h2, h3, h4, h5, h6, h7⟩
    · rw [List.filter_cons_of_neg (by simp [h0, hu0])]
      rw [h1, h2] at hp
      exact hp
    · rw [List.filter_cons_of_pos (by simp [h2]), h2]
      have hs1 : s.iPlan &&& 1 ≠ 0 := hs.bit0.2 (Or.inr h1)
      have hr1 : r.1 &&& 1 ≠ 0 := hr.bit0.2 (Or.inl hs1)
      rw [if_neg (fun h => hs1 h.1), h4] at hp
      rw [if_pos ⟨h3, hr1⟩]
      exact List.Perm.cons 1 hp
    · rw [List.filter_cons_of_pos (by simp [h4]; omega), h4]
      have hle := hr.le
      rw [h5, h6] at hp
      have hn : r.2.1 - idx = (r.2.1 - (idx + 1)) + 1 := by omega
      rw [hn, List.range'_succ, List.map_cons]
      have hc : Int.ofNat (idx + 1) = (idx : Int) + 1 := rfl
      rw [hc]
      exact (List.Perm.cons _ hp).trans List.perm_middle.symm
  · simp only at h1 ⊢
    by_cases hsk : planField k.shift s.iPlan = 0
    · obtain ⟨cu, hcu, h⟩ := hr.pick k hsk h1
      exact ⟨cu, List.mem_cons_of_mem _ hcu, h⟩
    · obtain ⟨p1, p2⟩ := hs.pick k h0 hsk
      refine ⟨(c, s.usage), List.mem_cons_self _ _, p1, ?_⟩
      rw [hr.keep k hsk]
      exact p2
  · simp only at h1 ⊢
    by_cases hsb : s.iPlan &&& 1 = 0
    · obtain ⟨cu, hcu, h⟩ := hr.pick0 hsb h1
      exact ⟨cu, List.mem_cons_of_mem _ hcu, h⟩
    · exact ⟨(c, s.usage), List.mem_cons_self _ _, hs.pick0 h0 hsb⟩

/-- The loop of `bfsvtabBestIndex`, read back from the plan descriptor and the usage entries
it leaves. -/
theorem bestIndexLoop_spec (cs : List sqlite3_index_constraint) :
    ∀ (x idx : Nat) (us : List sqlite3_index_constraint_usage),
      PlanWf x idx → cs.length = us.length →
      LoopSpec x idx cs us (bestIndexLoop x idx cs us) := by
  induction cs with
  | nil =>
    intro x idx us hwf hlen
    have hus : us = [] := List.length_eq_zero.1 hlen.symm
    subst hus
    simp only [bestIndexLoop]
    refine ⟨hwf, le_rfl, rfl, ?_, fun k => ?_, fun _ _ => rfl, fun _ => rfl, ?_, ?_,
      fun _ h0 h1 => absurd h0 h1, fun h0 h1 => absurd h0 h1⟩
    · simp
    · simp
    · intro _ cu hcu
      simp at hcu
    · intro _
      simp
  | cons c cs ih =>
    intro x idx us hwf hlen
    cases us with
    | nil => simp at hlen
    | cons u us =>
      have hs := bestIndexStep_spec x idx c u hwf
      have hr := ih (bestIndexStep x idx c u).iPlan (bestIndexStep x idx c u).idx us hs.wf
        (by simpa using hlen)
      rw [bestIndexLoop_cons]
      exact loopSpec_cons x idx c cs u us _ _ hwf hs hr

/-! ## Query planning and the arguments of the filter -/

/-- The two outcomes of `bfsvtabBestIndex`: plan 0 with every `argvIndex` cleared, when no
usable `root = ?` term exists or a binding is missing; else the plan descriptor and usage
entries of the loop, with bit 0 set. -/
theorem bestIndex_cases (pVtab : bfsvtab_vtab) (cs : List sqlite3_index_constraint)
    (us : List sqlite3_index_constraint_usage) (hlen : cs.length = us.length) :
    (((¬ ∃ c ∈ cs, rootTerm c) ∨ bindingMissing pVtab cs) ∧
      bfsvtabBestIndex pVtab cs us =
        (0, (bestIndexLoop 0 1 cs us).2.2.map fun u => { u with argvIndex := 0 })) ∨
    ((∃ c ∈ cs, rootTerm c) ∧ ¬ bindingMissing pVtab cs ∧
      (bestIndexLoop 0 1 cs us).1 &&& 1 ≠ 0 ∧
      bfsvtabBestIndex pVtab cs us =
        ((bestIndexLoop 0 1 cs us).1, (bestIndexLoop 0 1 cs us).2.2)) := by
  have L := bestIndexLoop_spec cs 0 1 us planWf_init hlen
  have f0 : ∀ k : PlanKind, planField k.shift 0 = 0 := fun k =>
    (planField_const_table _ k.shift_mem).2.2
  have hf : ∀ k : PlanKind, (bestIndexLoop 0 1 cs us).1 &&& (15 <<< k.shift) = 0 ↔
      ¬ ∃ c ∈ cs, planTerm k c := by
    intro k
    rw [mask_zero_iff]
    have := L.field k
    rw [f0 k] at this
    constructor
    · intro h hex
      exact this.2 (Or.inr hex) h
    · intro h
      by_contra hne
      rcases this.1 hne with h' | h'
      · exact h' rfl
      · exact h h'
  have hb : (bestIndexLoop 0 1 cs us).1 &&& 1 ≠ 0 ↔ ∃ c ∈ cs, rootTerm c := by
    have := L.bit0
    constructor
    · intro h
      rcases this.1 h with h' | h'
      · exact absurd rfl h'
      · exact h'
    · exact fun h => this.2 (Or.inr h)
  have h1 := hf .tablename
  have h2 := hf .fromcolumn
  have h3 := hf .tocolumn
  have e1 : (15 <<< PlanKind.tablename.shift : Nat) = 0x000f00 := by decide
  have e2 : (15 <<< PlanKind.fromcolumn.shift : Nat) = 0x00f000 := by decide
  have e3 : (15 <<< PlanKind.tocolumn.shift : Nat) = 0x0f0000 := by decide
  rw [e1] at h1
  rw [e2] at h2
  rw [e3] at h3
  have hm : ((pVtab.zTableName = none ∧ (bestIndexLoop 0 1 cs us).1 &&& 0x000f00 = 0) ∨
        (pVtab.zFromColumn = none ∧ (bestIndexLoop 0 1 cs us).1 &&& 0x00f000 = 0) ∨
        (pVtab.zToColumn = none ∧ (bestIndexLoop 0 1 cs us).1 &&& 0x0f0000 = 0)) ↔
      bindingMissing pVtab cs := by
    unfold bindingMissing
    rw [h1, h2, h3]
  unfold bfsvtabBestIndex
  simp only
  by_cases m : bindingMissing pVtab cs
  · left
    rw [if_pos (hm.2 m)]
    exact ⟨Or.inr m, by simp⟩
  · rw [if_neg (fun h => m (hm.1 h))]
    by_cases r : ∃ c ∈ cs, rootTerm c
    · right
      rw [if_neg (hb.2 r)]
      exact ⟨r, m, hb.2 r, rfl⟩
    · left
      rw [if_pos (by
        by_contra h
        exact r (hb.1 h))]
      exact ⟨Or.inl r, rfl⟩

/-- C11: for constraints and usage entries of the same length and any table-level binding,
`bfsvtabBestIndex` returns plan descriptor 0 with the `argvIndex` of every usage entry 0 when
no constraint is a usable `root = ?` term, and also when one of table, from-column,
to-column is neither configured on the virtual table nor supplied by a usable equality
constraint; in every other case bit 0 of the plan descriptor returned is set. -/
theorem bestIndex_zero_plan (pVtab : bfsvtab_vtab) (cs : List sqlite3_index_constraint)
    (us : List sqlite3_index_constraint_usage) (hlen : cs.length = us.length) :
    (((¬ ∃ c ∈ cs, rootTerm c) ∨ bindingMissing pVtab cs) →
      (bfsvtabBestIndex pVtab cs us).1 = 0 ∧
      (bfsvtabBestIndex pVtab cs us).2.length = cs.length ∧
      ∀ u ∈ (bfsvtabBestIndex pVtab cs us).2, u.argvIndex = 0) ∧
    (¬ ((¬ ∃ c ∈ cs, rootTerm c) ∨ bindingMissing pVtab cs) →
      (bfsvtabBestIndex pVtab cs us).1 &&& 1 = 1) := by
  have L := bestIndexLoop_spec cs 0 1 us planWf_init hlen
  rcases bestIndex_cases pVtab cs us hlen with ⟨h, e⟩ | ⟨hr, hm, hb, e⟩
  · rw [e]
    refine ⟨fun _ => ⟨rfl, by simp [L.len], ?_⟩, fun hn => absurd h hn⟩
    intro u hu
    simp only [List.mem_map] at hu
    obtain ⟨v, -, rfl⟩ := hu
    rfl
  · rw [e]
    refine ⟨fun h => ?_, fun _ => ?_⟩
    · rcases h with h | h
      · exact absurd hr h
      · exact absurd h hm
    · have := Nat.and_one_is_mod (bestIndexLoop 0 1 cs us).1
      simp only at hb ⊢
      omega

theorem bestIndex_zero_plan_witness :
    exampleConstraints.length = (zeroUsage 6).length ∧
    (bfsvtabBestIndex exampleVtab exampleConstraints (zeroUsage 6)).1 &&& 1 = 1 ∧
    (bfsvtabBestIndex { exampleVtab with zToColumn := none } exampleConstraints
      (zeroUsage 6)).1 = 0 :=
  ⟨rfl,
    (bestIndex_zero_plan exampleVtab exampleConstraints (zeroUsage 6) rfl).2 (by decide),
    ((bestIndex_zero_plan { exampleVtab with zToColumn := none } exampleConstraints
      (zeroUsage 6) rfl).1 (by decide)).1⟩

/-- Among entries whose nonzero marks are pairwise distinct, at most one entry satisfies a
property that fixes the mark. -/
theorem filter_length_le_one {α : Type} (f : α → Int) (P : α → Prop) [DecidablePred P]
    (a : Int) (l : List α) (hP : ∀ x ∈ l, P x → f x = a ∧ f x ≠ 0)
    (hnd : ((l.map f).filter fun v => v ≠ 0).Nodup) :
    (l.filter fun x => P x).length ≤ 1 := by
  induction l with
  | nil => simp
  | cons x l ih =>
    have hP' : ∀ y ∈ l, P y → f y = a ∧ f y ≠ 0 := fun y hy =>
      hP y (List.mem_cons_of_mem _ hy)
    by_cases hx : P x
    · obtain ⟨e1, e2⟩ := hP x (List.mem_cons_self _ _) hx
      rw [List.map_cons, List.filter_cons_of_pos (by simpa using e2)] at hnd
      have hnot := (List.nodup_cons.1 hnd).1
      have hnil : l.filter (fun y => P y) = [] := by
        rw [List.filter_eq_nil_iff]
        intro y hy hPy
        have hPy' : P y := by simpa using hPy
        obtain ⟨e3, e4⟩ := hP' y hy hPy'
        apply hnot
        rw [List.mem_filter]
        refine ⟨List.mem_map.2 ⟨y, hy, by rw [e3, e1]⟩, by simpa using e2⟩
      rw [List.filter_cons_of_pos (by simpa using hx), hnil]
      simp
    · rw [List.filter_cons_of_neg (by simpa using hx)]
      apply ih hP'
      rw [List.map_cons] at hnd
      by_cases h0 : f x ≠ 0
      · rw [List.filter_cons_of_pos (by simpa using h0)] at hnd
        exact (List.nodup_cons.1 hnd).2
      · rw [List.filter_cons_of_neg (by simpa using h0)] at hnd
        exact hnd

/-- C12: for constraints and zeroed usage entries of the same length, the usage entries that
`bfsvtabBestIndex` leaves are as many as the constraints; their non-zero `argvIndex` values
are, up to order, exactly `1, ..., k` for some `k` (no gap, no repeat); an entry with a
non-zero `argvIndex` belongs to a usable constraint, which is a `root = ?` term or a term of
one of the five other predicates; and for every column at most one constraint on that column
has a non-zero `argvIndex`, so each predicate is chosen at most once. -/
theorem argvIndex_contiguous (pVtab : bfsvtab_vtab) (cs : List sqlite3_index_constraint)
    (us : List sqlite3_index_constraint_usage) (hlen : cs.length = us.length)
    (hzero : ∀ u ∈ us, u.argvIndex = 0) :
    (bfsvtabBestIndex pVtab cs us).2.length = cs.length ∧
    (∃ k : Nat,
      (((bfsvtabBestIndex pVtab cs us).2.map fun u => u.argvIndex).filter
        fun a => a ≠ 0).Perm ((List.range' 1 k).map Int.ofNat)) ∧
    (∀ cu ∈ cs.zip (bfsvtabBestIndex pVtab cs us).2, cu.2.argvIndex ≠ 0 →
      cu.1.usable ≠ 0 ∧ (rootTerm cu.1 ∨ ∃ k, planTerm k cu.1)) ∧
    (∀ col : Int,
      ((cs.zip (bfsvtabBestIndex pVtab cs us).2).filter fun cu =>
        cu.1.iColumn = col ∧ cu.2.argvIndex ≠ 0).length ≤ 1) := by
  have L := bestIndexLoop_spec cs 0 1 us planWf_init hlen
  rcases bestIndex_cases pVtab cs us hlen with ⟨-, e⟩ | ⟨hr, hm, hb, e⟩
  · rw [e]
    simp only
    have hall : ∀ u ∈ (bestIndexLoop 0 1 cs us).2.2.map
        (fun u : sqlite3_index_constraint_usage => { u with argvIndex := 0 }),
        u.argvIndex = 0 := by
      intro u hu
      simp only [List.mem_map] at hu
      obtain ⟨v, -, rfl⟩ := hu
      rfl
    refine ⟨by simp [L.len], ⟨0, ?_⟩, ?_, fun col => ?_⟩
    · rw [List.filter_eq_nil_iff.2]
      · exact List.Perm.refl _
      · intro a ha
        obtain ⟨u, hu, rfl⟩ := List.mem_map.1 ha
        simp [hall u hu]
    · intro cu hcu hne
      exact absurd (hall cu.2 (List.of_mem_zip hcu).2) hne
    · rw [List.filter_eq_nil_iff.2]
      · simp
      · intro cu hcu
        simp [hall cu.2 (List.of_mem_zip hcu).2]
  · rw [e]
    simp only
    have hperm : (((bestIndexLoop 0 1 cs us).2.2.map fun u => u.argvIndex).filter
        fun a => a ≠ 0).Perm ((List.range' 1 (bestIndexLoop 0 1 cs us).2.1).map Int.ofNat) := by
      have hp := L.perm hzero
      rw [if_pos ⟨by decide, hb⟩] at hp
      have hle := L.le
      have hn : (bestIndexLoop 0 1 cs us).2.1 = ((bestIndexLoop 0 1 cs us).2.1 - 1) + 1 := by
        omega
      rw [hn, List.range'_succ, List.map_cons]
      exact hp
    have hch := L.chosen hzero
    refine ⟨L.len, ⟨_, hperm⟩, ?_, fun col => ?_⟩
    · intro cu hcu hne
      rcases hch cu hcu hne with ⟨h1, -⟩ | ⟨k, h1, -⟩
      · exact ⟨h1.1, Or.inl h1⟩
      · exact ⟨h1.1, Or.inr ⟨k, h1⟩⟩
    · have hnd : ((((cs.zip (bestIndexLoop 0 1 cs us).2.2).map fun cu =>
          cu.2.argvIndex)).filter fun v => v ≠ 0).Nodup := by
        have e1 : ((cs.zip (bestIndexLoop 0 1 cs us).2.2).map fun cu => cu.2.argvIndex) =
            (bestIndexLoop 0 1 cs us).2.2.map fun u => u.argvIndex := by
          rw [← List.map_snd_zip cs (bestIndexLoop 0 1 cs us).2.2 (le_of_eq L.len),
            List.map_map]
          rw [List.map_snd_zip cs (bestIndexLoop 0 1 cs us).2.2 (le_of_eq L.len)]
          rfl
        rw [e1, hperm.nodup_iff]
        exact (List.nodup_range' 1 _).map fun a b h => Int.ofNat.inj h
      have hval : ∃ a : Int, ∀ cu ∈ cs.zip (bestIndexLoop 0 1 cs us).2.2,
          cu.1.iColumn = col ∧ cu.2.argvIndex ≠ 0 → cu.2.argvIndex = a ∧ cu.2.argvIndex ≠ 0 := by
        by_cases hc : col = (BFSVTAB_COL_ROOT : Nat)
        · refine ⟨1, fun cu hcu h => ⟨?_, h.2⟩⟩
          rcases hch cu hcu h.2 with ⟨-, h2, -⟩ | ⟨k, h1, -⟩
          · exact h2
          · have := h1.2.1
            rw [h.1, hc] at this
            exact absurd (by exact_mod_cast this.symm) (PlanKind.col_ne_root k)
        · by_cases hk : ∃ k : PlanKind, col = (k.col : Nat)
          · obtain ⟨k, hk⟩ := hk
            refine ⟨(planField k.shift (bestIndexLoop 0 1 cs us).1 : Int) + 1,
              fun cu hcu h => ⟨?_, h.2⟩⟩
            rcases hch cu hcu h.2 with ⟨h1, -⟩ | ⟨j, h1, -, h3, -⟩
            · exact absurd (h.1.symm.trans h1.2.1) hc
            · have := h1.2.1
              rw [h.1, hk] at this
              have hjk : k = j := PlanKind.col_injective _ _ (by exact_mod_cast this)
              rw [hjk]
              exact h3
          · refine ⟨0, fun cu hcu h => ?_⟩
            rcases hch cu hcu h.2 with ⟨h1, -⟩ | ⟨j, h1, -⟩
            · exact absurd (h.1.symm.trans h1.2.1) hc
            · exact absurd ⟨j, h.1.symm.trans h1.2.1⟩ hk
      obtain ⟨a, ha⟩ := hval
      exact filter_length_le_one
        (fun cu : sqlite3_index_constraint × sqlite3_index_constraint_usage => cu.2.argvIndex)
        (fun cu => cu.1.iColumn = col ∧ cu.2.argvIndex ≠ 0) a _ ha hnd

set_option maxRecDepth 8192 in
theorem argvIndex_contiguous_witness :
    exampleConstraints.length = (zeroUsage 6).length ∧
    (∀ u ∈ zeroUsage 6, u.argvIndex = 0) ∧
    ((bfsvtabBestIndex exampleVtab exampleConstraints (zeroUsage 6)).2.map
      fun u => u.argvIndex) = [2, 3, 0, 1, 0, 0] ∧
    (∃ k : Nat,
      (((bfsvtabBestIndex exampleVtab exampleConstraints (zeroUsage 6)).2.map
        fun u => u.argvIndex).filter fun a => a ≠ 0).Perm
        ((List.range' 1 k).map Int.ofNat)) :=
  ⟨rfl, by decide, by decide,
    (argvIndex_contiguous exampleVtab exampleConstraints (zeroUsage 6) rfl (by decide)).2.1⟩

/-- Under a root-bearing plan whose field for the binding `k` is not zero, `bfsvtabFilter`
reads the binding from `argv` at the position the field holds, and stores a copy in the
cursor. -/
theorem filter_reads_field (k : PlanKind) (hk : k ≠ .distance) (db : sqlite3)
    (pVtab : bfsvtab_vtab) (pCur : bfsvtab_cursor) (plan : Nat) (argv : Nat → sqlite3_value)
    (hbit : plan &&& 1 ≠ 0) (hf : planField k.shift plan ≠ 0) :
    planBinding k pVtab plan argv = (argv (planField k.shift plan)).text ∧
    cursorBinding k (bfsvtabFilter db pVtab pCur plan argv).2.2 =
      some (fmt_s (argv (planField k.shift plan)).text) := by
  have hm : plan &&& (15 <<< k.shift) ≠ 0 := fun h => hf ((mask_zero_iff plan k.shift).1 h)
  have F := filter_cursor_frame db pVtab pCur plan argv hbit
  have e1 : (15 <<< 8 : Nat) = 0x00f00 := by decide
  have e2 : (15 <<< 12 : Nat) = 0x0f000 := by decide
  have e3 : (15 <<< 16 : Nat) = 0x0f0000 := by decide
  have e4 : (15 <<< 20 : Nat) = 0xf00000 := by decide
  cases k with
  | distance => exact absurd rfl hk
  | tablename =>
    simp only [PlanKind.shift] at hm ⊢
    rw [e1] at hm
    have hp : planTableName pVtab plan argv = (argv (planField 8 plan)).text := by
      unfold planTableName
      rw [if_pos hm]
      rfl
    refine ⟨hp, ?_⟩
    show (bfsvtabFilter db pVtab pCur plan argv).2.2.zTableName = _
    rw [F.1]
    unfold planCursor
    simp only
    rw [if_pos hm, hp]
  | fromcolumn =>
    simp only [PlanKind.shift] at hm ⊢
    rw [e2] at hm
    have hp : planFromColumn pVtab plan argv = (argv (planField 12 plan)).text := by
      unfold planFromColumn
      rw [if_pos hm]
      rfl
    refine ⟨hp, ?_⟩
    show (bfsvtabFilter db pVtab pCur plan argv).2.2.zFromColumn = _
    rw [F.2.1]
    unfold planCursor
    simp only
    rw [if_pos hm, hp]
  | tocolumn =>
    simp only [PlanKind.shift] at hm ⊢
    rw [e3] at hm
    have hp : planToColumn pVtab plan argv = (argv (planField 16 plan)).text := by
      unfold planToColumn
      rw [if_pos hm]
      rfl
    refine ⟨hp, ?_⟩
    show (bfsvtabFilter db pVtab pCur plan argv).2.2.zToColumn = _
    rw [F.2.2.1]
    unfold planCursor
    simp only
    rw [if_pos hm, hp]
  | order_by_column =>
    simp only [PlanKind.shift] at hm ⊢
    rw [e4] at hm
    have hp : planOrderByColumn pVtab plan argv = (argv (planField 20 plan)).text := by
      unfold planOrderByColumn
      rw [if_pos hm]
      rfl
    refine ⟨hp, ?_⟩
    show (bfsvtabFilter db pVtab pCur plan argv).2.2.zOrderByColumn = _
    rw [F.2.2.2.1]
    unfold planCursor
    simp only
    rw [if_pos hm, hp]

theorem mem_zip_zip {α β γ : Type} (a : α) (b : β) (c : γ) :
    ∀ (l1 : List α) (l2 : List β) (l3 : List γ), (a, b, c) ∈ l1.zip (l2.zip l3) →
      (a, b) ∈ l1.zip l2 ∧ (b, c) ∈ l2.zip l3 := by
  intro l1
  induction l1 with
  | nil => intro l2 l3 h; simp at h
  | cons x l1 ih =>
    intro l2 l3 h
    cases l2 with
    | nil => simp at h
    | cons y l2 =>
      cases l3 with
      | nil => simp at h
      | cons z l3 =>
        simp only [List.zip_cons_cons, List.mem_cons, Prod.mk.injEq] at h ⊢
        rcases h with ⟨rfl, rfl, rfl⟩ | h
        · exact ⟨Or.inl ⟨rfl, rfl⟩, Or.inl ⟨rfl, rfl⟩⟩
        · have := ih l2 l3 h
          exact ⟨Or.inr this.1, Or.inr this.2⟩

/-- C13: let `bfsvtabBestIndex`, on constraints and zeroed usage entries of the same length,
return a plan descriptor `plan ≠ 0` and usage entries `out`, and let `argv` hold the
right-hand sides `vals` of the constraints ordered by `argvIndex`.  Then bit 0 of `plan` is
set and no bit outside bits 0-1 and 4-23 is; bit 1 is set iff a chosen constraint on the
distance is a strict `<`; the field of each predicate is 0 iff no constraint on its column
was chosen, and for a chosen constraint it is `argvIndex - 1`, the position of its value in
`argv`; the chosen root constraint has `argvIndex` 1.  So `bfsvtabFilter` under `plan` reads
the root from the value of the chosen root constraint, and each override from the value of
the constraint chosen for it, of which it stores a copy in the cursor. -/
theorem plan_roundtrip (db : sqlite3) (pVtab : bfsvtab_vtab) (pCur : bfsvtab_cursor)
    (cs : List sqlite3_index_constraint) (us out : List sqlite3_index_constraint_usage)
    (plan : Nat) (vals : List sqlite3_value) (argv : Nat → sqlite3_value)
    (hlen : cs.length = us.length) (hzero : ∀ u ∈ us, u.argvIndex = 0)
    (hB : bfsvtabBestIndex pVtab cs us = (plan, out)) (hplan : plan ≠ 0)
    (hargv : ArgvOrdered out vals argv) :
    (plan &&& 1 = 1 ∧ plan &&& 12 = 0 ∧ plan >>> 24 = 0) ∧
    (plan &&& 2 ≠ 0 ↔
      ∃ cu ∈ cs.zip out, cu.2.argvIndex ≠ 0 ∧ cu.1.iColumn = (BFSVTAB_COL_DISTANCE : Nat) ∧
        cu.1.op = SQLITE_INDEX_CONSTRAINT_LT) ∧
    (∀ k : PlanKind, planField k.shift plan = 0 ↔
      ¬ ∃ cu ∈ cs.zip out, cu.2.argvIndex ≠ 0 ∧ cu.1.iColumn = (k.col : Nat)) ∧
    (∀ k : PlanKind, ∀ cu ∈ cs.zip out, cu.2.argvIndex ≠ 0 → cu.1.iColumn = (k.col : Nat) →
      (planField k.shift plan : Int) = cu.2.argvIndex - 1) ∧
    ((∃ cu ∈ cs.zip out, cu.1.iColumn = (BFSVTAB_COL_ROOT : Nat) ∧ cu.2.argvIndex = 1) ∧
      ∀ cu ∈ cs.zip out, cu.2.argvIndex ≠ 0 → cu.1.iColumn = (BFSVTAB_COL_ROOT : Nat) →
        cu.2.argvIndex = 1) ∧
    (∀ cuv ∈ cs.zip (out.zip vals), cuv.2.1.argvIndex ≠ 0 →
      (cuv.1.iColumn = (BFSVTAB_COL_ROOT : Nat) →
        argv 0 = cuv.2.2 ∧
        ((db.prepare (planSql pVtab plan argv)).1 = 0 →
          (bfsvtabFilter db pVtab pCur plan argv).2.2.root = cuv.2.2.int64)) ∧
      (∀ k : PlanKind, k ≠ .distance → cuv.1.iColumn = (k.col : Nat) →
        planBinding k pVtab plan argv = cuv.2.2.text ∧
        cursorBinding k (bfsvtabFilter db pVtab pCur plan argv).2.2 =
          some (fmt_s cuv.2.2.text))) := by
  have L := bestIndexLoop_spec cs 0 1 us planWf_init hlen
  have f0 : ∀ k : PlanKind, planField k.shift 0 = 0 := fun k =>
    (planField_const_table _ k.shift_mem).2.2
  rcases bestIndex_cases pVtab cs us hlen with ⟨-, e⟩ | ⟨hr, hm, hb, e⟩
  · rw [e] at hB
    exact absurd (congrArg Prod.fst hB).symm hplan
  rw [e] at hB
  have hp : (bestIndexLoop 0 1 cs us).1 = plan := congrArg Prod.fst hB
  have ho : (bestIndexLoop 0 1 cs us).2.2 = out := congrArg Prod.snd hB
  have hwf := L.wf
  have hch := L.chosen hzero
  have hfield := L.field
  have hpick := L.pick
  have hpick0 := L.pick0
  rw [hp] at hb hwf
  simp only [hp, ho] at hch hfield hpick hpick0
  -- a chosen constraint on the column of `k` is a term of `k`, and the field is its position
  have hkind : ∀ k : PlanKind, ∀ cu ∈ cs.zip out, cu.2.argvIndex ≠ 0 →
      cu.1.iColumn = (k.col : Nat) →
      planTerm k cu.1 ∧ cu.2.argvIndex = (planField k.shift plan : Int) + 1 ∧
        planField k.shift plan ≠ 0 ∧
        (k = .distance → (plan &&& 2 ≠ 0 ↔ cu.1.op = SQLITE_INDEX_CONSTRAINT_LT)) := by
    intro k cu hcu hne hcol
    rcases hch cu hcu hne with ⟨h1, -⟩ | ⟨j, h1, -, h3, h4⟩
    · have := h1.2.1
      rw [hcol] at this
      exact absurd (by exact_mod_cast this) (PlanKind.col_ne_root k)
    · have := h1.2.1
      rw [hcol] at this
      have hjk : k = j := PlanKind.col_injective _ _ (by exact_mod_cast this)
      subst hjk
      exact ⟨h1, h3, (hfield k).2 (Or.inr ⟨cu.1, (List.of_mem_zip hcu).1, h1⟩), h4⟩
  have hroot : ∀ cu ∈ cs.zip out, cu.2.argvIndex ≠ 0 →
      cu.1.iColumn = (BFSVTAB_COL_ROOT : Nat) → cu.2.argvIndex = 1 := by
    intro cu hcu hne hcol
    rcases hch cu hcu hne with ⟨-, h2, -⟩ | ⟨j, h1, -⟩
    · exact h2
    · have := h1.2.1
      rw [hcol] at this
      exact absurd (by exact_mod_cast this.symm) (PlanKind.col_ne_root j)
  refine ⟨⟨?_, hwf.2.2.1, hwf.2.2.2⟩, ⟨fun h2 => ?_, ?_⟩, fun k => ⟨fun h0 => ?_, fun hn => ?_⟩,
    fun k cu hcu hne hcol => ?_, ⟨?_, hroot⟩, fun cuv hcuv hne => ⟨fun hcol => ?_,
      fun k hk hcol => ?_⟩⟩
  · have := Nat.and_one_is_mod plan
    omega
  · have h4 : planField 4 plan ≠ 0 := fun h => h2 (hwf.2.1 h)
    obtain ⟨cu, hcu, p1, p2⟩ := hpick .distance (f0 .distance) h4
    have hne : cu.2.argvIndex ≠ 0 := by
      rw [p2]
      omega
    refine ⟨cu, hcu, hne, p1.2.1, ?_⟩
    exact ((hkind .distance cu hcu hne p1.2.1).2.2.2 rfl).1 h2
  · rintro ⟨cu, hcu, hne, hcol, hop⟩
    exact ((hkind .distance cu hcu hne hcol).2.2.2 rfl).2 hop
  · rintro ⟨cu, hcu, hne, hcol⟩
    exact (hkind k cu hcu hne hcol).2.2.1 h0
  · by_contra hne
    obtain ⟨cu, hcu, p1, p2⟩ := hpick k (f0 k) hne
    refine hn ⟨cu, hcu, ?_, p1.2.1⟩
    rw [p2]
    omega
  · rw [(hkind k cu hcu hne hcol).2.1]
    omega
  · obtain ⟨cu, hcu, p1, p2⟩ := hpick0 (by decide) hb
    exact ⟨cu, hcu, p1.2.1, p2⟩
  · obtain ⟨m1, m2⟩ := mem_zip_zip cuv.1 cuv.2.1 cuv.2.2 cs out vals hcuv
    have h1 := hroot (cuv.1, cuv.2.1) m1 hne hcol
    have ha := hargv (cuv.2.1, cuv.2.2) m2 hne
    simp only at h1 ha
    rw [h1] at ha
    have ha0 : argv 0 = cuv.2.2 := ha
    refine ⟨ha0, fun hprep => ?_⟩
    rw [(filter_cursor_frame db pVtab pCur plan argv hb).2.2.2.2.2.1 hprep, ha0]
  · obtain ⟨m1, m2⟩ := mem_zip_zip cuv.1 cuv.2.1 cuv.2.2 cs out vals hcuv
    obtain ⟨-, k2, k3, -⟩ := hkind k (cuv.1, cuv.2.1) m1 hne hcol
    have ha := hargv (cuv.2.1, cuv.2.2) m2 hne
    simp only at k2 ha
    have hpos : (cuv.2.1.argvIndex - 1).toNat = planField k.shift plan := by
      rw [k2]
      omega
    rw [hpos] at ha
    rw [← ha]
    exact filter_reads_field k hk db pVtab pCur plan argv hb k3

set_option maxRecDepth 8192 in
theorem plan_roundtrip_witness :
    exampleConstraints.length = (zeroUsage 6).length ∧
    (∀ u ∈ zeroUsage 6, u.argvIndex = 0) ∧
    bfsvtabBestIndex exampleVtab exampleConstraints (zeroUsage 6) =
      (291, [⟨2, 1⟩, ⟨3, 0⟩, ⟨0, 0⟩, ⟨1, 1⟩, ⟨0, 0⟩, ⟨0, 0⟩]) ∧
    (291 : Nat) ≠ 0 ∧
    ArgvOrdered [⟨2, 1⟩, ⟨3, 0⟩, ⟨0, 0⟩, ⟨1, 1⟩, ⟨0, 0⟩, ⟨0, 0⟩] exampleValues
      (hostArgv [⟨2, 1⟩, ⟨3, 0⟩, ⟨0, 0⟩, ⟨1, 1⟩, ⟨0, 0⟩, ⟨0, 0⟩] exampleValues) ∧
    ((291 : Nat) &&& 1 = 1 ∧ (291 : Nat) &&& 12 = 0 ∧ (291 : Nat) >>> 24 = 0) ∧
    (planBinding .tablename exampleVtab 291
        (hostArgv [⟨2, 1⟩, ⟨3, 0⟩, ⟨0, 0⟩, ⟨1, 1⟩, ⟨0, 0⟩, ⟨0, 0⟩] exampleValues) =
        some "other" ∧
      cursorBinding .tablename
        (bfsvtabFilter (edgeDb cycleEdges) exampleVtab bfsvtabOpen 291
          (hostArgv [⟨2, 1⟩, ⟨3, 0⟩, ⟨0, 0⟩, ⟨1, 1⟩, ⟨0, 0⟩, ⟨0, 0⟩] exampleValues)).2.2 =
        some (fmt_s (some "other"))) :=
  ⟨rfl, by decide, by decide, by decide, by decide,
    (plan_roundtrip (edgeDb cycleEdges) exampleVtab bfsvtabOpen exampleConstraints
      (zeroUsage 6) [⟨2, 1⟩, ⟨3, 0⟩, ⟨0, 0⟩, ⟨1, 1⟩, ⟨0, 0⟩, ⟨0, 0⟩] 291 exampleValues
      (hostArgv [⟨2, 1⟩, ⟨3, 0⟩, ⟨0, 0⟩, ⟨1, 1⟩, ⟨0, 0⟩, ⟨0, 0⟩] exampleValues)
      rfl (by decide) (by decide) (by decide) (by decide)).1,
    ((plan_roundtrip (edgeDb cycleEdges) exampleVtab bfsvtabOpen exampleConstraints
      (zeroUsage 6) [⟨2, 1⟩, ⟨3, 0⟩, ⟨0, 0⟩, ⟨1, 1⟩, ⟨0, 0⟩, ⟨0, 0⟩] 291 exampleValues
      (hostArgv [⟨2, 1⟩, ⟨3, 0⟩, ⟨0, 0⟩, ⟨1, 1⟩, ⟨0, 0⟩, ⟨0, 0⟩] exampleValues)
      rfl (by decide) (by decide) (by decide) (by decide)).2.2.2.2.2
      (⟨BFSVTAB_COL_TABLENAME, SQLITE_INDEX_CONSTRAINT_EQ, 1⟩, ⟨2, 1⟩, textValue "other" 0)
      (by decide) (by decide)).2 .tablename (by decide) rfl⟩

/-! ## Search after a sequence of insertions -/

theorem firstRecords_congr (l : List (Int × Int)) :
    ∀ s s' : List Int, (∀ x, x ∈ s ↔ x ∈ s') → firstRecords s l = firstRecords s' l := by
  induction l with
  | nil => intro s s' _; rfl
  | cons e l ih =>
    intro s s' h
    simp only [firstRecords]
    by_cases he : e.1 ∈ s
    · rw [if_pos he, if_pos ((h _).1 he)]
      exact ih s s' h
    · rw [if_neg he, if_neg (fun h' => he ((h _).2 h'))]
      rw [ih (e.1 :: s) (e.1 :: s') (fun x => by simp [h x])]

theorem mem_firstRecords (l : List (Int × Int)) :
    ∀ (s : List Int) (e : Int × Int),
      e ∈ firstRecords s l ↔ e.1 ∉ s ∧ l.find? (fun x => x.1 = e.1) = some e := by
  induction l with
  | nil => intro s e; simp [firstRecords]
  | cons x l ih =>
    intro s e
    simp only [firstRecords]
    by_cases hx : x.1 ∈ s
    · rw [if_pos hx, ih s e]
      constructor
      · rintro ⟨h1, h2⟩
        have hne : ¬ x.1 = e.1 := fun h => h1 (h ▸ hx)
        exact ⟨h1, by rw [List.find?_cons_of_neg _ (by simpa using hne)]; exact h2⟩
      · rintro ⟨h1, h2⟩
        have hne : ¬ x.1 = e.1 := fun h => h1 (h ▸ hx)
        rw [List.find?_cons_of_neg _ (by simpa using hne)] at h2
        exact ⟨h1, h2⟩
    · rw [if_neg hx, List.mem_cons, ih (x.1 :: s) e]
      by_cases hxe : x.1 = e.1
      · rw [List.find?_cons_of_pos _ (by simpa using hxe)]
        constructor
        · rintro (rfl | ⟨h1, -⟩)
          · exact ⟨hx, rfl⟩
          · exact absurd (List.mem_cons.2 (Or.inl hxe.symm)) h1
        · rintro ⟨-, h2⟩
          exact Or.inl (Option.some.inj h2).symm
      · rw [List.find?_cons_of_neg _ (by simpa using hxe)]
        constructor
        · rintro (rfl | ⟨h1, h2⟩)
          · exact absurd rfl hxe
          · exact ⟨fun h => h1 (List.mem_cons_of_mem _ h), h2⟩
        · rintro ⟨h1, h2⟩
          refine Or.inr ⟨?_, h2⟩
          intro h
          rcases List.mem_cons.1 h with h | h
          · exact hxe h.symm
          · exact h1 h

/-- The entries of the tree after a sequence of insertions: the entries before, and the
records of the sequence that are the first with their id. -/
theorem insertAll_entries (l : List (Int × Int)) :
    ∀ t : bfsvtab_avl, t.Ordered →
      (bfsvtabAvlInsertAll t l).entries.Perm (t.entries ++ firstRecords t.ids l) := by
  induction l with
  | nil => intro t _; simp [bfsvtabAvlInsertAll, firstRecords]
  | cons e l ih =>
    intro t ht
    simp only [bfsvtabAvlInsertAll, List.foldl_cons, firstRecords]
    by_cases he : e.1 ∈ t.ids
    · rw [if_pos he, (insert_present e.1 e.2 t ht he).1.2]
      exact ih t ht
    · rw [if_neg he]
      have ho := insert_fresh_ordered e.1 e.2 t ht he
      have hp := insert_fresh_perm e.1 e.2 t ht he
      have h1 := ih _ ho
      simp only [bfsvtabAvlInsertAll] at h1
      refine h1.trans ?_
      have hc : firstRecords (bfsvtabAvlInsert t (newAvlNode e.1 e.2)).2.1.ids l =
          firstRecords (e.1 :: t.ids) l := by
        apply firstRecords_congr
        intro x
        have := (hp.map Prod.fst).mem_iff (a := x)
        simp only [bfsvtab_avl.ids]
        rw [this]
        simp [or_comm]
      rw [hc]
      refine (List.Perm.append_right _ hp).trans ?_
      simp

/-- C21: for every sequence `l` of `bfsvtabAvlInsert` calls, started from the empty tree
(`r = none`) or from the root entry that `bfsvtabFilter` installs (`r = some root`), and
every id `v`: the in-order ids of the resulting tree are strictly ascending; its entries are
the entries at the start and the records that were the first with their id, each once;
`bfsvtabAvlSearch` returns an entry iff `v` was at the start or among the inserted ids; the
entry it returns for an id that was not at the start is the first record inserted with that
id, with its parent; and for any other id it returns NULL. -/
theorem search_finds_first_inserted (r : Option Int) (l : List (Int × Int)) (v : Int) :
    (bfsvtabAvlInsertAll (avlStart r) l).Ordered ∧
    (bfsvtabAvlInsertAll (avlStart r) l).entries.Perm
      ((avlStart r).entries ++ firstRecords (avlStart r).ids l) ∧
    ((bfsvtabAvlSearch (bfsvtabAvlInsertAll (avlStart r) l) v).isNode ↔
      v ∈ (avlStart r).ids ∨ v ∈ l.map Prod.fst) ∧
    (∀ p : Int, v ∉ (avlStart r).ids → l.find? (fun e => e.1 = v) = some (v, p) →
      ∃ b a h i, bfsvtabAvlSearch (bfsvtabAvlInsertAll (avlStart r) l) v =
        .node v p b a h i) ∧
    (∀ p : Int, (v, p) ∈ (avlStart r).entries →
      ∃ b a h i, bfsvtabAvlSearch (bfsvtabAvlInsertAll (avlStart r) l) v =
        .node v p b a h i) ∧
    (v ∉ (avlStart r).ids → v ∉ l.map Prod.fst →
      bfsvtabAvlSearch (bfsvtabAvlInsertAll (avlStart r) l) v = .null) := by
  have ho := insertAll_ordered l _ (avlStart_ordered r)
  have hp := insertAll_entries l _ (avlStart_ordered r)
  have hmem : v ∈ (bfsvtabAvlInsertAll (avlStart r) l).ids ↔
      v ∈ (avlStart r).ids ∨ v ∈ l.map Prod.fst := by
    have := (hp.map Prod.fst).mem_iff (a := v)
    simp only [bfsvtab_avl.ids] at this ⊢
    rw [this, List.map_append, List.mem_append]
    constructor
    · rintro (h | h)
      · exact Or.inl h
      · obtain ⟨e, he, rfl⟩ := List.mem_map.1 h
        have := ((mem_firstRecords l _ e).1 he).2
        exact Or.inr (List.mem_map.2 ⟨e, List.mem_of_find?_eq_some this, rfl⟩)
    · rintro (h | h)
      · exact Or.inl h
      · by_cases hs : v ∈ (avlStart r).entries.map Prod.fst
        · exact Or.inl hs
        · right
          obtain ⟨e, he, rfl⟩ := List.mem_map.1 h
          have hsome : (l.find? (fun x => x.1 = e.1)).isSome := by
            rw [List.find?_isSome]
            exact ⟨e, he, by simp⟩
          obtain ⟨e', he'⟩ := Option.isSome_iff_exists.1 hsome
          have he1 : e'.1 = e.1 := by simpa using List.find?_some he'
          refine List.mem_map.2 ⟨e', (mem_firstRecords l _ e').2 ⟨?_, ?_⟩, he1⟩
          · rw [he1]; exact hs
          · rw [he1]; exact he'
  refine ⟨ho, hp, ?_, ?_, ?_, ?_⟩
  · rw [← hmem]
    constructor
    · intro h
      by_contra hn
      rw [(search_null_iff _ ho v).2 hn] at h
      exact h
    · intro h
      cases hs : bfsvtabAvlSearch (bfsvtabAvlInsertAll (avlStart r) l) v with
      | null => exact absurd h ((search_null_iff _ ho v).1 hs)
      | node _ _ _ _ _ _ => trivial
  · intro p hv hf
    apply search_of_mem _ ho
    rw [hp.mem_iff, List.mem_append]
    exact Or.inr ((mem_firstRecords l _ (v, p)).2 ⟨hv, hf⟩)
  · intro p hv
    apply search_of_mem _ ho
    rw [hp.mem_iff, List.mem_append]
    exact Or.inl hv
  · intro h1 h2
    apply (search_null_iff _ ho v).2
    rw [hmem]
    rintro (h | h)
    · exact h1 h
    · exact h2 h

/-! ## Reset of the cursor, and failures of the neighbour statement -/

/-- C24: `bfsvtabClearCursor` leaves the visited set, the queue, the current record and the
four cursor-local names as in a freshly opened cursor, on every cursor; but it stores nothing
into `pStmt`, `root` and `iRowid`.  On the cursor reached by `bfsvtabOpen` and a
`bfsvtabFilter` with root 1 over the cycle, the cleared cursor still holds the statement
handle it has just finalized and root 1, where the opened cursor has none and 0; after a
following `bfsvtabFilter` with plan 0 the handle is still there, so the next
`bfsvtabClearCursor` (of a close or a filter) hands the same handle to `sqlite3_finalize`
once more. -/
theorem clear_cursor_keeps_statement :
    (∀ c : bfsvtab_cursor,
      (bfsvtabClearCursor c).pVisited = bfsvtabOpen.pVisited ∧
      (bfsvtabClearCursor c).pQueue = bfsvtabOpen.pQueue ∧
      (bfsvtabClearCursor c).pCurrent = bfsvtabOpen.pCurrent ∧
      (bfsvtabClearCursor c).zTableName = bfsvtabOpen.zTableName ∧
      (bfsvtabClearCursor c).zFromColumn = bfsvtabOpen.zFromColumn ∧
      (bfsvtabClearCursor c).zToColumn = bfsvtabOpen.zToColumn ∧
      (bfsvtabClearCursor c).zOrderByColumn = bfsvtabOpen.zOrderByColumn) ∧
    (∀ c : bfsvtab_cursor,
      (bfsvtabClearCursor c).pStmt = c.pStmt ∧ (bfsvtabClearCursor c).root = c.root ∧
      (bfsvtabClearCursor c).iRowid = c.iRowid) ∧
    (Reached (bfsvtabFilter (edgeDb cycleEdges) exampleVtab bfsvtabOpen 1 (rootArgv 1)).2.2 ∧
      (bfsvtabClearCursor
        (bfsvtabFilter (edgeDb cycleEdges) exampleVtab bfsvtabOpen 1 (rootArgv 1)).2.2).pStmt =
        some (edgeStmt cycleEdges) ∧
      bfsvtabOpen.pStmt = none ∧
      (bfsvtabClearCursor
        (bfsvtabFilter (edgeDb cycleEdges) exampleVtab bfsvtabOpen 1 (rootArgv 1)).2.2).root =
        1 ∧
      bfsvtabOpen.root = 0) ∧
    (bfsvtabClearCursorFinalized
        (bfsvtabFilter (edgeDb cycleEdges) exampleVtab bfsvtabOpen 1 (rootArgv 1)).2.2 =
        some (edgeStmt cycleEdges) ∧
      bfsvtabClearCursorFinalized
        (bfsvtabFilter (edgeDb cycleEdges) exampleVtab
          (bfsvtabFilter (edgeDb cycleEdges) exampleVtab bfsvtabOpen 1 (rootArgv 1)).2.2
          0 (rootArgv 1)).2.2 = some (edgeStmt cycleEdges)) :=
  ⟨fun _ => ⟨rfl, rfl, rfl, rfl, rfl, rfl, rfl⟩, fun _ => ⟨rfl, rfl, rfl⟩,
    ⟨Reached.filter _ _ _ _ Reached.opened, rfl, rfl, rfl, rfl⟩, rfl, rfl⟩

/-- C25: whenever `bfsvtabNext` pulls a record and a statement is installed, the status it
returns is the one `sqlite3_reset` reports after the stepping, so a failed step is not
reported as success; but the error message of the virtual table is what it was before the
call.  On `failingDb`, whose statement fails with `SQLITE_IOERR` while stepping for id 2,
the `bfsvtabNext` call after the first row returns `SQLITE_IOERR` and the error message of
the table stays unset instead of holding the host's `disk I/O error`. -/
theorem next_failure_without_message :
    (∀ (pVtab : bfsvtab_vtab) (c : bfsvtab_cursor) (cur : bfsvtab_node) (q : bfsvtab_queue)
        (stmt : sqlite3_stmt),
      queuePull c.pQueue = (some cur, q) → c.pStmt = some stmt →
        (bfsvtabNext c).1 = stmt.reset cur.id ∧
        (bfsvtabNextVtab pVtab c).zErrMsg = pVtab.zErrMsg) ∧
    ((bfsvtabFilter failingDb exampleVtab bfsvtabOpen 1 (rootArgv 1)).1 = SQLITE_OK ∧
      (bfsvtabNext
        (bfsvtabFilter failingDb exampleVtab bfsvtabOpen 1 (rootArgv 1)).2.2).1 =
        SQLITE_IOERR ∧
      (bfsvtabNextVtab (bfsvtabFilter failingDb exampleVtab bfsvtabOpen 1 (rootArgv 1)).2.1
        (bfsvtabFilter failingDb exampleVtab bfsvtabOpen 1 (rootArgv 1)).2.2).zErrMsg =
        none ∧
      some failingDb.errmsg ≠
        (bfsvtabNextVtab (bfsvtabFilter failingDb exampleVtab bfsvtabOpen 1 (rootArgv 1)).2.1
          (bfsvtabFilter failingDb exampleVtab bfsvtabOpen 1 (rootArgv 1)).2.2).zErrMsg) := by
  refine ⟨fun pVtab c cur q stmt hq hs => ⟨?_, rfl⟩, by decide, by decide, rfl, by decide⟩
  unfold bfsvtabNext
  rw [hq]
  simp only [hs]

/-! ## Dequoting without a closing quote -/

/-- The loop of `bfsvtabDequote` reads no index beyond that of the terminator. -/
theorem dequoteFor_reads (zIn : List Char) (nIn : Nat) (q : Char) :
    ∀ (fuel iIn : Nat), ∀ i ∈ (bfsvtabDequoteFor zIn nIn q fuel iIn).2, i ≤ nIn := by
  intro fuel
  induction fuel with
  | zero => intro iIn i hi; simp [bfsvtabDequoteFor] at hi
  | succ n ih =>
    intro iIn i hi
    unfold bfsvtabDequoteFor at hi
    by_cases h1 : iIn < nIn
    · rw [if_pos h1] at hi
      by_cases h2 : zIn.getD iIn NUL = q
      · rw [if_pos h2] at hi
        simp only [List.mem_cons] at hi
        rcases hi with rfl | rfl | hi
        · omega
        · omega
        · exact ih _ i hi
      · rw [if_neg h2] at hi
        simp only [List.mem_cons] at hi
        rcases hi with rfl | rfl | hi
        · omega
        · omega
        · exact ih _ i hi
    · rw [if_neg h1] at hi
      simp at hi

/-- The bytes the index loop stores are those of `bfsvtabDequoteLoop` on the rest of the
input. -/
theorem dequoteFor_eq_loop (s : List Char) (q : Char) :
    ∀ (fuel iIn : Nat), s.length ≤ iIn + fuel →
      (bfsvtabDequoteFor (s ++ [NUL]) s.length q fuel iIn).1 =
        bfsvtabDequoteLoop q (s.drop iIn) := by
  intro fuel
  induction fuel with
  | zero =>
    intro iIn h
    rw [List.drop_eq_nil_of_le (by omega)]
    simp [bfsvtabDequoteFor, bfsvtabDequoteLoop]
  | succ n ih =>
    intro iIn h
    unfold bfsvtabDequoteFor
    by_cases h1 : iIn < s.length
    · rw [if_pos h1]
      have hd : s.drop iIn = s[iIn] :: s.drop (iIn + 1) := List.drop_eq_getElem_cons h1
      have hg : (s ++ [NUL]).getD iIn NUL = s[iIn] := by
        simp [List.getD_eq_getElem?_getD, List.getElem?_append_left h1, h1]
      rw [hg, hd]
      by_cases h2 : s[iIn] = q
      · rw [if_pos h2]
        simp only
        by_cases h3 : iIn + 1 < s.length
        · have hd2 : s.drop (iIn + 1) = s[iIn + 1] :: s.drop (iIn + 2) :=
            List.drop_eq_getElem_cons h3
          have hg2 : (s ++ [NUL]).getD (iIn + 1) NUL = s[iIn + 1] := by
            simp [List.getD_eq_getElem?_getD, List.getElem?_append_left h3, h3]
          rw [hg2, hd2, ih (iIn + 2) (by omega)]
          simp [bfsvtabDequoteLoop, h2]
        · have hl : iIn + 1 = s.length := by omega
          have hd2 : s.drop (iIn + 1) = [] := List.drop_eq_nil_of_le (by omega)
          have hg2 : (s ++ [NUL]).getD (iIn + 1) NUL = NUL := by
            rw [hl]
            simp [List.getD_eq_getElem?_getD]
          rw [hg2, hd2, ih (iIn + 2) (by omega), List.drop_eq_nil_of_le (by omega)]
          simp [bfsvtabDequoteLoop, h2]
      · rw [if_neg h2]
        simp only
        rw [ih (iIn + 1) (by omega), dequoteLoop_cons_ne q _ _ h2]
    · rw [if_neg h1, List.drop_eq_nil_of_le (by omega)]
      simp [bfsvtabDequoteLoop]

theorem nul_not_mem_cstr (l : List Char) : NUL ∉ cstr l := by
  unfold cstr
  intro h
  have := List.mem_takeWhile_imp h
  simp at this

theorem cstr_length_le (l : List Char) : (cstr l).length ≤ l.length := by
  unfold cstr
  exact (List.takeWhile_sublist _).length_le

theorem cstr_length_lt (l : List Char) (h : NUL ∈ l) : (cstr l).length < l.length := by
  induction l with
  | nil => simp at h
  | cons a l ih =>
    unfold cstr
    by_cases ha : a = NUL
    · simp [List.takeWhile, ha]
    · rcases List.mem_cons.1 h with h | h
      · exact absurd h.symm ha
      · have := ih h
        unfold cstr at this
        simp only [ne_eq, decide_not] at this
        simp [List.takeWhile, ha]
        exact this

theorem dequoteLoop_length (q : Char) :
    ∀ (n : Nat) (l : List Char), l.length ≤ n → (bfsvtabDequoteLoop q l).length ≤ l.length := by
  intro n
  induction n with
  | zero =>
    intro l h
    have : l = [] := List.length_eq_zero.1 (by omega)
    subst this
    simp [bfsvtabDequoteLoop]
  | succ n ih =>
    intro l h
    match l with
    | [] => simp [bfsvtabDequoteLoop]
    | [c] =>
      simp only [bfsvtabDequoteLoop]
      split_ifs <;> simp
    | c :: c2 :: rest =>
      simp only [bfsvtabDequoteLoop]
      split_ifs
      · have := ih rest (by simp at h; omega)
        simp
        omega
      · have := ih (c2 :: rest) (by simp at h ⊢; omega)
        simp at this ⊢
        omega

/-- C27: for the inputs `"abc` (no closing quote), `"abc"xyz` (text after the closing quote)
and `"` the loop of `bfsvtabDequote` stores `abc`, `abcxyz` and nothing into the output
buffer, and no terminator: the function returns a buffer that holds no C string.  For every
input that opens with a quote character the bytes stored are those of the index loop of the
code, which reads no index beyond that of the input's terminator; and whenever a terminator
is stored, the output is no longer than the input, as the final assertion wants. -/
theorem dequote_unterminated :
    (bfsvtabDequoteBytes "\"abc".data = ['a', 'b', 'c'] ∧ bfsvtabDequote "\"abc" = none) ∧
    (bfsvtabDequoteBytes "\"abc\"xyz".data = ['a', 'b', 'c', 'x', 'y', 'z'] ∧
      bfsvtabDequote "\"abc\"xyz" = none) ∧
    (bfsvtabDequoteBytes "\"".data = [] ∧ bfsvtabDequote "\"" = none) ∧
    (∀ (zIn : List Char) (o : Char) (rest : List Char), cstr zIn = o :: rest →
      ¬ (o ≠ Char.ofNat 91 ∧ o ≠ Char.ofNat 39 ∧ o ≠ Char.ofNat 34 ∧ o ≠ Char.ofNat 96) →
      bfsvtabDequoteBytes zIn =
        (bfsvtabDequoteFor (cstr zIn ++ [NUL]) (cstr zIn).length
          (if o = Char.ofNat 91 then Char.ofNat 93 else o) (cstr zIn).length 1).1 ∧
      ∀ i ∈ (bfsvtabDequoteFor (cstr zIn ++ [NUL]) (cstr zIn).length
          (if o = Char.ofNat 91 then Char.ofNat 93 else o) (cstr zIn).length 1).2,
        i ≤ (cstr zIn).length) ∧
    (∀ (zIn out : String), bfsvtabDequote zIn = some out →
      out.length ≤ (cstr zIn.data).length) := by
  refine ⟨⟨by decide, by decide⟩, ⟨by decide, by decide⟩, ⟨by decide, by decide⟩, ?_, ?_⟩
  · intro zIn o rest hc ho
    refine ⟨?_, dequoteFor_reads _ _ _ _ _⟩
    unfold bfsvtabDequoteBytes
    rw [hc]
    simp only
    rw [if_neg ho, dequoteFor_eq_loop (o :: rest) _ _ 1 (by omega)]
    rfl
  · intro zIn out h
    unfold bfsvtabDequote at h
    by_cases hn : NUL ∈ bfsvtabDequoteBytes zIn.data
    · rw [if_pos hn] at h
      have hout : out = String.mk (cstr (bfsvtabDequoteBytes zIn.data)) :=
        (Option.some.inj h).symm
      rw [hout]
      show (cstr (bfsvtabDequoteBytes zIn.data)).length ≤ _
      have hlt := cstr_length_lt _ hn
      unfold bfsvtabDequoteBytes at hlt ⊢
      cases hc : cstr zIn.data with
      | nil => simp [cstr, List.takeWhile, NUL]
      | cons o rest =>
        rw [hc] at hlt
        simp only at hlt ⊢
        by_cases ho : o ≠ Char.ofNat 91 ∧ o ≠ Char.ofNat 39 ∧ o ≠ Char.ofNat 34 ∧
            o ≠ Char.ofNat 96
        · rw [if_pos ho] at hlt ⊢
          have hnn : NUL ∉ o :: rest := by
            rw [← hc]
            exact nul_not_mem_cstr _
          rw [cstr_append_nul _ hnn]
        · rw [if_neg ho] at hlt ⊢
          have := dequoteLoop_length (if o = Char.ofNat 91 then Char.ofNat 93 else o)
            rest.length rest le_rfl
          simp only [List.length_cons]
          omega
    · rw [if_neg hn] at h
      exact absurd h (by simp)

/-! ## The current record between the calls of the host -/

theorem nextRows_ok (cur : bfsvtab_node) (rs : List sqlite3_value) :
    ∀ (vis : bfsvtab_avl) (q : bfsvtab_queue), vis.Ordered → QWf q →
      (∀ n ∈ q.pFirst, entryOf n ∈ vis.entries) →
      (rs.foldl (bfsvtabNextRow cur) (vis, q)).1.Ordered ∧
      QWf (rs.foldl (bfsvtabNextRow cur) (vis, q)).2 ∧
      (∀ n ∈ (rs.foldl (bfsvtabNextRow cur) (vis, q)).2.pFirst,
        entryOf n ∈ (rs.foldl (bfsvtabNextRow cur) (vis, q)).1.entries) ∧
      (∀ e ∈ vis.entries, e ∈ (rs.foldl (bfsvtabNextRow cur) (vis, q)).1.entries) := by
  induction rs with
  | nil => intro vis q h1 h2 h3; exact ⟨h1, h2, h3, fun e he => he⟩
  | cons r rs ih =>
    intro vis q h1 h2 h3
    rw [List.foldl_cons]
    have key : (bfsvtabNextRow cur (vis, q) r).1.Ordered ∧
        QWf (bfsvtabNextRow cur (vis, q) r).2 ∧
        (∀ n ∈ (bfsvtabNextRow cur (vis, q) r).2.pFirst,
          entryOf n ∈ (bfsvtabNextRow cur (vis, q) r).1.entries) ∧
        (∀ e ∈ vis.entries, e ∈ (bfsvtabNextRow cur (vis, q) r).1.entries) := by
      unfold bfsvtabNextRow
      by_cases hty : r.type = SQLITE_INTEGER
      · simp only [hty, ↓reduceIte]
        cases hs : bfsvtabAvlSearch vis r.int64 with
        | node _ _ _ _ _ _ => exact ⟨h1, h2, h3, fun e he => he⟩
        | null =>
          simp only
          have hfresh : r.int64 ∉ vis.ids := (search_null_iff vis h1 _).mp hs
          have hp := insert_fresh_perm r.int64 cur.id vis h1 hfresh
          obtain ⟨q1, q2⟩ := queuePush_wf q h2
            { id := r.int64, parent := cur.id, distance := cur.distance + 1 }
          refine ⟨insert_fresh_ordered _ _ vis h1 hfresh, q2, ?_, ?_⟩
          · intro n hn
            rw [q1, List.mem_append, List.mem_singleton] at hn
            rw [hp.mem_iff, List.mem_append, List.mem_singleton]
            rcases hn with hn | rfl
            · exact Or.inl (h3 n hn)
            · exact Or.inr rfl
          · intro e he
            rw [hp.mem_iff, List.mem_append]
            exact Or.inl he
      · simp only [hty, ↓reduceIte]
        exact ⟨h1, h2, h3, fun e he => he⟩
    obtain ⟨k1, k2, k3, k4⟩ := key
    obtain ⟨g1, g2, g3, g4⟩ := ih _ _ k1 k2 k3
    exact ⟨g1, g2, g3, fun e he => g4 e (k4 e he)⟩

/-- After `bfsvtabNext`, whatever status it returns: the cursor is as the host may find it
between calls. -/
theorem next_ok (c : bfsvtab_cursor) (h : TraversalOk c) : CursorOk (bfsvtabNext c).2 := by
  obtain ⟨h1, h2, h3⟩ := h
  cases hq : c.pQueue.pFirst with
  | nil =>
    have hn : bfsvtabNext c = (SQLITE_OK, { c with pCurrent := none, pQueue := c.pQueue }) := by
      unfold bfsvtabNext queuePull
      rw [hq]
    rw [hn]
    refine ⟨⟨h1, h2, ?_⟩, fun _ => hq, fun cur hc => by simp at hc⟩
    intro n hn'
    simp only at hn'
    rw [hq] at hn'
    simp at hn'
  | cons p rest =>
    obtain ⟨p1, p2, p3⟩ := queuePull_wf c.pQueue h2 p rest hq
    have hpull : queuePull c.pQueue = (some p, (queuePull c.pQueue).2) := by
      rw [← p1]
    have hp : entryOf p ∈ c.pVisited.entries := h3 p (by rw [hq]; simp)
    have hrest : ∀ n ∈ (queuePull c.pQueue).2.pFirst, entryOf n ∈ c.pVisited.entries := by
      intro n hn
      rw [p2] at hn
      exact h3 n (by rw [hq]; exact List.mem_cons_of_mem _ hn)
    cases hst : c.pStmt with
    | none =>
      have hn : bfsvtabNext c = (SQLITE_MISUSE,
          { c with pCurrent := some p, pQueue := (queuePull c.pQueue).2 }) := by
        unfold bfsvtabNext
        rw [hpull]
        simp only [hst]
      rw [hn]
      refine ⟨⟨h1, p3, hrest⟩, fun hc => by simp at hc, fun cur hc => ?_⟩
      simp only [Option.some.injEq] at hc
      subst hc
      exact hp
    | some stmt =>
      have hn : bfsvtabNext c = (stmt.reset p.id,
          { c with
            pCurrent := some p
            pVisited := ((stmt.step p.id).foldl (bfsvtabNextRow p)
              (c.pVisited, (queuePull c.pQueue).2)).1
            pQueue := ((stmt.step p.id).foldl (bfsvtabNextRow p)
              (c.pVisited, (queuePull c.pQueue).2)).2 }) := by
        unfold bfsvtabNext
        rw [hpull]
        simp only [hst]
      obtain ⟨g1, g2, g3, g4⟩ := nextRows_ok p (stmt.step p.id) c.pVisited
        (queuePull c.pQueue).2 h1 p3 hrest
      rw [hn]
      refine ⟨⟨g1, g2, g3⟩, fun hc => by simp at hc, fun cur hc => ?_⟩
      simp only [Option.some.injEq] at hc
      subst hc
      exact g4 _ hp

theorem clear_ok (c : bfsvtab_cursor) : CursorOk (bfsvtabClearCursor c) := by
  refine ⟨⟨?_, rfl, ?_⟩, fun _ => rfl, fun cur hc => ?_⟩
  · simp [bfsvtabClearCursor, bfsvtab_avl.Ordered, bfsvtab_avl.ids, bfsvtab_avl.entries]
  · intro n hn
    simp [bfsvtabClearCursor] at hn
  · simp [bfsvtabClearCursor] at hc

/-- After `bfsvtabFilter`, whatever status it returns: the cursor is as the host may find it
between calls. -/
theorem filter_ok (db : sqlite3) (pVtab : bfsvtab_vtab) (c : bfsvtab_cursor) (idxNum : Nat)
    (argv : Nat → sqlite3_value) : CursorOk (bfsvtabFilter db pVtab c idxNum argv).2.2 := by
  by_cases hbit : idxNum &&& 1 = 0
  · rw [filter_noroot db pVtab c idxNum argv hbit]
    exact clear_ok c
  · rw [filter_root_eq db pVtab c idxNum argv hbit]
    by_cases hp : (db.prepare (planSql pVtab idxNum argv)).1 ≠ 0
    · rw [if_pos hp]
      refine ⟨⟨?_, rfl, ?_⟩, fun _ => rfl, fun cur hc => ?_⟩
      · simp [planCursor, bfsvtabClearCursor, bfsvtab_avl.Ordered, bfsvtab_avl.ids,
          bfsvtab_avl.entries]
      · intro n hn
        simp [planCursor, bfsvtabClearCursor] at hn
      · simp [planCursor, bfsvtabClearCursor] at hc
    · rw [if_neg hp]
      apply next_ok
      refine ⟨?_, ?_, ?_⟩
      · simp [seedCursor, bfsvtab_avl.Ordered, bfsvtab_avl.ids, bfsvtab_avl.entries]
      · simp [seedCursor, QWf]
      · intro n hn
        simp only [seedCursor, List.mem_singleton] at hn
        subst hn
        simp [seedCursor, bfsvtab_avl.entries, entryOf]

theorem reached_ok (c : bfsvtab_cursor) (h : Reached c) : CursorOk c := by
  induction h with
  | opened =>
    refine ⟨⟨?_, rfl, ?_⟩, fun _ => rfl, fun cur hc => ?_⟩
    · simp [bfsvtabOpen, bfsvtab_avl.Ordered, bfsvtab_avl.ids, bfsvtab_avl.entries]
    · intro n hn
      simp [bfsvtabOpen] at hn
    · simp [bfsvtabOpen] at hc
  | filter db pVtab idxNum argv _ _ => exact filter_ok db pVtab _ idxNum argv
  | next _ ih => exact next_ok _ ih.1

theorem column_of_current (fuel : Nat) (pVtab : bfsvtab_vtab) (c : bfsvtab_cursor) (i : Nat)
    (cur : bfsvtab_node) (hc : c.pCurrent = some cur) :
    bfsvtabColumn fuel pVtab c i ≠ .error .nullDeref := by
  unfold bfsvtabColumn
  rw [hc]
  simp only
  by_cases h0 : i = BFSVTAB_COL_ID
  · rw [if_pos h0]; intro h; cases h
  rw [if_neg h0]
  by_cases h1 : i = BFSVTAB_COL_PARENT
  · rw [if_pos h1]
    by_cases hr : cur.id = c.root
    · rw [if_pos hr]; intro h; cases h
    · rw [if_neg hr]; intro h; cases h
  rw [if_neg h1]
  by_cases h2 : i = BFSVTAB_COL_DISTANCE
  · rw [if_pos h2]; intro h; cases h
  rw [if_neg h2]
  by_cases h3 : i = BFSVTAB_COL_SHORTEST_PATH
  · rw [if_pos h3]
    cases bfsvtabBuildShortestPathStr fuel "" c.pVisited cur.id with
    | none => intro h; cases h
    | some s => intro h; cases h
  rw [if_neg h3]
  by_cases h4 : i = BFSVTAB_COL_ROOT
  · rw [if_pos h4]; intro h; cases h
  rw [if_neg h4]
  by_cases h5 : i = BFSVTAB_COL_TABLENAME
  · rw [if_pos h5]; intro h; cases h
  rw [if_neg h5]
  by_cases h6 : i = BFSVTAB_COL_FROMCOLUMN
  · rw [if_pos h6]; intro h; cases h
  rw [if_neg h6]
  by_cases h7 : i = BFSVTAB_COL_TOCOLUMN
  · rw [if_pos h7]; intro h; cases h
  rw [if_neg h7]
  intro h; cases h

/-- C26: in every cursor state the host reaches by `bfsvtabOpen` and calls of
`bfsvtabFilter` and `bfsvtabNext`, whatever they returned, `bfsvtabEof` is false iff the
current record is present.  When `bfsvtabEof` is false, `bfsvtabRowid` and `bfsvtabColumn`
(at any column) do not read through a NULL current record, and the visited set holds the
entry of the current record: the lookup of the path builder finds its id, with the parent
of the record. -/
theorem eof_iff_no_current (c : bfsvtab_cursor) (h : Reached c) :
    (bfsvtabEof c = false ↔ c.pCurrent.isSome = true) ∧
    (bfsvtabEof c = false →
      bfsvtabRowid c ≠ .error .nullDeref ∧
      (∀ (fuel : Nat) (pVtab : bfsvtab_vtab) (i : Nat),
        bfsvtabColumn fuel pVtab c i ≠ .error .nullDeref) ∧
      ∃ cur, c.pCurrent = some cur ∧ bfsvtabRowid c = .ok cur.id ∧
        ∃ b a hh im, bfsvtabAvlSearch c.pVisited cur.id = .node cur.id cur.parent b a hh im) := by
  obtain ⟨⟨h1, -, -⟩, h4, h5⟩ := reached_ok c h
  have hiff : bfsvtabEof c = false ↔ c.pCurrent.isSome = true := by
    unfold bfsvtabEof
    cases hc : c.pCurrent with
    | none => simp [h4 hc]
    | some cur => simp
  refine ⟨hiff, fun he => ?_⟩
  obtain ⟨cur, hc⟩ := Option.isSome_iff_exists.1 (hiff.1 he)
  exact ⟨by simp [bfsvtabRowid, hc],
    fun fuel pVtab i => column_of_current fuel pVtab c i cur hc,
    cur, hc, by simp [bfsvtabRowid, hc], search_of_mem _ h1 (h5 cur hc)⟩

theorem eof_iff_no_current_witness :
    Reached (bfsvtabFilter (edgeDb cycleEdges) exampleVtab bfsvtabOpen 1 (rootArgv 1)).2.2 ∧
    bfsvtabEof (bfsvtabFilter (edgeDb cycleEdges) exampleVtab bfsvtabOpen 1
      (rootArgv 1)).2.2 = false ∧
    ((bfsvtabFilter (edgeDb cycleEdges) exampleVtab bfsvtabOpen 1
      (rootArgv 1)).2.2.pCurrent.isSome = true) :=
  ⟨Reached.filter _ _ _ _ Reached.opened, by decide,
    (eof_iff_no_current _ (Reached.filter _ _ _ _ Reached.opened)).1.1 (by decide)⟩

/-! ## The order of discovery and of emission -/

theorem discovered_congr (cur : bfsvtab_node) (rs : List sqlite3_value) :
    ∀ s s' : List Int, (∀ x, x ∈ s ↔ x ∈ s') → discovered cur s rs = discovered cur s' rs := by
  induction rs with
  | nil => intro s s' _; rfl
  | cons r rs ih =>
    intro s s' h
    simp only [discovered]
    by_cases hc : r.type = SQLITE_INTEGER ∧ r.int64 ∉ s
    · have hc' : r.type = SQLITE_INTEGER ∧ r.int64 ∉ s' := ⟨hc.1, fun h' => hc.2 ((h _).2 h')⟩
      rw [if_pos hc, if_pos hc', ih (r.int64 :: s) (r.int64 :: s') (fun x => by simp [h x])]
    · have hc' : ¬ (r.type = SQLITE_INTEGER ∧ r.int64 ∉ s') :=
        fun h' => hc ⟨h'.1, fun h'' => h'.2 ((h _).1 h'')⟩
      rw [if_neg hc, if_neg hc']
      exact ih s s' h

theorem discovered_spec (cur : bfsvtab_node) (rs : List sqlite3_value) :
    ∀ (s : List Int), ∀ n ∈ discovered cur s rs,
      n.parent = cur.id ∧ n.distance = cur.distance + 1 ∧ n.id ∉ s ∧
        ∃ r ∈ rs, r.type = SQLITE_INTEGER ∧ r.int64 = n.id := by
  induction rs with
  | nil => intro s n hn; simp [discovered] at hn
  | cons r rs ih =>
    intro s n hn
    simp only [discovered] at hn
    by_cases hc : r.type = SQLITE_INTEGER ∧ r.int64 ∉ s
    · rw [if_pos hc] at hn
      rcases List.mem_cons.1 hn with rfl | hn
      · exact ⟨rfl, rfl, hc.2, r, List.mem_cons_self _ _, hc.1, rfl⟩
      · obtain ⟨h1, h2, h3, r', hr', h4⟩ := ih _ n hn
        exact ⟨h1, h2, fun h => h3 (List.mem_cons_of_mem _ h), r', List.mem_cons_of_mem _ hr', h4⟩
    · rw [if_neg hc] at hn
      obtain ⟨h1, h2, h3, r', hr', h4⟩ := ih _ n hn
      exact ⟨h1, h2, h3, r', List.mem_cons_of_mem _ hr', h4⟩

theorem firstRow_cons (v : Int) (r : sqlite3_value) (rs : List sqlite3_value) :
    firstRow v (r :: rs) =
      if r.type = SQLITE_INTEGER ∧ r.int64 = v then 0 else firstRow v rs + 1 := by
  unfold firstRow
  rw [List.findIdx_cons]
  by_cases h : r.type = SQLITE_INTEGER ∧ r.int64 = v
  · simp [h]
  · rw [if_neg h]
    simp [h]

/-- Records discovered from one parent are in the order in which their ids first occur among
the rows. -/
theorem discovered_pairwise (cur : bfsvtab_node) (rs : List sqlite3_value) :
    ∀ (s : List Int), (discovered cur s rs).Pairwise
      fun a b => firstRow a.id rs < firstRow b.id rs := by
  induction rs with
  | nil => intro s; simp [discovered]
  | cons r rs ih =>
    intro s
    simp only [discovered]
    by_cases hc : r.type = SQLITE_INTEGER ∧ r.int64 ∉ s
    · rw [if_pos hc, List.pairwise_cons]
      constructor
      · intro b hb
        have hb' := (discovered_spec cur rs _ b hb).2.2.1
        have hne : ¬ (r.type = SQLITE_INTEGER ∧ r.int64 = b.id) :=
          fun h => hb' (List.mem_cons.2 (Or.inl h.2.symm))
        rw [firstRow_cons, firstRow_cons, if_pos ⟨hc.1, rfl⟩, if_neg hne]
        omega
      · refine (ih _).imp_of_mem ?_
        intro a b ha hb hab
        have ha' := (discovered_spec cur rs _ a ha).2.2.1
        have hb' := (discovered_spec cur rs _ b hb).2.2.1
        have hna : ¬ (r.type = SQLITE_INTEGER ∧ r.int64 = a.id) :=
          fun h => ha' (List.mem_cons.2 (Or.inl h.2.symm))
        have hnb : ¬ (r.type = SQLITE_INTEGER ∧ r.int64 = b.id) :=
          fun h => hb' (List.mem_cons.2 (Or.inl h.2.symm))
        rw [firstRow_cons, firstRow_cons, if_neg hna, if_neg hnb]
        omega
    · rw [if_neg hc]
      refine (ih _).imp_of_mem ?_
      intro a b ha hb hab
      have ha' := (discovered_spec cur rs _ a ha).2.2.1
      have hb' := (discovered_spec cur rs _ b hb).2.2.1
      have hna : ¬ (r.type = SQLITE_INTEGER ∧ r.int64 = a.id) :=
        fun h => hc ⟨h.1, by rw [h.2]; exact ha'⟩
      have hnb : ¬ (r.type = SQLITE_INTEGER ∧ r.int64 = b.id) :=
        fun h => hc ⟨h.1, by rw [h.2]; exact hb'⟩
      rw [firstRow_cons, firstRow_cons, if_neg hna, if_neg hnb]
      omega

/-- The loop of `bfsvtabNext` over the rows appends to the queue exactly the records
`discovered` lists. -/
theorem nextRows_queue (cur : bfsvtab_node) (rs : List sqlite3_value) :
    ∀ (vis : bfsvtab_avl) (q : bfsvtab_queue), vis.Ordered → QWf q →
      (rs.foldl (bfsvtabNextRow cur) (vis, q)).2.pFirst =
        q.pFirst ++ discovered cur vis.ids rs := by
  induction rs with
  | nil => intro vis q _ _; simp [discovered]
  | cons r rs ih =>
    intro vis q h1 h2
    rw [List.foldl_cons]
    simp only [discovered]
    by_cases hty : r.type = SQLITE_INTEGER
    · cases hs : bfsvtabAvlSearch vis r.int64 with
      | node i p b a hh im =>
        have hmem : r.int64 ∈ vis.ids := by
          by_contra hc
          rw [(search_null_iff vis h1 _).mpr hc] at hs
          exact bfsvtab_avl.noConfusion hs
        have hrow : bfsvtabNextRow cur (vis, q) r = (vis, q) := by
          unfold bfsvtabNextRow
          simp only [hty, ↓reduceIte, hs]
        rw [hrow, if_neg (fun h => h.2 hmem)]
        exact ih vis q h1 h2
      | null =>
        have hfresh : r.int64 ∉ vis.ids := (search_null_iff vis h1 _).mp hs
        have hrow : bfsvtabNextRow cur (vis, q) r =
            ((bfsvtabAvlInsert vis (newAvlNode r.int64 cur.id)).2.1,
              queuePush q { id := r.int64, parent := cur.id, distance := cur.distance + 1 }) := by
          unfold bfsvtabNextRow
          simp only [hty, ↓reduceIte, hs]
        obtain ⟨q1, q2⟩ := queuePush_wf q h2
          { id := r.int64, parent := cur.id, distance := cur.distance + 1 }
        have hp := insert_fresh_perm r.int64 cur.id vis h1 hfresh
        rw [hrow, if_pos ⟨hty, hfresh⟩, ih _ _ (insert_fresh_ordered _ _ vis h1 hfresh) q2, q1,
          List.append_assoc, List.singleton_append]
        congr 2
        apply discovered_congr
        intro x
        have := (hp.map Prod.fst).mem_iff (a := x)
        simp only [bfsvtab_avl.ids]
        rw [this]
        simp [or_comm]
    · have hrow : bfsvtabNextRow cur (vis, q) r = (vis, q) := by
        unfold bfsvtabNextRow
        simp only [hty, ↓reduceIte]
      rw [hrow, if_neg (fun h => hty h.1)]
      exact ih vis q h1 h2

theorem disc_init (stmt : sqlite3_stmt) (root : Int) :
    Disc stmt root [] [{ id := root, parent := root, distance := 0 }] :=
  { first := by
      intro x hx hr
      simp only [List.nil_append, List.mem_singleton] at hx
      subst hx
      exact absurd rfl hr
    byParent := by simp
    siblings := by simp }

/-- Expanding the head of the queue keeps the order of discovery. -/
theorem disc_next (stmt : sqlite3_stmt) (root : Int) (X : List bfsvtab_node)
    (q0 : bfsvtab_node) (rest : List bfsvtab_node) (vis : bfsvtab_avl) (seen : List Int)
    (hinv : Inv stmt root (Edge stmt) X (q0 :: rest) vis)
    (hd : Disc stmt root X (q0 :: rest))
    (hseen : ∀ v, v ∈ seen ↔ v ∈ (X ++ q0 :: rest).map (·.id)) :
    Disc stmt root (X ++ [q0]) (rest ++ discovered q0 seen (stmt.step q0.id)) := by
  have hL : (X ++ [q0]) ++ (rest ++ discovered q0 seen (stmt.step q0.id)) =
      (X ++ q0 :: rest) ++ discovered q0 seen (stmt.step q0.id) := by simp
  have hnd := hinv.nodup
  have hq0X : q0.id ∉ X.map (·.id) := by
    rw [List.map_append, List.nodup_append] at hnd
    intro h
    exact hnd.2.2 h (by simp)
  have hpar : ∀ x ∈ X ++ q0 :: rest, x.id ≠ root → x.parent ∈ X.map (·.id) := by
    intro x hx hr
    obtain ⟨y, hy, hyp, -⟩ := hinv.par x hx hr
    exact List.mem_map.2 ⟨y, hy, hyp⟩
  have hnew := discovered_spec q0 (stmt.step q0.id) seen
  have hidx : ∀ x ∈ X ++ q0 :: rest, x.id ≠ root →
      ((X ++ [q0]).map (·.id)).indexOf x.parent = (X.map (·.id)).indexOf x.parent ∧
      (X.map (·.id)).indexOf x.parent < X.length := by
    intro x hx hr
    have hm := hpar x hx hr
    rw [List.map_append, List.indexOf_append_of_mem hm]
    exact ⟨rfl, by simpa using List.indexOf_lt_length.2 hm⟩
  have hidxn : ∀ n ∈ discovered q0 seen (stmt.step q0.id),
      ((X ++ [q0]).map (·.id)).indexOf n.parent = X.length := by
    intro n hn
    rw [(hnew n hn).1, List.map_append, List.indexOf_append_of_not_mem hq0X]
    simp
  refine { first := ?_, byParent := ?_, siblings := ?_ }
  · intro x hx hr
    rw [hL, List.mem_append] at hx
    rcases hx with hx | hx
    · obtain ⟨X1, y, X2, e1, e2, e3, e4⟩ := hd.first x hx hr
      exact ⟨X1, y, X2 ++ [q0], by rw [e1]; simp, e2, e3, e4⟩
    · obtain ⟨n1, -, n3, r, hr1, hr2, hr3⟩ := hnew x hx
      refine ⟨X, q0, [], rfl, n1.symm, ⟨r, hr1, hr2, hr3⟩, ?_⟩
      intro u hu hE
      obtain ⟨z, hz, hzid, -⟩ := hinv.exp u hu x.id hE
      exact n3 ((hseen _).2 (List.mem_map.2 ⟨z, hz, hzid⟩))
  · rw [hL, List.pairwise_append]
    refine ⟨hd.byParent.imp_of_mem ?_, (discovered_pairwise q0 _ seen).imp_of_mem ?_, ?_⟩
    · intro a b ha hb hab har hbr
      rw [(hidx a ha har).1, (hidx b hb hbr).1]
      exact hab har hbr
    · intro a b ha hb _ _ _
      rw [hidxn a ha, hidxn b hb]
    · intro a ha b hb har _
      rw [(hidx a ha har).1, hidxn b hb]
      exact le_of_lt (hidx a ha har).2
  · rw [hL, List.pairwise_append]
    refine ⟨hd.siblings, (discovered_pairwise q0 _ seen).imp_of_mem ?_, ?_⟩
    · intro a b ha _ hab _ _ _
      rw [(hnew a ha).1]
      exact hab
    · intro a ha b hb har _ hp
      have := hpar a ha har
      rw [hp, (hnew b hb).1] at this
      exact absurd this hq0X

theorem next_queue (c : bfsvtab_cursor) (stmt : sqlite3_stmt) (q0 : bfsvtab_node)
    (rest : List bfsvtab_node) (hst : c.pStmt = some stmt)
    (hq : c.pQueue.pFirst = q0 :: rest) (hwf : QWf c.pQueue) (hord : c.pVisited.Ordered) :
    (bfsvtabNext c).2.pQueue.pFirst =
      rest ++ discovered q0 c.pVisited.ids (stmt.step q0.id) := by
  obtain ⟨p1, p2, p3⟩ := queuePull_wf c.pQueue hwf q0 rest hq
  have hpull : queuePull c.pQueue = (some q0, (queuePull c.pQueue).2) := by
    rw [← p1]
  have hn : bfsvtabNext c = (stmt.reset q0.id,
      { c with
        pCurrent := some q0
        pVisited := ((stmt.step q0.id).foldl (bfsvtabNextRow q0)
          (c.pVisited, (queuePull c.pQueue).2)).1
        pQueue := ((stmt.step q0.id).foldl (bfsvtabNextRow q0)
          (c.pVisited, (queuePull c.pQueue).2)).2 }) := by
    unfold bfsvtabNext
    rw [hpull]
    simp only [hst]
  rw [hn]
  simp only
  rw [nextRows_queue q0 _ _ _ hord p3, p2]

theorem GoodOrder.next_order {stmt : sqlite3_stmt} {root : Int} {c : bfsvtab_cursor}
    {Xs : List bfsvtab_node} {cur q0 : bfsvtab_node} {rest : List bfsvtab_node}
    (h : GoodOrder stmt root c Xs cur (q0 :: rest)) :
    ∃ Qn, GoodOrder stmt root (bfsvtabNext c).2 (Xs ++ [cur]) q0 (rest ++ Qn) := by
  obtain ⟨hg, hd⟩ := h
  obtain ⟨Qn, hg', -⟩ := hg.next
  obtain ⟨h1, h2, h3, h4, h5, h6⟩ := hg
  have hq := next_queue c stmt q0 rest h2 h4 h5 h6.ordered
  have hQn : Qn = discovered q0 c.pVisited.ids (stmt.step q0.id) := by
    have := hg'.2.2.2.1
    rw [hq] at this
    exact (List.append_cancel_left this).symm
  refine ⟨Qn, hg', ?_⟩
  rw [hQn]
  exact disc_next stmt root _ q0 rest c.pVisited _ h6 hd (fun v => h6.ids_eq.mem_iff)

/-- After a successful `bfsvtabFilter` with a root-bearing plan the cursor stands at the
root record, with the traversal invariant and the order of discovery. -/
theorem filter_good_order (db : sqlite3) (pVtab : bfsvtab_vtab) (pCur : bfsvtab_cursor)
    (idxNum : Nat) (argv : Nat → sqlite3_value) (hbit : idxNum &&& 1 ≠ 0)
    (hrc : (bfsvtabFilter db pVtab pCur idxNum argv).1 = SQLITE_OK) :
    ∃ stmt Q, GoodOrder stmt (argv 0).int64 (bfsvtabFilter db pVtab pCur idxNum argv).2.2 []
      { id := (argv 0).int64, parent := (argv 0).int64, distance := 0 } Q := by
  obtain ⟨stmt, Q, hG⟩ := filter_good db pVtab pCur idxNum argv hbit hrc
  refine ⟨stmt, Q, hG, ?_⟩
  have hst := hG.2.1
  have hQ := hG.2.2.2.1
  rw [filter_root_eq db pVtab pCur idxNum argv hbit] at hrc hst hQ
  by_cases hp : (db.prepare (planSql pVtab idxNum argv)).1 ≠ 0
  · rw [if_pos hp] at hrc
    exact absurd hrc hp
  · rw [if_neg hp] at hst hQ
    simp only at hst hQ
    rw [(next_frame _).2.2.2.2.1] at hst
    have hst' : (seedCursor (planCursor pVtab pCur idxNum argv)
        (db.prepare (planSql pVtab idxNum argv)).2 (argv 0).int64).pStmt = some stmt := hst
    have hq := next_queue _ stmt { id := (argv 0).int64, parent := (argv 0).int64, distance := 0 }
      [] hst' rfl (by simp [QWf, seedCursor])
      (by simp [seedCursor, bfsvtab_avl.Ordered, bfsvtab_avl.ids, bfsvtab_avl.entries])
    rw [hq] at hQ
    rw [← hQ]
    exact disc_next stmt _ [] _ [] _ _ (inv_init stmt _) (disc_init stmt _)
      (fun v => by simp [seedCursor, bfsvtab_avl.ids, bfsvtab_avl.entries])

theorem scan_order (stmt : sqlite3_stmt) (root : Int) :
    ∀ (fuel : Nat) (rc : Int) (c : bfsvtab_cursor) (Xs : List bfsvtab_node)
      (cur : bfsvtab_node) (Q : List bfsvtab_node), GoodOrder stmt root c Xs cur Q →
      ∀ r1 c' r2, hostScan fuel (rc, c) = r1 ++ c' :: r2 →
        ∃ cur' Q', GoodOrder stmt root c' (Xs ++ currentOf r1) cur' Q' := by
  intro fuel
  induction fuel with
  | zero =>
    intro rc c Xs cur Q _ r1 c' r2 hd
    simp [hostScan] at hd
  | succ n ih =>
    intro rc c Xs cur Q h r1 c' r2 hd
    by_cases hstop : rc ≠ SQLITE_OK ∨ bfsvtabEof c = true
    · simp [hostScan, hstop] at hd
    · have hsc : hostScan (n + 1) (rc, c) = c :: hostScan n (bfsvtabNext c) := by
        simp only [hostScan, hstop, ↓reduceIte]
      rw [hsc] at hd
      cases r1 with
      | nil =>
        simp only [List.nil_append, List.cons.injEq] at hd
        obtain ⟨rfl, -⟩ := hd
        exact ⟨cur, Q, by simpa [currentOf] using h⟩
      | cons a l =>
        simp only [List.cons_append, List.cons.injEq] at hd
        obtain ⟨rfl, hd⟩ := hd
        have hcur : Xs ++ currentOf (c :: l) = Xs ++ [cur] ++ currentOf l := by
          simp [currentOf, h.1.1]
        rw [hcur]
        cases Q with
        | nil =>
          have he := next_empty c h.1.2.2.2.1
          rw [hostScan_eof n (bfsvtabNext c).1 (bfsvtabNext c).2 he.2] at hd
          simp at hd
        | cons q0 rest =>
          obtain ⟨Qn, hg⟩ := h.next_order
          exact ih (bfsvtabNext c).1 (bfsvtabNext c).2 _ _ _ hg l c' r2 hd

/-- At every row of a query the cursor stands at an emitted record with the traversal
invariant and the order of discovery, over the records emitted before. -/
theorem query_order (fuel : Nat) (db : sqlite3) (pVtab : bfsvtab_vtab) (pCur : bfsvtab_cursor)
    (idxNum : Nat) (argv : Nat → sqlite3_value) (r1 r2 : List bfsvtab_cursor)
    (c : bfsvtab_cursor) (hd : bfsvtabQuery fuel db pVtab pCur idxNum argv = r1 ++ c :: r2) :
    ∃ stmt cur Q, (bfsvtabFilter db pVtab pCur idxNum argv).2.2.pStmt = some stmt ∧
      GoodOrder stmt (argv 0).int64 c (currentOf r1) cur Q := by
  by_cases hbit : idxNum &&& 1 = 0
  · have : bfsvtabQuery fuel db pVtab pCur idxNum argv = [] := by
      unfold bfsvtabQuery
      rw [filter_noroot db pVtab pCur idxNum argv hbit]
      exact hostScan_eof _ _ _ (by simp [bfsvtabEof, bfsvtabClearCursor])
    rw [this] at hd
    simp at hd
  · by_cases hrc : (bfsvtabFilter db pVtab pCur idxNum argv).1 = SQLITE_OK
    · obtain ⟨stmt, Q, hG⟩ := filter_good_order db pVtab pCur idxNum argv hbit hrc
      obtain ⟨cur', Q', h⟩ := scan_order stmt (argv 0).int64 fuel
        (bfsvtabFilter db pVtab pCur idxNum argv).1 _ _ _ _ hG r1 c r2 hd
      exact ⟨stmt, cur', Q', hG.1.2.1, by simpa using h⟩
    · have : bfsvtabQuery fuel db pVtab pCur idxNum argv = [] := by
        unfold bfsvtabQuery
        cases fuel with
        | zero => rfl
        | succ n => simp [hostScan, hrc]
      rw [this] at hd
      simp at hd

theorem indexOf_of_getElem? (l : List Int) (hnd : l.Nodup) (k : Nat) (v : Int)
    (h : l[k]? = some v) : l.indexOf v = k := by
  obtain ⟨hk, hv⟩ := List.getElem?_eq_some.1 h
  rw [← hv]
  exact List.indexOf_getElem hnd k hk

/-- In a list of records with distinct ids that is ordered by the position of the parents,
a record whose parent stands before the parent of another stands before it. -/
theorem order_by_parent (X : List bfsvtab_node) (root : Int) (hnd : (X.map (·.id)).Nodup)
    (hP : X.Pairwise fun a b => a.id ≠ root → b.id ≠ root →
      (X.map (·.id)).indexOf a.parent ≤ (X.map (·.id)).indexOf b.parent)
    (i j k l : Nat) (a b pa pb : bfsvtab_node)
    (hi : X[i]? = some a) (hj : X[j]? = some b) (hk : X[k]? = some pa) (hl : X[l]? = some pb)
    (ha : a.id ≠ root) (hb : b.id ≠ root) (hpa : pa.id = a.parent) (hpb : pb.id = b.parent)
    (hkl : k < l) : i < j := by
  have ek : (X.map (·.id)).indexOf a.parent = k :=
    indexOf_of_getElem? _ hnd k _ (by rw [List.getElem?_map, hk, ← hpa]; rfl)
  have el : (X.map (·.id)).indexOf b.parent = l :=
    indexOf_of_getElem? _ hnd l _ (by rw [List.getElem?_map, hl, ← hpb]; rfl)
  obtain ⟨hi', hia⟩ := List.getElem?_eq_some.1 hi
  obtain ⟨hj', hjb⟩ := List.getElem?_eq_some.1 hj
  by_contra hij
  rcases Nat.lt_or_ge j i with hji | hji
  · have := (List.pairwise_iff_getElem.1 hP) j i hj' hi' hji
    rw [hia, hjb] at this
    have := this hb ha
    omega
  · have heq : i = j := by omega
    subst heq
    have hab : a = b := by rw [← hia, ← hjb]
    rw [hab] at ek
    omega

/-- In a list of records with distinct ids in which records of one parent are ordered by the
first occurrence of their ids among the rows of the parent, two records of one parent stand
in that order. -/
theorem order_of_siblings (X : List bfsvtab_node) (root : Int) (stmt : sqlite3_stmt)
    (hS : X.Pairwise fun a b => a.id ≠ root → b.id ≠ root → a.parent = b.parent →
      firstRow a.id (stmt.step a.parent) < firstRow b.id (stmt.step a.parent))
    (i j : Nat) (a b : bfsvtab_node)
    (hi : X[i]? = some a) (hj : X[j]? = some b)
    (ha : a.id ≠ root) (hb : b.id ≠ root) (hp : a.parent = b.parent) :
    i < j ↔ firstRow a.id (stmt.step a.parent) < firstRow b.id (stmt.step a.parent) := by
  obtain ⟨hi', hia⟩ := List.getElem?_eq_some.1 hi
  obtain ⟨hj', hjb⟩ := List.getElem?_eq_some.1 hj
  constructor
  · intro hij
    have := (List.pairwise_iff_getElem.1 hS) i j hi' hj' hij
    rw [hia, hjb] at this
    exact this ha hb hp
  · intro hlt
    by_contra hij
    rcases Nat.lt_or_ge j i with hji | hji
    · have := (List.pairwise_iff_getElem.1 hS) j i hj' hi' hji
      rw [hia, hjb] at this
      have := this hb ha hp.symm
      rw [← hp] at this
      omega
    · have heq : i = j := by omega
      subst heq
      have hab : a = b := by rw [← hia, ← hjb]
      rw [hab] at hlt
      omega

/-- The rows of a query that is not empty end in a row at which the records emitted are all
the records of the rows, with the traversal invariant and the order of discovery. -/
theorem query_last_order (fuel : Nat) (db : sqlite3) (pVtab : bfsvtab_vtab)
    (pCur : bfsvtab_cursor) (idxNum : Nat) (argv : Nat → sqlite3_value)
    (hne : bfsvtabQuery fuel db pVtab pCur idxNum argv ≠ []) :
    ∃ stmt Q vis, (bfsvtabFilter db pVtab pCur idxNum argv).2.2.pStmt = some stmt ∧
      Inv stmt (argv 0).int64 (Edge stmt)
        (currentOf (bfsvtabQuery fuel db pVtab pCur idxNum argv)) Q vis ∧
      Disc stmt (argv 0).int64 (currentOf (bfsvtabQuery fuel db pVtab pCur idxNum argv)) Q := by
  rcases List.eq_nil_or_concat (bfsvtabQuery fuel db pVtab pCur idxNum argv) with h | ⟨r1, c, h⟩
  · exact absurd h hne
  · have hd : bfsvtabQuery fuel db pVtab pCur idxNum argv = r1 ++ c :: [] := by
      rw [h, List.concat_eq_append]
    obtain ⟨stmt, cur, Q, hs, hg, hdisc⟩ := query_order fuel db pVtab pCur idxNum argv r1 [] c hd
    have hE : currentOf (bfsvtabQuery fuel db pVtab pCur idxNum argv) =
        currentOf r1 ++ [cur] := by
      rw [hd, currentOf_append]
      simp [currentOf, hg.1]
    rw [hE]
    exact ⟨stmt, Q, c.pVisited, hs, hg.2.2.2.2.2, hdisc⟩

/-- C22: for every emitted row whose record `x` is not the root, the rows emitted before it
hold a record `y` with `y.id = x.parent` that has an integer edge to `x.id`, and no record
emitted before `y` has an integer edge to `x.id`: the parent is the earliest emitted vertex
with an edge to it.  At this row and at every later row the visited set holds for `x.id` the
entry with that same parent, whatever further edges into `x.id` the later rows processed. -/
theorem first_discovery_wins (fuel : Nat) (db : sqlite3) (pVtab : bfsvtab_vtab)
    (pCur : bfsvtab_cursor) (idxNum : Nat) (argv : Nat → sqlite3_value) (i : Nat)
    (c : bfsvtab_cursor) (x : bfsvtab_node)
    (hi : (bfsvtabQuery fuel db pVtab pCur idxNum argv)[i]? = some c)
    (hx : c.pCurrent = some x) (hroot : x.id ≠ c.root) :
    ∃ stmt, (bfsvtabFilter db pVtab pCur idxNum argv).2.2.pStmt = some stmt ∧
      (∃ X1 y X2,
        currentOf ((bfsvtabQuery fuel db pVtab pCur idxNum argv).take i) = X1 ++ y :: X2 ∧
        y.id = x.parent ∧ Edge stmt y.id x.id ∧ ∀ u ∈ X1, ¬ Edge stmt u.id x.id) ∧
      (∀ (j : Nat) (c' : bfsvtab_cursor), i ≤ j →
        (bfsvtabQuery fuel db pVtab pCur idxNum argv)[j]? = some c' →
        ∃ b a hh im, bfsvtabAvlSearch c'.pVisited x.id = .node x.id x.parent b a hh im) := by
  have hd := decomp_of_getElem? _ i c hi
  obtain ⟨stmt, cur, Q, hs, hg, hdisc⟩ := query_order fuel db pVtab pCur idxNum argv _ _ c hd
  have hcur : cur = x := by
    have := hg.1
    rw [hx] at this
    exact (Option.some.inj this).symm
  subst hcur
  have hr : cur.id ≠ (argv 0).int64 := by
    rw [← hg.2.2.1]
    exact hroot
  have hinv := hg.2.2.2.2.2
  have hmem : cur ∈ (currentOf ((bfsvtabQuery fuel db pVtab pCur idxNum argv).take i) ++
      [cur]) ++ Q := by simp
  refine ⟨stmt, hs, ?_, ?_⟩
  · obtain ⟨X1, y, X2, e1, e2, e3, e4⟩ := hdisc.first cur hmem hr
    have hyx : y ≠ cur := by
      intro hyc
      obtain ⟨y', hy', h1, h2, -⟩ := hinv.par cur hmem hr
      have : y' = cur := hinv.eq_of_id (List.mem_append_left _ hy') hmem
        (by rw [h1, ← e2, hyc])
      rw [this] at h2
      omega
    rcases List.eq_nil_or_concat X2 with h2 | ⟨X2', z, h2⟩
    · rw [h2] at e1
      have := (List.append_inj' e1 rfl).2
      simp only [List.cons.injEq, and_true] at this
      exact absurd this.symm hyx
    · rw [h2, List.concat_eq_append] at e1
      have e1' : currentOf ((bfsvtabQuery fuel db pVtab pCur idxNum argv).take i) ++ [cur] =
          (X1 ++ y :: X2') ++ [z] := by
        rw [e1]
        simp
      exact ⟨X1, y, X2', (List.append_inj' e1' rfl).1, e2, e3, e4⟩
  · intro j c' hij hj
    have hd' := decomp_of_getElem? _ j c' hj
    obtain ⟨stmt', cur', Q', -, hg', -⟩ := query_order fuel db pVtab pCur idxNum argv _ _ c' hd'
    have hmem' : cur ∈ (currentOf ((bfsvtabQuery fuel db pVtab pCur idxNum argv).take j) ++
        [cur']) ++ Q' := by
      rcases Nat.lt_or_ge i j with hlt | hge
      · apply List.mem_append_left
        apply List.mem_append_left
        unfold currentOf
        rw [List.mem_filterMap]
        refine ⟨c, ?_, hx⟩
        have : ((bfsvtabQuery fuel db pVtab pCur idxNum argv).take j)[i]? = some c := by
          rw [List.getElem?_take_of_lt hlt]
          exact hi
        exact List.getElem?_mem this
      · have hij' : i = j := by omega
        subst hij'
        rw [hi] at hj
        have hcc : c = c' := Option.some.inj hj
        subst hcc
        have := hg'.1
        rw [hx] at this
        rw [← Option.some.inj this]
        simp
    exact hg'.2.2.2.2.2.search_entry hmem'

set_option maxRecDepth 8192 in
theorem first_discovery_wins_witness :
    (bfsvtabQuery 9 (edgeDb diamondEdges) exampleVtab bfsvtabOpen 1 (rootArgv 1))[3]? =
      some (bfsvtabNext (bfsvtabNext (bfsvtabNext
        (bfsvtabFilter (edgeDb diamondEdges) exampleVtab bfsvtabOpen 1 (rootArgv 1)).2.2).2).2).2 ∧
    (bfsvtabNext (bfsvtabNext (bfsvtabNext
        (bfsvtabFilter (edgeDb diamondEdges) exampleVtab bfsvtabOpen 1
          (rootArgv 1)).2.2).2).2).2.pCurrent = some ⟨4, 2, 2⟩ ∧
    (4 : Int) ≠ (bfsvtabNext (bfsvtabNext (bfsvtabNext
        (bfsvtabFilter (edgeDb diamondEdges) exampleVtab bfsvtabOpen 1
          (rootArgv 1)).2.2).2).2).2.root ∧
    currentOf (bfsvtabQuery 9 (edgeDb diamondEdges) exampleVtab bfsvtabOpen 1 (rootArgv 1)) =
      [⟨1, 1, 0⟩, ⟨2, 1, 1⟩, ⟨3, 1, 1⟩, ⟨4, 2, 2⟩] ∧
    ∃ stmt, (bfsvtabFilter (edgeDb diamondEdges) exampleVtab bfsvtabOpen 1
        (rootArgv 1)).2.2.pStmt = some stmt ∧
      ∃ X1 y X2,
        currentOf ((bfsvtabQuery 9 (edgeDb diamondEdges) exampleVtab bfsvtabOpen 1
          (rootArgv 1)).take 3) = X1 ++ y :: X2 ∧
        y.id = 2 ∧ Edge stmt y.id 4 ∧ ∀ u ∈ X1, ¬ Edge stmt u.id 4 :=
  ⟨rfl, rfl, by decide, by decide,
    (first_discovery_wins 9 (edgeDb diamondEdges) exampleVtab bfsvtabOpen 1 (rootArgv 1) 3
      _ ⟨4, 2, 2⟩ rfl rfl (by decide)).imp fun _ h => ⟨h.1, h.2.1⟩⟩

/-- C23: among the emitted rows, for records `a` (at position `i`) and `b` (at position `j`)
other than the root whose parents are the records at positions `k` and `l`: if the parent of
`a` was emitted before the parent of `b` (`k < l`), then `a` is emitted before `b`; and if
they have the same parent (`k = l`), then `a` is emitted before `b` iff the id of `a` first
occurs before the id of `b` among the integer-typed rows that the neighbour statement
returns for the parent. -/
theorem emission_order (fuel : Nat) (db : sqlite3) (pVtab : bfsvtab_vtab)
    (pCur : bfsvtab_cursor) (idxNum : Nat) (argv : Nat → sqlite3_value)
    (i j k l : Nat) (a b pa pb : bfsvtab_node)
    (hi : (currentOf (bfsvtabQuery fuel db pVtab pCur idxNum argv))[i]? = some a)
    (hj : (currentOf (bfsvtabQuery fuel db pVtab pCur idxNum argv))[j]? = some b)
    (hk : (currentOf (bfsvtabQuery fuel db pVtab pCur idxNum argv))[k]? = some pa)
    (hl : (currentOf (bfsvtabQuery fuel db pVtab pCur idxNum argv))[l]? = some pb)
    (ha : a.id ≠ (argv 0).int64) (hb : b.id ≠ (argv 0).int64)
    (hpa : pa.id = a.parent) (hpb : pb.id = b.parent) :
    (k < l → i < j) ∧
    (k = l → ∃ stmt, (bfsvtabFilter db pVtab pCur idxNum argv).2.2.pStmt = some stmt ∧
      (i < j ↔ firstRow a.id (stmt.step pa.id) < firstRow b.id (stmt.step pa.id))) := by
  have hne : bfsvtabQuery fuel db pVtab pCur idxNum argv ≠ [] := by
    intro h
    rw [h] at hi
    simp [currentOf] at hi
  obtain ⟨stmt, Q, vis, hs, hinv, hdisc⟩ := query_last_order fuel db pVtab pCur idxNum argv hne
  have hnd : ((currentOf (bfsvtabQuery fuel db pVtab pCur idxNum argv)).map (·.id)).Nodup := by
    have := hinv.nodup
    rw [List.map_append] at this
    exact (List.nodup_append.1 this).1
  constructor
  · intro hkl
    exact order_by_parent _ _ hnd (List.pairwise_append.1 hdisc.byParent).1 i j k l a b pa pb
      hi hj hk hl ha hb hpa hpb hkl
  · intro hkl
    subst hkl
    have hpp : pa = pb := by
      rw [hk] at hl
      exact Option.some.inj hl
    subst hpp
    refine ⟨stmt, hs, ?_⟩
    rw [hpa]
    exact order_of_siblings _ _ stmt (List.pairwise_append.1 hdisc.siblings).1 i j a b hi hj
      ha hb (by rw [← hpa, ← hpb])

set_option maxRecDepth 8192 in
theorem emission_order_witness :
    (currentOf (bfsvtabQuery 9 (edgeDb diamondEdges) exampleVtab bfsvtabOpen 1
      (rootArgv 1)))[2]? = some ⟨3, 1, 1⟩ ∧
    (currentOf (bfsvtabQuery 9 (edgeDb diamondEdges) exampleVtab bfsvtabOpen 1
      (rootArgv 1)))[3]? = some ⟨4, 2, 2⟩ ∧
    (currentOf (bfsvtabQuery 9 (edgeDb diamondEdges) exampleVtab bfsvtabOpen 1
      (rootArgv 1)))[0]? = some ⟨1, 1, 0⟩ ∧
    (currentOf (bfsvtabQuery 9 (edgeDb diamondEdges) exampleVtab bfsvtabOpen 1
      (rootArgv 1)))[1]? = some ⟨2, 1, 1⟩ ∧
    (3 : Int) ≠ (rootArgv 1 0).int64 ∧ (4 : Int) ≠ (rootArgv 1 0).int64 ∧
    ((0 < 1 → 2 < 3) ∧
      (0 = 1 → ∃ stmt, (bfsvtabFilter (edgeDb diamondEdges) exampleVtab bfsvtabOpen 1
          (rootArgv 1)).2.2.pStmt = some stmt ∧
        (2 < 3 ↔ firstRow 3 (stmt.step 1) < firstRow 4 (stmt.step 1)))) ∧
    (2 : Int) ≠ (rootArgv 1 0).int64 ∧
    ((0 < 0 → 1 < 2) ∧
      (0 = 0 → ∃ stmt, (bfsvtabFilter (edgeDb diamondEdges) exampleVtab bfsvtabOpen 1
          (rootArgv 1)).2.2.pStmt = some stmt ∧
        (1 < 2 ↔ firstRow 2 (stmt.step 1) < firstRow 3 (stmt.step 1)))) :=
  ⟨by decide, by decide, by decide, by decide, by decide, by decide,
    emission_order 9 (edgeDb diamondEdges) exampleVtab bfsvtabOpen 1 (rootArgv 1) 2 3 0 1
      ⟨3, 1, 1⟩ ⟨4, 2, 2⟩ ⟨1, 1, 0⟩ ⟨2, 1, 1⟩ (by decide) (by decide) (by decide) (by decide)
      (by decide) (by decide) rfl rfl,
    by decide,
    emission_order 9 (edgeDb diamondEdges) exampleVtab bfsvtabOpen 1 (rootArgv 1) 1 2 0 0
      ⟨2, 1, 1⟩ ⟨3, 1, 1⟩ ⟨1, 1, 0⟩ ⟨1, 1, 0⟩ (by decide) (by decide) (by decide) (by decide)
      (by decide) (by decide) rfl rfl⟩

end Bfsvtab
